import Mathlib

/-!
Verification of the red-black tree implementation (RBTree.c) and its vector
comparator client (Structs.c).  The C code is embedded shallowly: nodes live in
a heap (association list from ids to node records), every pointer is an
`Option Nat`, every C function becomes a Lean function threading the heap
state, and dereferencing a null or dangling pointer yields `none`
(undefined behaviour).  Recursive C functions take explicit fuel.
-/

namespace RBVerify

/-- Node colors, as in the C enum. -/
inductive Color where
  | RED : Color
  | BLACK : Color
deriving DecidableEq, Repr

/-- A heap node: `struct Node` from RBTree.h (data, color, left, right, parent). -/
structure NRec (α : Type) where
  data : α
  color : Color
  left : Option Nat
  right : Option Nat
  parent : Option Nat
deriving DecidableEq, Repr

/-- The heap: an association list from node ids to node records. -/
abbrev Heap (α : Type) := List (Nat × NRec α)

/-- Read a cell from the heap (`none` = dangling pointer). -/
def hget {α : Type} (h : Heap α) (i : Nat) : Option (NRec α) :=
  match h with
  | [] => none
  | p :: t => if p.1 = i then some p.2 else hget t i

/-- Overwrite cell `i` in place. -/
def hset {α : Type} (h : Heap α) (i : Nat) (n : NRec α) : Heap α :=
  h.map (fun p => if p.1 = i then (i, n) else p)

/-- Release cell `i` (C `free`). -/
def hdel {α : Type} (h : Heap α) (i : Nat) : Heap α :=
  h.filter (fun p => p.1 ≠ i)

/-- `struct RBTree` plus the allocator state and the log of destructor
(`freeFunc`) invocations. -/
structure RBState (α : Type) where
  heap : Heap α
  next : Nat
  root : Option Nat
  size : Int
  freed : List α
deriving DecidableEq, Repr

/-- The undefined-behaviour monad: `none` marks a C execution that dereferences
a null or dangling pointer, or runs out of fuel.  It is `Option` behind a
definition so that the compiler does not inline the bind. -/
def UB (a : Type) : Type := Option a

def ubBind {a b : Type} (x : UB a) (f : a → UB b) : UB b :=
  match x with
  | none => none
  | some v => f v

instance : Monad UB where
  pure := fun v => some v
  bind := ubBind

/-- Dereference a possibly-null pointer to its id: C's `p->...` on `p` that
must not be NULL. -/
def ptr (p : Option Nat) : UB Nat := p

variable {α : Type} {σ : Type}

/-- Dereference a node id. -/
def getN (st : RBState α) (i : Nat) : UB (NRec α) := hget st.heap i

/-- Dereference a possibly-null pointer. -/
def derefN (st : RBState α) (p : Option Nat) : UB (NRec α) := do
  let i ← ptr p
  getN st i

def setNode (st : RBState α) (i : Nat) (n : NRec α) : RBState α :=
  { st with heap := hset st.heap i n }

def setLeft (st : RBState α) (i : Nat) (v : Option Nat) : UB (RBState α) :=
  (hget st.heap i).map (fun n => setNode st i { n with left := v })

def setRight (st : RBState α) (i : Nat) (v : Option Nat) : UB (RBState α) :=
  (hget st.heap i).map (fun n => setNode st i { n with right := v })

def setParent (st : RBState α) (i : Nat) (v : Option Nat) : UB (RBState α) :=
  (hget st.heap i).map (fun n => setNode st i { n with parent := v })

def setColor (st : RBState α) (i : Nat) (c : Color) : UB (RBState α) :=
  (hget st.heap i).map (fun n => setNode st i { n with color := c })

def setData (st : RBState α) (i : Nat) (d : α) : UB (RBState α) :=
  (hget st.heap i).map (fun n => setNode st i { n with data := d })

/-- C `getParent` (RBTree.c:228): null node or null parent gives null. -/
def getParent (st : RBState α) (node : Option Nat) : UB (Option Nat) :=
  match node with
  | none => pure none
  | some i => do
    let n ← getN st i
    pure n.parent

/-- The C idiom `if (p != NULL) p->parent = v;` (used by the rotations and
`removeM`). -/
def setParentIf (st : RBState α) (p : Option Nat) (v : Option Nat) :
    UB (RBState α) :=
  match p with
  | some i => setParent st i v
  | none => pure st

/-- The C idiom `if (c) x->left = v; else x->right = v;`. -/
def setLeftElseRight (st : RBState α) (i : Nat) (c : Bool) (v : Option Nat) :
    UB (RBState α) :=
  if c then setLeft st i v else setRight st i v

/-- The C idiom `if (c) x->right = v; else x->left = v;`. -/
def setRightElseLeft (st : RBState α) (i : Nat) (c : Bool) (v : Option Nat) :
    UB (RBState α) :=
  if c then setRight st i v else setLeft st i v

/-- The C idiom `p != NULL && p->color == RED`. -/
def ptrIsRed (st : RBState α) (p : Option Nat) : UB Bool :=
  match p with
  | some i => do
    let n ← getN st i
    pure (n.color == Color.RED)
  | none => pure false

/-- The C idiom `p == NULL || p->color == BLACK`. -/
def ptrIsBlackOrNull (st : RBState α) (p : Option Nat) : UB Bool :=
  match p with
  | some i => do
    let n ← getN st i
    pure (n.color == Color.BLACK)
  | none => pure true

/-- The C idiom `p != NULL && cmp(d, p->data) == 0`. -/
def cmpWithPtr (cmp : α → α → Int) (st : RBState α) (d : α) (p : Option Nat) :
    UB Bool :=
  match p with
  | some i => do
    let n ← getN st i
    pure (cmp d n.data == 0)
  | none => pure false

/-- The C idiom `p != NULL && cmp(p->data, d) == 0`. -/
def cmpPtrWith (cmp : α → α → Int) (st : RBState α) (p : Option Nat) (d : α) :
    UB Bool :=
  match p with
  | some i => do
    let n ← getN st i
    pure (cmp n.data d == 0)
  | none => pure false

/-- C `getUncle` (RBTree.c:245). -/
def getUncle (cmp : α → α → Int) (st : RBState α) (node : Nat) :
    UB (Option Nat) := do
  let parentPtr ← getParent st (some node)
  let gpPtr ← getParent st parentPtr
  match gpPtr with
  | some g => do
    let gn ← getN st g
    match gn.left with
    | some gl => do
      let gln ← getN st gl
      let pn ← derefN st parentPtr
      if cmp gln.data pn.data ≠ 0 then
        pure (some gl)
      else
        match gn.right with
        | some gr => pure (some gr)
        | none => pure none
    | none => pure none
  | none => pure none

/-- C `contains` (RBTree.c:998): comparator-guided descent. -/
def contains (cmp : α → α → Int) (st : RBState α) (node : Option Nat) (d : α) :
    Nat → UB Int
  | 0 => none
  | fuel+1 =>
    match node with
    | some i => do
      let n ← getN st i
      if cmp n.data d = 0 then pure 1
      else if cmp n.data d < 0 then contains cmp st n.right d fuel
      else contains cmp st n.left d fuel
    | none => pure 0

/-- C `RBTreeContains` (RBTree.c:983). -/
def RBTreeContains (cmp : α → α → Int) (tree : Option (RBState α)) (d : α)
    (fuel : Nat) : UB Int :=
  match tree with
  | none => pure 0
  | some st => contains cmp st st.root d fuel

/-- C `treeRBinsert` (RBTree.c:139).  Note: the C code discards the result of
the recursive call and falls through to `return 1`. -/
def treeRBinsert (cmp : α → α → Int) (st : RBState α) (root new : Nat) :
    Nat → UB (Int × RBState α)
  | 0 => none
  | fuel+1 => do
    let r ← getN st root
    let n ← getN st new
    if cmp r.data n.data = 0 then
      pure (0, st)
    else if cmp r.data n.data < 0 then
      match r.right with
      | some ri => do
        let res ← treeRBinsert cmp st ri new fuel
        pure (1, res.2)
      | none => do
        let st1 ← setRight st root (some new)
        let st2 ← setParent st1 new (some root)
        pure (1, st2)
    else
      match r.left with
      | some li => do
        let res ← treeRBinsert cmp st li new fuel
        pure (1, res.2)
      | none => do
        let st1 ← setLeft st root (some new)
        let st2 ← setParent st1 new (some root)
        pure (1, st2)

/-- The shared tail of `rotateLeft2` and `rotateRight2` (RBTree.c:394-414 and
RBTree.c:432-452, textually identical): reattach `parent` (node `pi`) where
the grandparent (node `gi`) used to hang, updating the tree root if the
grandparent was the root. -/
def rotateLink (cmp : α → α → Int) (st3 : RBState α) (gi pi : Nat) :
    UB (RBState α) := do
  let g3 ← getN st3 gi
  match g3.parent with
  | none => do
    let st4 := { st3 with root := some pi }
    let st5 ← setParent st4 pi none
    let st6 ← setColor st5 pi Color.BLACK
    setParent st6 gi (some pi)
  | some ggi => do
    let gg ← getN st3 ggi
    let ggl ← ptr gg.left
    let gln ← getN st3 ggl
    let g ← getN st3 gi
    let st4 ← setLeftElseRight st3 ggi (cmp gln.data g.data == 0) (some pi)
    let st5 ← setParent st4 pi (some ggi)
    setParent st5 gi (some pi)

/-- C `rotateLeft2` (RBTree.c:383). -/
def rotateLeft2 (cmp : α → α → Int) (st0 : RBState α) (node : Nat) :
    UB (RBState α) := do
  let parentPtr ← getParent st0 (some node)
  let gpPtr ← getParent st0 parentPtr
  let gi ← ptr gpPtr
  let pi ← ptr parentPtr
  let p0 ← getN st0 pi
  let st1 ← setRight st0 gi p0.left
  let st2 ← setParentIf st1 p0.left (some gi)
  let st3 ← setLeft st2 pi (some gi)
  rotateLink cmp st3 gi pi

/-- C `rotateRight2` (RBTree.c:422); unlike `rotateLeft2` it also recolors the
grandparent RED at the end. -/
def rotateRight2 (cmp : α → α → Int) (st0 : RBState α) (node : Nat) :
    UB (RBState α) := do
  let parentPtr ← getParent st0 (some node)
  let gpPtr ← getParent st0 parentPtr
  let gi ← ptr gpPtr
  let pi ← ptr parentPtr
  let p0 ← getN st0 pi
  let st1 ← setLeft st0 gi p0.right
  let st2 ← setParentIf st1 p0.right (some gi)
  let st3 ← setRight st2 pi (some gi)
  let st' ← rotateLink cmp st3 gi pi
  setColor st' gi Color.RED

/-- C `rotateLeft` (RBTree.c:316). -/
def rotateLeft (cmp : α → α → Int) (st0 : RBState α) (node : Nat) :
    UB (RBState α) := do
  let parentPtr ← getParent st0 (some node)
  let gpPtr ← getParent st0 parentPtr
  let gi ← ptr gpPtr
  let g0 ← getN st0 gi
  let pi ← ptr parentPtr
  let p0 ← getN st0 pi
  let cond ← cmpWithPtr cmp st0 p0.data g0.left
  if cond then do
    let st1 ← setLeft st0 gi (some node)
    let n1 ← getN st1 node
    let st2 ← setParentIf st1 n1.left (some pi)
    let n2 ← getN st2 node
    let st3 ← setRight st2 pi n2.left
    let st4 ← setLeft st3 node (some pi)
    let st5 ← setParent st4 node (some gi)
    let st6 ← setParent st5 pi (some node)
    let st7 ← rotateRight2 cmp st6 pi
    let st8 ← setColor st7 node Color.BLACK
    setColor st8 gi Color.RED
  else do
    let st1 ← rotateLeft2 cmp st0 node
    let st2 ← setColor st1 pi Color.BLACK
    setColor st2 gi Color.RED

/-- C `rotateRight` (RBTree.c:348). -/
def rotateRight (cmp : α → α → Int) (st0 : RBState α) (node : Nat) :
    UB (RBState α) := do
  let parentPtr ← getParent st0 (some node)
  let gpPtr ← getParent st0 parentPtr
  let gi ← ptr gpPtr
  let g0 ← getN st0 gi
  let pi ← ptr parentPtr
  let p0 ← getN st0 pi
  let cond ← cmpWithPtr cmp st0 p0.data g0.right
  if cond then do
    let st1 ← setRight st0 gi (some node)
    let n1 ← getN st1 node
    let st2 ← setParentIf st1 n1.right (some pi)
    let n2 ← getN st2 node
    let st3 ← setLeft st2 pi n2.right
    let st4 ← setRight st3 node (some pi)
    let st5 ← setParent st4 node (some gi)
    let st6 ← setParent st5 pi (some node)
    let st7 ← rotateLeft2 cmp st6 pi
    let st8 ← setColor st7 node Color.BLACK
    setColor st8 gi Color.RED
  else do
    let gl ← ptr g0.left
    let gln ← getN st0 gl
    if cmp p0.data gln.data = 0 then do
      let st1 ← rotateRight2 cmp st0 node
      let st2 ← setColor st1 pi Color.BLACK
      setColor st2 gi Color.RED
    else
      setColor st0 gi Color.RED

/-- The uncle-BLACK-or-null branch of `fixTreeInsert` (RBTree.c:296-307). -/
def fixInsElse (cmp : α → α → Int) (st : RBState α) (newlyAdded pi : Nat) :
    UB (RBState α) := do
  let pn ← getN st pi
  let nn ← getN st newlyAdded
  let cond ← cmpWithPtr cmp st nn.data pn.left
  if cond then rotateRight cmp st newlyAdded
  else rotateLeft cmp st newlyAdded

/-- C `fixTreeInsert` (RBTree.c:271). -/
def fixTreeInsert (cmp : α → α → Int) (st : RBState α) (newlyAdded : Nat) :
    Nat → UB (RBState α)
  | 0 => none
  | fuel+1 => do
    let uncle ← getUncle cmp st newlyAdded
    let parentPtr ← getParent st (some newlyAdded)
    let gpPtr ← getParent st parentPtr
    let ri ← ptr st.root
    let rn ← getN st ri
    let nn ← getN st newlyAdded
    if cmp rn.data nn.data = 0 then
      setColor st newlyAdded Color.BLACK
    else do
      let pi ← ptr parentPtr
      let pn ← getN st pi
      if pn.color = Color.RED then
        match uncle with
        | some ui => do
          let un ← getN st ui
          if un.color = Color.RED then do
            let st1 ← setColor st pi Color.BLACK
            let st2 ← setColor st1 ui Color.BLACK
            let gi ← ptr gpPtr
            let st3 ← setColor st2 gi Color.RED
            fixTreeInsert cmp st3 gi fuel
          else
            fixInsElse cmp st newlyAdded pi
        | none => fixInsElse cmp st newlyAdded pi
      else
        pure st

/-- The part of C `insertToRBTree` (RBTree.c:199-220) that runs after the node
allocation succeeded: `st0` is the state whose heap already holds the freshly
allocated RED node `ni` (still unlinked), mirroring `newNode` after its field
initialisation. -/
def insertMain (cmp : α → α → Int) (st0 : RBState α) (ni : Nat) (fuel : Nat) :
    UB (Int × Option (RBState α)) :=
  match st0.root with
  | none => do
    let st1 ← setColor st0 ni Color.BLACK
    pure (1, some { st1 with root := some ni, size := st1.size + 1 })
  | some ri => do
    let res ← treeRBinsert cmp st0 ri ni fuel
    if res.1 = 0 then pure (0, some res.2)
    else do
      let st2 ← fixTreeInsert cmp res.2 ni fuel
      pure (1, some { st2 with size := st2.size + 1 })

/-- C `insertToRBTree` (RBTree.c:180).  `tree` and `data` are optional to model
the null-argument checks; allocation is modelled as always succeeding and
placing the node at the fresh id `st.next`. -/
def insertToRBTree (cmp : α → α → Int) (tree : Option (RBState α))
    (data : Option α) (fuel : Nat) : UB (Int × Option (RBState α)) :=
  match tree with
  | none => pure (0, none)
  | some st =>
    match data with
    | none => pure (0, some st)
    | some d => do
      let c ← RBTreeContains cmp (some st) d fuel
      if c = 1 then pure (0, some st)
      else
        insertMain cmp
          { st with
              heap := st.heap ++ [(st.next, ⟨d, Color.RED, none, none, none⟩)],
              next := st.next + 1 }
          st.next fuel

/-- C `minValue` (RBTree.c:483): leftmost node of a subtree. -/
def minValue (st : RBState α) (node : Nat) : Nat → UB Nat
  | 0 => none
  | fuel+1 => do
    let n ← getN st node
    match n.left with
    | some l => minValue st l fuel
    | none => pure node

/-- C `inOrderSuccessor` (RBTree.c:462). -/
def inOrderSuccessor (st : RBState α) (n : Option Nat) (fuel : Nat) :
    UB (Option Nat) :=
  match n with
  | none => pure none
  | some i => do
    let nd ← getN st i
    match nd.right with
    | some r => do
      let m ← minValue st r fuel
      pure (some m)
    | none => pure none

/-- C `treeReplaceNode` (RBTree.c:504): swaps the data of the two nodes. -/
def treeReplaceNode (st : RBState α) (n child : Nat) : UB (RBState α) := do
  let nn ← getN st n
  let cn ← getN st child
  let st1 ← setData st n cn.data
  setData st1 child nn.data

/-- C `nodeFinder` (RBTree.c:961).  The C code dereferences `node->data` before
its `node == NULL` test, so a null `node` is undefined behaviour. -/
def nodeFinder (cmp : α → α → Int) (st : RBState α) (node : Option Nat)
    (d : α) : Nat → UB (Option Nat)
  | 0 => none
  | fuel+1 => do
    let i ← ptr node
    let n ← getN st i
    if cmp n.data d = 0 then pure (some i)
    else if cmp n.data d < 0 then nodeFinder cmp st n.right d fuel
    else nodeFinder cmp st n.left d fuel

/-- C `rotateLeftDelete` (RBTree.c:749). -/
def rotateLeftDelete (cmp : α → α → Int) (st0 : RBState α) (parent : Nat) :
    UB (RBState α) := do
  let p0 ← getN st0 parent
  let si ← ptr p0.right
  let s0 ← getN st0 si
  let st1 ← setRight st0 parent s0.left
  let st2 ← setParentIf st1 s0.left (some parent)
  let st3 ← setLeft st2 si (some parent)
  let p3 ← getN st3 parent
  let st4 ← setParent st3 si p3.parent
  let p4 ← getN st4 parent
  match p4.parent with
  | some ppi => do
    let pp ← getN st4 ppi
    let ppl ← ptr pp.left
    let ppln ← getN st4 ppl
    let pn ← getN st4 parent
    let st5 ← setLeftElseRight st4 ppi (cmp pn.data ppln.data == 0) (some si)
    setParent st5 parent (some si)
  | none => do
    let st5 := { st4 with root := some si }
    setParent st5 parent (some si)

/-- C `rotateRightDelete` (RBTree.c:715); unlike `rotateLeftDelete` its relink
test guards `parent->parent->left` against NULL. -/
def rotateRightDelete (cmp : α → α → Int) (st0 : RBState α) (parent : Nat) :
    UB (RBState α) := do
  let p0 ← getN st0 parent
  let si ← ptr p0.left
  let s0 ← getN st0 si
  let st1 ← setLeft st0 parent s0.right
  let st2 ← setParentIf st1 s0.right (some parent)
  let st3 ← setRight st2 si (some parent)
  let p3 ← getN st3 parent
  let st4 ← setParent st3 si p3.parent
  let p4 ← getN st4 parent
  match p4.parent with
  | some ppi => do
    let pp ← getN st4 ppi
    let pn ← getN st4 parent
    let cond ← cmpWithPtr cmp st4 pn.data pp.left
    let st5 ← setLeftElseRight st4 ppi cond (some si)
    setParent st5 parent (some si)
  | none => do
    let st5 := { st4 with root := some si }
    setParent st5 parent (some si)

/-- C `removeM` (RBTree.c:845): physically unlinks and frees `node`, returning
which side of its parent it occupied (or `'t'` for the root). -/
def removeM (cmp : α → α → Int) (st0 : RBState α) (node : Nat) :
    UB (Char × RBState α) := do
  let n ← getN st0 node
  match n.parent with
  | some pi => do
    let p ← getN st0 pi
    let isLeft ← cmpWithPtr cmp st0 n.data p.left
    if isLeft then do
      let st1 ← setLeft st0 pi n.left
      let st2 ← setParentIf st1 n.left (some pi)
      let st3 := { st2 with freed := st2.freed ++ [n.data] }
      pure ('l', { st3 with heap := hdel st3.heap node })
    else do
      let st1 ← setRight st0 pi n.right
      let st2 ← setParentIf st1 n.right (some pi)
      let st3 := { st2 with freed := st2.freed ++ [n.data] }
      pure ('r', { st3 with heap := hdel st3.heap node })
  | none => do
    let st1 := { st0 with root := n.right }
    let st2 ← setParentIf st1 n.right none
    let st3 := { st2 with freed := st2.freed ++ [n.data] }
    pure ('t', { st3 with heap := hdel st3.heap node })

/-- C `delete1` (RBTree.c:941): remove a RED node by detaching it from its
parent (dereferences `node->parent`, so a RED root is undefined behaviour). -/
def delete1 (cmp : α → α → Int) (st0 : RBState α) (node : Nat) :
    UB (RBState α) := do
  let n ← getN st0 node
  let pi ← ptr n.parent
  let p ← getN st0 pi
  let cond ← cmpPtrWith cmp st0 p.right n.data
  if cond then do
    let st1 ← setRight st0 pi none
    let st2 := { st1 with freed := st1.freed ++ [n.data] }
    pure { st2 with heap := hdel st2.heap node }
  else do
    let st1 ← setLeft st0 pi none
    let st2 := { st1 with freed := st1.freed ++ [n.data] }
    pure { st2 with heap := hdel st2.heap node }

/-- C `delete2` (RBTree.c:894): BLACK node with a RED child; splice the child
in and recolor it BLACK. -/
def delete2 (cmp : α → α → Int) (st0 : RBState α) (node : Nat) (side : Char) :
    UB (RBState α) := do
  let n ← getN st0 node
  if side = 'r' then do
    let ri ← ptr n.right
    let st1 ← setParent st0 ri n.parent
    let pi ← ptr n.parent
    let p ← getN st1 pi
    let pri ← ptr p.right
    let prn ← getN st1 pri
    let st2 ← setRightElseLeft st1 pi (cmp prn.data n.data == 0) n.right
    let st3 ← setColor st2 ri Color.BLACK
    let st4 := { st3 with freed := st3.freed ++ [n.data] }
    pure { st4 with heap := hdel st4.heap node }
  else do
    let li ← ptr n.left
    match n.parent with
    | none => do
      let st1 := { st0 with root := n.left }
      let st2 ← setParent st1 li none
      let st3 ← setColor st2 li Color.BLACK
      let st4 := { st3 with freed := st3.freed ++ [n.data] }
      pure { st4 with heap := hdel st4.heap node }
    | some pi => do
      let st1 ← setParent st0 li (some pi)
      let p ← getN st1 pi
      let pri ← ptr p.right
      let prn ← getN st1 pri
      let st2 ← setRightElseLeft st1 pi (cmp prn.data n.data == 0) n.left
      let st3 ← setColor st2 li Color.BLACK
      let st4 := { st3 with freed := st3.freed ++ [n.data] }
      pure { st4 with heap := hdel st4.heap node }

/-- C `deleteE` (RBTree.c:657): sibling BLACK, far nephew RED. -/
def deleteE (cmp : α → α → Int) (st0 : RBState α) (parent : Nat)
    (side : Char) : UB (RBState α) := do
  if side = 'l' then do
    let p ← getN st0 parent
    let si ← ptr p.right
    let sn ← getN st0 si
    let st1 ← setColor st0 parent sn.color
    let st2 ← setColor st1 si p.color
    let st3 ← rotateLeftDelete cmp st2 parent
    let s3 ← getN st3 si
    let sri ← ptr s3.right
    setColor st3 sri Color.BLACK
  else if side = 'r' then do
    let p ← getN st0 parent
    let si ← ptr p.left
    let sn ← getN st0 si
    let st1 ← setColor st0 parent sn.color
    let st2 ← setColor st1 si p.color
    let st3 ← rotateRightDelete cmp st2 parent
    let s3 ← getN st3 si
    let sli ← ptr s3.left
    setColor st3 sli Color.BLACK
  else pure st0

/-- C `deleteD` (RBTree.c:634): sibling BLACK, near nephew RED, far nephew
BLACK; rotate the near nephew up, then fall into `deleteE`. -/
def deleteD (cmp : α → α → Int) (st0 : RBState α) (parent : Nat)
    (side : Char) : UB (RBState α) := do
  if side = 'l' then do
    let p ← getN st0 parent
    let ri ← ptr p.right
    let r ← getN st0 ri
    let rli ← ptr r.left
    let st1 ← setColor st0 rli Color.BLACK
    let st2 ← setColor st1 ri Color.RED
    let st3 ← rotateRightDelete cmp st2 ri
    deleteE cmp st3 parent side
  else do
    let p ← getN st0 parent
    let li ← ptr p.left
    let l ← getN st0 li
    let lri ← ptr l.right
    let st1 ← setColor st0 lri Color.BLACK
    let st2 ← setColor st1 li Color.RED
    let st3 ← rotateLeftDelete cmp st2 li
    deleteE cmp st3 parent side

/-- The entry guard of `delete3` for side `'l'` (RBTree.c:786): true when
`pnode->left` is non-null and its data differs from the root's data. -/
def delete3GuardL (cmp : α → α → Int) (st : RBState α) (pl : Option Nat) :
    UB Bool :=
  match pl with
  | some pli => do
    let ri ← ptr st.root
    let rn ← getN st ri
    let pln ← getN st pli
    pure (cmp rn.data pln.data != 0)
  | none => pure false

/-- The entry guard of `delete3` for side `'r'` (RBTree.c:813): true when
`pnode->right` is non-null and its data equals the root's data (note the
asymmetry with the side-`'l'` guard). -/
def delete3GuardR (cmp : α → α → Int) (st : RBState α) (pr : Option Nat) :
    UB Bool :=
  match pr with
  | some pri => do
    let ri ← ptr st.root
    let rn ← getN st ri
    let prn ← getN st pri
    pure (cmp rn.data prn.data == 0)
  | none => pure false

mutual

/-- C `delete3` (RBTree.c:782): dispatch of the double-black rebalancing on
the sibling's color and the nephews' colors.  Note the odd entry guards
comparing against `tree->root->data` (asymmetric between the two sides). -/
def delete3 (cmp : α → α → Int) (st0 : RBState α) (pnode : Nat) (side : Char) :
    Nat → UB (RBState α)
  | 0 => none
  | fuel+1 => do
    if side = 'l' then do
      let p ← getN st0 pnode
      let g ← delete3GuardL cmp st0 p.left
      if g then pure st0
      else
        match p.right with
        | some ri => do
          let r ← getN st0 ri
          if r.color = Color.BLACK then do
            let rrBlack ← ptrIsBlackOrNull st0 r.right
            let rlBlack ← ptrIsBlackOrNull st0 r.left
            let rlRed ← ptrIsRed st0 r.left
            let rrRed ← ptrIsRed st0 r.right
            if rrBlack && rlBlack then deleteB cmp st0 pnode side fuel
            else if rlRed && rrBlack then deleteD cmp st0 pnode side
            else if rrRed then deleteE cmp st0 pnode side
            else pure st0
          else deleteC cmp st0 pnode side fuel
        | none => deleteC cmp st0 pnode side fuel
    else if side = 'r' then do
      let p ← getN st0 pnode
      let g ← delete3GuardR cmp st0 p.right
      if g then pure st0
      else
        match p.left with
        | some li => do
          let l ← getN st0 li
          if l.color = Color.BLACK then do
            let lrBlack ← ptrIsBlackOrNull st0 l.right
            let llBlack ← ptrIsBlackOrNull st0 l.left
            let lrRed ← ptrIsRed st0 l.right
            let llRed ← ptrIsRed st0 l.left
            if lrBlack && llBlack then deleteB cmp st0 pnode side fuel
            else if lrRed && llBlack then deleteD cmp st0 pnode side
            else if llRed then deleteE cmp st0 pnode side
            else pure st0
          else deleteC cmp st0 pnode side fuel
        | none => deleteC cmp st0 pnode side fuel
    else pure st0

/-- C `deleteB` (RBTree.c:590): sibling BLACK with two BLACK children.  Note
that with a BLACK parent and side `'l'` the C code recolors the sibling but
never recurses upward (unlike side `'r'`). -/
def deleteB (cmp : α → α → Int) (st0 : RBState α) (parent : Nat) (side : Char) :
    Nat → UB (RBState α)
  | 0 => none
  | fuel+1 => do
    let p ← getN st0 parent
    if p.color = Color.RED then do
      let st1 ← setColor st0 parent Color.BLACK
      if side = 'l' then do
        let p1 ← getN st1 parent
        let ri ← ptr p1.right
        setColor st1 ri Color.RED
      else if side = 'r' then do
        let p1 ← getN st1 parent
        let li ← ptr p1.left
        setColor st1 li Color.RED
      else pure st1
    else
      if side = 'l' then do
        let ri ← ptr p.right
        setColor st0 ri Color.RED
      else do
        let li ← ptr p.left
        let st1 ← setColor st0 li Color.RED
        let p1 ← getN st1 parent
        match p1.parent with
        | some ppi => do
          let pp ← getN st1 ppi
          let ppl ← ptr pp.left
          let ppln ← getN st1 ppl
          if cmp p1.data ppln.data = 0 then
            delete3 cmp st1 ppi 'l' fuel
          else
            delete3 cmp st1 ppi 'r' fuel
        | none => pure st1

/-- C `deleteC` (RBTree.c:687): sibling RED; swap colors, rotate, re-dispatch. -/
def deleteC (cmp : α → α → Int) (st0 : RBState α) (parent : Nat) (side : Char) :
    Nat → UB (RBState α)
  | 0 => none
  | fuel+1 => do
    if side = 'l' then do
      let p ← getN st0 parent
      let ri ← ptr p.right
      let r ← getN st0 ri
      let st1 ← setColor st0 parent r.color
      let st2 ← setColor st1 ri p.color
      let st' ← rotateLeftDelete cmp st2 parent
      delete3 cmp st' parent side fuel
    else if side = 'r' then do
      let p ← getN st0 parent
      let li ← ptr p.left
      let l ← getN st0 li
      let st1 ← setColor st0 parent l.color
      let st2 ← setColor st1 li p.color
      let st' ← rotateRightDelete cmp st2 parent
      delete3 cmp st' parent side fuel
    else delete3 cmp st0 parent side fuel

end

/-- C `fixTreeDelete` (RBTree.c:556): dispatch on the doomed node's color and
children. -/
def fixTreeDelete (cmp : α → α → Int) (st0 : RBState α) (node : Nat)
    (fuel : Nat) : UB (RBState α) := do
  let n ← getN st0 node
  if n.color = Color.RED then delete1 cmp st0 node
  else do
    let rRed ← ptrIsRed st0 n.right
    if rRed then delete2 cmp st0 node 'r'
    else do
      let lRed ← ptrIsRed st0 n.left
      if lRed then delete2 cmp st0 node 'l'
      else do
        let res ← removeM cmp st0 node
        if res.1 ≠ 't' then do
          let pi ← ptr n.parent
          delete3 cmp res.2 pi res.1 fuel
        else pure res.2

/-- C `deleteFromRBTree` (RBTree.c:517). -/
def deleteFromRBTree (cmp : α → α → Int) (tree : Option (RBState α))
    (data : Option α) (fuel : Nat) : UB (Int × Option (RBState α)) :=
  match tree with
  | none => pure (0, none)
  | some st =>
    match data with
    | none => pure (0, some st)
    | some d => do
      let c ← RBTreeContains cmp (some st) d fuel
      if c = 0 then pure (0, some st)
      else do
        let nodeOpt ← nodeFinder cmp st st.root d fuel
        match nodeOpt with
        | none => pure (0, some st)
        | some node => do
          let sucPtr ← inOrderSuccessor st (some node) fuel
          match sucPtr with
          | some suc => do
            let st1 ← treeReplaceNode st node suc
            let st2 ← fixTreeDelete cmp st1 suc fuel
            pure (1, some { st2 with size := st2.size - 1 })
          | none => do
            let st2 ← fixTreeDelete cmp st node fuel
            pure (1, some { st2 with size := st2.size - 1 })

/-- C `forEachHelper` (RBTree.c:1044).  The visitor `f` takes the element and
the mutable context and returns its int result plus the updated context.  Note
that the C code invokes the visitor on the current node before checking the
left subtree's result. -/
def forEachHelper (st : RBState α) (f : α → σ → Int × σ) (node : Option Nat)
    (s : σ) : Nat → UB (Int × σ)
  | 0 => none
  | fuel+1 =>
    match node with
    | none => pure (1, s)
    | some i => do
      let n ← getN st i
      let lres ← forEachHelper st f n.left s fuel
      let tres := f n.data lres.2
      if tres.1 = 0 ∨ lres.1 = 0 then pure (0, tres.2)
      else do
        let rres ← forEachHelper st f n.right tres.2 fuel
        if rres.1 = 0 then pure (0, rres.2) else pure (1, rres.2)

/-- C `forEachRBTree` (RBTree.c:1031). -/
def forEachRBTree (tree : Option (RBState α)) (f : α → σ → Int × σ) (s : σ)
    (fuel : Nat) : UB (Int × σ) :=
  match tree with
  | none => pure (0, s)
  | some st => forEachHelper st f st.root s fuel

/-- C `freeHelper` (RBTree.c:1080): right subtree, destructor on the element,
left subtree, release the node. -/
def freeHelper (st : RBState α) (node : Option Nat) : Nat → UB (RBState α)
  | 0 => none
  | fuel+1 =>
    match node with
    | none => pure st
    | some i => do
      let n ← getN st i
      let st1 ← freeHelper st n.right fuel
      let n1 ← getN st1 i
      let st2 := { st1 with freed := st1.freed ++ [n1.data] }
      let st3 ← freeHelper st2 n1.left fuel
      pure { st3 with heap := hdel st3.heap i }

/-- C `freeRBTree` (RBTree.c:1069). -/
def freeRBTree (st : RBState α) (fuel : Nat) : UB (RBState α) :=
  freeHelper st st.root fuel

/-- C `newRBTree` (RBTree.c:117), with a successful allocation. -/
def newRBTree : RBState α :=
  { heap := [], next := 0, root := none, size := 0, freed := [] }

/-! Structs.c: the vector comparator client. -/

/-- C `Vector` from Structs.h: an int length and an array of doubles.  The
numeric component type is modelled as `ℚ` (only order comparisons are used). -/
structure VecC where
  len : Int
  elts : Nat → ℚ

/-- C `min` (Structs.c:90). -/
def minC (num1 num2 : Int) : Int := if num1 > num2 then num2 else num1

/-- The loop of `vectorCompare1By1` (Structs.c:109-119): scan indices from `i`,
`k` iterations remaining; `none` means the loop ended without returning. -/
def vcScan (a b : VecC) (i : Nat) : Nat → Option Int
  | 0 => none
  | k+1 =>
    if a.elts i < b.elts i then some (-1)
    else if a.elts i > b.elts i then some 1
    else vcScan a b (i+1) k

/-- C `vectorCompare1By1` (Structs.c:103). -/
def vectorCompare1By1 (a b : VecC) : Int :=
  match vcScan a b 0 (minC a.len b.len).toNat with
  | some r => r
  | none =>
    if a.len = b.len then 0
    else if a.len < b.len then -1
    else 1

/-- View a Lean list as a C vector (length field agreeing with the data). -/
def mkVec (l : List ℚ) : VecC :=
  { len := (l.length : Int), elts := fun i => l.getD i 0 }

/-! Specification-side predicates: the red-black invariants of the claims,
stated on trees extracted from the heap. -/

/-- Inductive binary trees with colors, for stating the invariants. -/
inductive BT (α : Type) where
  | leaf : BT α
  | nd : BT α → α → Color → BT α → BT α
deriving DecidableEq, Repr

/-- Extract the tree reachable from a pointer (fuel-bounded). -/
def extract (st : RBState α) : Nat → Option Nat → Option (BT α)
  | _, none => some BT.leaf
  | 0, some _ => none
  | fuel+1, some i => do
    let n ← hget st.heap i
    let l ← extract st fuel n.left
    let r ← extract st fuel n.right
    pure (BT.nd l n.data n.color r)

/-- In-order element sequence of an extracted tree. -/
def inorder : BT α → List α
  | BT.leaf => []
  | BT.nd l d _ r => inorder l ++ d :: inorder r

/-- Number of nodes of an extracted tree. -/
def btSize : BT α → Nat
  | BT.leaf => 0
  | BT.nd l _ _ r => btSize l + btSize r + 1

/-- Root color is BLACK (a leaf/empty tree counts as satisfying it). -/
def rootBlack : BT α → Bool
  | BT.leaf => true
  | BT.nd _ _ c _ => c == Color.BLACK

def colorOf : BT α → Color
  | BT.leaf => Color.BLACK
  | BT.nd _ _ c _ => c

/-- No RED node has a RED child. -/
def noRedRed : BT α → Bool
  | BT.leaf => true
  | BT.nd l _ c r =>
    noRedRed l && noRedRed r &&
      !(c == Color.RED && (colorOf l == Color.RED || colorOf r == Color.RED))

/-- Black height when consistent on all paths; `none` on a mismatch. -/
def blackH : BT α → Option Nat
  | BT.leaf => some 1
  | BT.nd l _ c r => do
    let hl ← blackH l
    let hr ← blackH r
    if hl = hr then some (if c = Color.BLACK then hl + 1 else hl) else none

/-- Strictly ascending under the comparator. -/
def ascending (cmp : α → α → Int) : List α → Bool
  | [] => true
  | [_] => true
  | x :: y :: t => (cmp x y < 0 : Bool) && ascending cmp (y :: t)

/-- All four red-black invariants of the claims on one extracted tree. -/
def rbInv (cmp : α → α → Int) (t : BT α) : Bool :=
  rootBlack t && noRedRed t && (blackH t).isSome && ascending cmp (inorder t)

/-- Integer comparator used for the claims' test instances. -/
def intCmp (a b : ℤ) : Int := if a < b then -1 else if b < a then 1 else 0

/-- Fuel that is always sufficient for one tree operation on a well-formed
state: paths are bounded by the number of live nodes. -/
def opFuel (st : RBState α) : Nat := st.heap.length + 2

/-- Extract the whole tree of a state. -/
def treeOf (st : RBState α) : Option (BT α) :=
  extract st (st.heap.length + 1) st.root

/-- Run a successful insert, `none` if it fails or is undefined. -/
def insOk (v : ℤ) (st : RBState ℤ) : Option (RBState ℤ) :=
  match insertToRBTree intCmp (some st) (some v) (opFuel st) with
  | some (1, some st') => some st'
  | _ => none

/-- Run a successful delete, `none` if it fails or is undefined. -/
def delOk (v : ℤ) (st : RBState ℤ) : Option (RBState ℤ) :=
  match deleteFromRBTree intCmp (some st) (some v) (opFuel st) with
  | some (1, some st') => some st'
  | _ => none

/-- Fold a list of successful inserts from the empty tree. -/
def runInserts (vs : List ℤ) : Option (RBState ℤ) :=
  vs.foldl (fun acc v => acc.bind (insOk v)) (some newRBTree)

/-- Fold successful deletes over a state. -/
def runDeletes (vs : List ℤ) (st : RBState ℤ) : Option (RBState ℤ) :=
  vs.foldl (fun acc v => acc.bind (delOk v)) (some st)

/-- The invariant check of the claims on a state: extraction succeeds and the
four red-black invariants hold. -/
def stInv (st : RBState ℤ) : Bool :=
  match treeOf st with
  | some t => rbInv intCmp t
  | none => false

/-- Extraction that also collects the visited node ids in preorder; `none` on
fuel exhaustion (cyclic or too-deep structures). -/
def extractIds {α : Type} (st : RBState α) : Nat → Option Nat → Option (BT α × List Nat)
  | _, none => some (BT.leaf, [])
  | 0, some _ => none
  | fuel+1, some i => do
    let n ← hget st.heap i
    let l ← extractIds st fuel n.left
    let r ← extractIds st fuel n.right
    pure (BT.nd l.1 n.data n.color r.1, i :: (l.2 ++ r.2))

/-- The order in which `freeHelper` visits elements: right subtree first, then
the node, then the left subtree. -/
def revInorder {α : Type} : BT α → List α
  | BT.leaf => []
  | BT.nd l d _ r => revInorder r ++ d :: revInorder l

/-- Parent pointers are coherent down a subtree: the cell at the subtree's
root carries `par` as its parent, and every other cell carries the node it
hangs off. -/
def parsOk {α : Type} (st : RBState α) : Nat → Option Nat → Option Nat → Bool
  | _, none, _ => true
  | 0, some _, _ => false
  | fuel+1, some i, par =>
    match hget st.heap i with
    | none => false
    | some n =>
      (n.parent == par) && parsOk st fuel n.left (some i) &&
        parsOk st fuel n.right (some i)

/-- The heap update performed by `setParentIf`: redirect the parent field of
the cell a possibly-null pointer designates. -/
def parUpd {α : Type} (h : Heap α) (b : Option Nat) (v : Option Nat) : Heap α :=
  match b with
  | none => h
  | some m =>
    match hget h m with
    | none => h
    | some mc => hset h m { mc with parent := v }

/-- State-level wrapper around `parUpd`. -/
def parNode {α : Type} (st : RBState α) (b v : Option Nat) : RBState α :=
  { st with heap := parUpd st.heap b v }

/-- Root-pointer update as a function (C `tree->root = r`). -/
def rootTo {α : Type} (st : RBState α) (r : Option Nat) : RBState α :=
  { st with root := r }

/-- The state reached by `rotateLeftDelete` just before its parent-relink
step, spelled with the cells of the pivot `g` and its right child `s`. -/
def rldMid {α : Type} (st : RBState α) (g s : Nat) (gcell scell : NRec α) :
    RBState α :=
  setNode (setNode (parNode (setNode st g { gcell with right := scell.left })
    scell.left (some g)) s { scell with left := some g })
    s { scell with left := some g, parent := gcell.parent }

/-- Mirror image of `rldMid` for `rotateRightDelete`. -/
def rrdMid {α : Type} (st : RBState α) (g s : Nat) (gcell scell : NRec α) :
    RBState α :=
  setNode (setNode (parNode (setNode st g { gcell with left := scell.right })
    scell.right (some g)) s { scell with right := some g })
    s { scell with right := some g, parent := gcell.parent }

/-- The state reached by `rotateLeft2` just before `rotateLink`, spelled with
the cells of the pivot `g` and its promoted right child `p`. -/
def rl2Mid {α : Type} (st : RBState α) (g p : Nat) (gcell pcell : NRec α) :
    RBState α :=
  setNode (parNode (setNode st g { gcell with right := pcell.left })
    pcell.left (some g)) p { pcell with left := some g }

/-- Mirror image of `rl2Mid` for `rotateRight2`. -/
def rr2Mid {α : Type} (st : RBState α) (g p : Nat) (gcell pcell : NRec α) :
    RBState α :=
  setNode (parNode (setNode st g { gcell with left := pcell.right })
    pcell.right (some g)) p { pcell with right := some g }

/-- The state produced by `rotateLink`'s null-grandparent branch from a state
`st3`, spelled with the cells of the pivot `g` and promoted child `p`. -/
def rlkRoot {α : Type} (st3 : RBState α) (g p : Nat) (gc pc : NRec α) :
    RBState α :=
  setNode (setNode (setNode (rootTo st3 (some p)) p { pc with parent := none })
    p { pc with parent := none, color := Color.BLACK }) g
    { gc with parent := some p }

/-- The state produced by `rotateLink`'s grandparent-relink branch from a
state `st3`, with `ppn` the rewritten cell of the grandparent `pp`. -/
def rlkFrame {α : Type} (st3 : RBState α) (g p pp : Nat) (gc pc ppn : NRec α) :
    RBState α :=
  setNode (setNode (setNode st3 pp ppn) p { pc with parent := some pp }) g
    { gc with parent := some p }

/-- The fields of a cell that extraction reads (everything but the parent
pointer). -/
def cellLR {α : Type} (o : Option (NRec α)) :
    Option (α × Color × Option Nat × Option Nat) :=
  o.map (fun n => (n.data, n.color, n.left, n.right))

/-- Rebuild guarantee for a pivot subtree inside the tree at `r`: any state
`st'` that replaces the pivot subtree (old ids `idsg`, old in-order listing
`lg`) by a tree at `rr` with the same elements, redirects the parent cell
`pp` to `rr` as `ppNew rr`, and leaves every other cell untouched, extracts
from `r` to a tree with the in-order listing `lt` and the id set `ids` of the
original. -/
def rebuildCont {α : Type} (st : RBState α) (r : Option Nat) (lt : List α)
    (ids : List Nat) (lg : List α) (idsg : List Nat) (pp : Nat)
    (ppNew : Option Nat → NRec α) : Prop :=
  ∀ (st' : RBState α) (rr : Option Nat) (t' : BT α) (idsg' : List Nat)
    (f' : Nat),
    extractIds st' f' rr = some (t', idsg') →
    inorder t' = lg →
    (∀ j, j ∈ idsg' ↔ j ∈ idsg) →
    idsg'.Nodup →
    (∀ j, ¬ j ∈ idsg → ¬ j = pp → hget st'.heap j = hget st.heap j) →
    hget st'.heap pp = some (ppNew rr) →
    ∃ F t2 ids2, extractIds st' F r = some (t2, ids2) ∧
      inorder t2 = lt ∧ (∀ j, j ∈ ids2 ↔ j ∈ ids) ∧ ids2.Nodup

/-- A concrete well-formed seven-node tree used to witness the rotation
claims: every node has the configuration needed by one of the four rotation
primitives. -/
def rotSt : RBState ℤ :=
  { heap := [(1, ⟨20, Color.BLACK, some 5, some 3, none⟩),
             (5, ⟨4, Color.BLACK, some 6, some 7, some 1⟩),
             (6, ⟨2, Color.RED, none, none, some 5⟩),
             (7, ⟨6, Color.RED, none, none, some 5⟩),
             (3, ⟨30, Color.BLACK, some 2, some 4, some 1⟩),
             (2, ⟨25, Color.RED, none, none, some 3⟩),
             (4, ⟨40, Color.RED, none, none, some 3⟩)],
    next := 8, root := some 1, size := 7, freed := [] }

/-- The tree extracted from `rotSt`. -/
def rotT : BT ℤ :=
  BT.nd
    (BT.nd (BT.nd BT.leaf 2 Color.RED BT.leaf) 4 Color.BLACK
      (BT.nd BT.leaf 6 Color.RED BT.leaf))
    20 Color.BLACK
    (BT.nd (BT.nd BT.leaf 25 Color.RED BT.leaf) 30 Color.BLACK
      (BT.nd BT.leaf 40 Color.RED BT.leaf))

/-- The preorder node ids extracted from `rotSt`. -/
def rotIds : List Nat := [1, 5, 6, 7, 3, 2, 4]

/-! Concrete states used by counterexamples: the tree obtained by inserting
1..10 in order, the same tree after deleting 1, and the tree of 1..5. -/

/-- The state `insertToRBTree` builds from inserts of 1,2,...,10 in order. -/
def cexSt10 : RBState ℤ :=
  { heap := [(0, ⟨1, Color.BLACK, none, none, some 1⟩),
             (1, ⟨2, Color.BLACK, some 0, some 2, some 3⟩),
             (2, ⟨3, Color.BLACK, none, none, some 1⟩),
             (3, ⟨4, Color.BLACK, some 1, some 5, none⟩),
             (4, ⟨5, Color.BLACK, none, none, some 5⟩),
             (5, ⟨6, Color.BLACK, some 4, some 7, some 3⟩),
             (6, ⟨7, Color.BLACK, none, none, some 7⟩),
             (7, ⟨8, Color.RED, some 6, some 8, some 5⟩),
             (8, ⟨9, Color.BLACK, none, some 9, some 7⟩),
             (9, ⟨10, Color.RED, none, none, some 8⟩)],
    next := 10, root := some 3, size := 10, freed := [] }

/-- `cexSt10` after `deleteFromRBTree` removes 1: node 2 keeps black height 1
on its left spine while the right subtree of the root keeps black height 2,
because `deleteB` failed to propagate the double-black upward. -/
def cexSt10d : RBState ℤ :=
  { heap := [(1, ⟨2, Color.BLACK, none, some 2, some 3⟩),
             (2, ⟨3, Color.RED, none, none, some 1⟩),
             (3, ⟨4, Color.BLACK, some 1, some 5, none⟩),
             (4, ⟨5, Color.BLACK, none, none, some 5⟩),
             (5, ⟨6, Color.BLACK, some 4, some 7, some 3⟩),
             (6, ⟨7, Color.BLACK, none, none, some 7⟩),
             (7, ⟨8, Color.RED, some 6, some 8, some 5⟩),
             (8, ⟨9, Color.BLACK, none, some 9, some 7⟩),
             (9, ⟨10, Color.RED, none, none, some 8⟩)],
    next := 10, root := some 3, size := 9, freed := [1] }

/-- The state built by inserting 1,2,3,4,5 in order. -/
def t5St : RBState ℤ :=
  { heap := [(0, ⟨1, Color.BLACK, none, none, some 1⟩),
             (1, ⟨2, Color.BLACK, some 0, some 3, none⟩),
             (2, ⟨3, Color.RED, none, none, some 3⟩),
             (3, ⟨4, Color.BLACK, some 2, some 4, some 1⟩),
             (4, ⟨5, Color.RED, none, none, some 3⟩)],
    next := 5, root := some 1, size := 5, freed := [] }

/-- Visitor that fails (returns 0) on element 3 and logs every invocation. -/
def visitFailAt3 : ℤ → List ℤ → Int × List ℤ :=
  fun x s => (if x = 3 then 0 else 1, s ++ [x])

/-- Visitor that always succeeds and logs every invocation. -/
def visitAll : ℤ → List ℤ → Int × List ℤ := fun x s => (1, s ++ [x])

/-- Projections that the insert-fixup family leaves unchanged. -/
def fixInv (st st' : RBState α) : Prop :=
  st'.size = st.size ∧ st'.next = st.next ∧ st'.freed = st.freed ∧
    st'.heap.map Prod.fst = st.heap.map Prod.fst

/-- Allocator freshness: every live id is below the bump counter.  This holds
for every state the API builds (nodes are only allocated at `next`). -/
def fresh (st : RBState α) : Prop := ∀ p ∈ st.heap, p.1 < st.next

/-- Effect of a physical node removal on the bookkeeping fields: size and next
are untouched and the destructor log grows by exactly the removed element. -/
def remInv (st st' : RBState α) (x : α) : Prop :=
  st'.size = st.size ∧ st'.next = st.next ∧ st'.freed = st.freed ++ [x]

/-- The state built by inserting 1 then 2 into a fresh tree. -/
def t2St : RBState ℤ :=
  { heap := [(0, ⟨1, Color.BLACK, none, some 1, none⟩),
             (1, ⟨2, Color.RED, none, none, some 0⟩)],
    next := 2, root := some 0, size := 2, freed := [] }

/-- `t2St` after a successful insert of 7 (rebalanced by the insert fixup). -/
def t2StIns7 : RBState ℤ :=
  { heap := [(0, ⟨1, Color.RED, none, none, some 1⟩),
             (1, ⟨2, Color.BLACK, some 0, some 2, none⟩),
             (2, ⟨7, Color.RED, none, none, some 1⟩)],
    next := 3, root := some 1, size := 3, freed := [] }

/-- `t2St` after a successful delete of 2. -/
def t2StDel2 : RBState ℤ :=
  { heap := [(0, ⟨1, Color.BLACK, none, none, none⟩)],
    next := 2, root := some 0, size := 1, freed := [2] }

/-! Basic lemmas about the UB monad. -/

theorem ub_pure_eq {a : Type} (v : a) : (pure v : UB a) = some v := rfl

theorem ub_bind_eq {a b : Type} (x : UB a) (f : a → UB b) :
    (x >>= f) = ubBind x f := rfl

theorem ubBind_some {a b : Type} (v : a) (f : a → UB b) :
    ubBind (some v) f = f v := rfl

theorem ubBind_none {a b : Type} (f : a → UB b) :
    ubBind (none : UB a) f = none := rfl


/-- C2: the claim that the red-black invariants hold after every successful
delete fails on the code.  Inserting 1..10 (all succeeding) and then
successfully deleting 1 leaves a tree whose root-to-leaf black-heights
disagree: `deleteB` recolors the sibling RED but, for a BLACK parent on side
`'l'`, never recurses upward (RBTree.c:607-609), so the black-height deficit
is never repaired.  The in-order sequence is still correct; the black-height
invariant is what breaks. -/
theorem C2_delete_breaks_black_height :
    runInserts [1,2,3,4,5,6,7,8,9,10] = some cexSt10 ∧
    delOk 1 cexSt10 = some cexSt10d ∧
    stInv cexSt10d = false ∧
    (treeOf cexSt10d).map (fun t => (blackH t).isSome) = some false ∧
    (treeOf cexSt10d).map (fun t => rootBlack t && noRedRed t &&
      ascending intCmp (inorder t)) = some true ∧
    (treeOf cexSt10d).map inorder = some [2,3,4,5,6,7,8,9,10] :=
  ⟨rfl, rfl, rfl, rfl, rfl, rfl⟩

/-- C3 (counterexample): with the tree of 1..5 and a visitor failing at 3,
`forEach` invokes the visitor on 1,2,3 AND on 4 — `forEachHelper` calls the
visitor on the current node before checking whether the left subtree failed
(RBTree.c:1050-1051) — contradicting the claim that elements 4 and 5 are never
visited.  The traversal does report failure. -/
theorem C3_forEach_visits_4 :
    runInserts [1,2,3,4,5] = some t5St ∧
    forEachRBTree (some t5St) visitFailAt3 [] (opFuel t5St) =
      some (0, [1, 2, 3, 4]) :=
  ⟨rfl, rfl⟩

/-- C3 (amended): with a visitor failing at 3, `forEach` on the tree of 1..5
invokes the visitor on exactly 1,2,3,4 in ascending order (element 5 is never
visited) and reports failure; with an always-succeeding visitor it invokes the
visitor on all five elements in ascending order and reports success. -/
theorem C3_forEach_amended :
    runInserts [1,2,3,4,5] = some t5St ∧
    forEachRBTree (some t5St) visitFailAt3 [] (opFuel t5St) =
      some (0, [1, 2, 3, 4]) ∧
    forEachRBTree (some t5St) visitAll [] (opFuel t5St) =
      some (1, [1, 2, 3, 4, 5]) :=
  ⟨rfl, rfl, rfl⟩

/-- C9: `forEach` on a non-null tree with an absent root returns success (1)
and returns the context unchanged for every visitor, context and fuel — the
visitor is never invoked (`forEachHelper` returns 1 immediately on a null
node, RBTree.c:1046-1049). -/
theorem C9_forEach_empty_tree {α σ : Type} (st : RBState α)
    (f : α → σ → Int × σ) (s : σ) (fuel : Nat) (h : st.root = none) :
    forEachRBTree (some st) f s (fuel + 1) = some (1, s) := by
  show forEachHelper st f st.root s (fuel + 1) = some (1, s)
  rw [h]
  rfl

/-- Witness for C9 at a concrete empty tree and visitor. -/
theorem C9_forEach_empty_tree_witness :
    forEachRBTree (some (newRBTree : RBState ℤ)) visitAll [] 1 = some (1, []) :=
  C9_forEach_empty_tree newRBTree visitAll [] 0 rfl

/-- C10: deleting the sole element of a one-element tree (a BLACK root with no
children, the only form the API builds) succeeds, leaves an empty well-formed
tree (absent root, element count 0, empty heap, the destructor invoked on the
element), and a subsequent `contains` for any element returns 0. -/
theorem C10_delete_singleton (d x : ℤ) (i nx : Nat) (fr : List ℤ)
    (fuel : Nat) :
    deleteFromRBTree intCmp
        (some { heap := [(i, ⟨d, Color.BLACK, none, none, none⟩)], next := nx,
                root := some i, size := 1, freed := fr })
        (some d) (fuel + 2) =
      some (1, some { heap := [], next := nx, root := none, size := 0,
                      freed := fr ++ [d] }) ∧
    RBTreeContains intCmp
        (some { heap := ([] : Heap ℤ), next := nx, root := none, size := 0,
                freed := fr ++ [d] }) x (fuel + 1) = some 0 := by
  constructor
  · simp [deleteFromRBTree, RBTreeContains, contains, nodeFinder,
      inOrderSuccessor, fixTreeDelete, removeM, ptrIsRed, setParentIf,
      hget, hdel, intCmp, ptr, getN, ub_pure_eq, ub_bind_eq, ubBind_some,
      ubBind_none]
  · simp [RBTreeContains, contains, ub_pure_eq]

/-! C8: the vector comparator. -/

/-- The scan loop returns only -1 or 1. -/
theorem vcScan_some_cases (a b : VecC) (k : Nat) :
    ∀ (i : Nat) (r : Int), vcScan a b i k = some r → r = -1 ∨ r = 1 := by
  induction k with
  | zero => intro i r h; exact absurd h (by simp [vcScan])
  | succ k ih =>
    intro i r h
    rw [vcScan] at h
    split at h
    · exact Or.inl (Option.some.inj h).symm
    · split at h
      · exact Or.inr (Option.some.inj h).symm
      · exact ih (i+1) r h

/-- The scan loop falls through exactly when the scanned window agrees. -/
theorem vcScan_none_iff (a b : VecC) (k : Nat) :
    ∀ i, vcScan a b i k = none ↔ ∀ j, j < k → a.elts (i+j) = b.elts (i+j) := by
  induction k with
  | zero => intro i; simp [vcScan]
  | succ k ih =>
    intro i
    rw [vcScan]
    constructor
    · intro h
      split at h
      · exact absurd h (by simp)
      · split at h
        · exact absurd h (by simp)
        · intro j hj
          match j with
          | 0 =>
            have h1 : ¬ a.elts i < b.elts i := by assumption
            have h2 : ¬ a.elts i > b.elts i := by assumption
            have := le_antisymm (le_of_not_lt h2) (le_of_not_lt h1)
            simpa using this
          | j'+1 =>
            have := (ih (i+1)).mp h j' (by omega)
            rwa [show i + 1 + j' = i + (j'+1) by omega] at this
    · intro h
      have h0 : a.elts i = b.elts i := by simpa using h 0 (Nat.succ_pos k)
      rw [if_neg (by rw [h0]; exact lt_irrefl _),
          if_neg (by rw [h0]; exact lt_irrefl _)]
      exact (ih (i+1)).mpr (fun j hj => by
        have := h (j+1) (by omega)
        rwa [show i + (j+1) = i + 1 + j by omega] at this)

/-- The scan loop stops at the first differing index and reports its order. -/
theorem vcScan_first_diff (a b : VecC) :
    ∀ (m i k : Nat), m < k →
      (∀ j, j < m → a.elts (i+j) = b.elts (i+j)) →
      a.elts (i+m) ≠ b.elts (i+m) →
      vcScan a b i k = some (if a.elts (i+m) < b.elts (i+m) then -1 else 1) := by
  intro m
  induction m with
  | zero =>
    intro i k hk _ hne
    obtain ⟨k', rfl⟩ : ∃ k', k = k'+1 := ⟨k-1, by omega⟩
    rw [vcScan]
    simp only [Nat.add_zero] at hne ⊢
    rcases lt_trichotomy (a.elts i) (b.elts i) with h | h | h
    · rw [if_pos h, if_pos h]
    · exact absurd h hne
    · rw [if_neg (asymm h), if_neg (not_lt_of_gt h), if_pos h]
  | succ m ih =>
    intro i k hk hpre hne
    obtain ⟨k', rfl⟩ : ∃ k', k = k'+1 := ⟨k-1, by omega⟩
    rw [vcScan]
    have h0 : a.elts i = b.elts i := by simpa using hpre 0 (Nat.succ_pos m)
    rw [if_neg (by rw [h0]; exact lt_irrefl _),
        if_neg (by rw [h0]; exact lt_irrefl _)]
    have hres := ih (i+1) k' (by omega)
      (fun j hj => by
        have := hpre (j+1) (by omega)
        rwa [show i + (j+1) = i + 1 + j by omega] at this)
      (by rwa [show i + 1 + m = i + (m+1) by omega])
    rwa [show i + 1 + m = i + (m+1) by omega] at hres

/-- C's `min` on two cast naturals. -/
theorem minC_cast (m n : Nat) : (minC (m : Int) (n : Int)).toNat = min m n := by
  unfold minC
  split
  · next h => omega
  · next h => omega

theorem mkVec_len (l : List ℚ) : (mkVec l).len = (l.length : Int) := rfl

theorem mkVec_elts (l : List ℚ) (i : Nat) : (mkVec l).elts i = l.getD i 0 := rfl

/-- Lists that agree via `getD` on a common length are equal. -/
theorem list_eq_of_getD (a b : List ℚ) (hlen : a.length = b.length)
    (h : ∀ j, j < a.length → a.getD j 0 = b.getD j 0) : a = b := by
  apply List.ext_getElem hlen
  intro j h1 h2
  have := h j h1
  rwa [List.getD_eq_getElem a 0 h1, List.getD_eq_getElem b 0 h2] at this

/-- C8: `vectorCompare1By1` compares component by component in index order:
the first differing index decides the order (larger component means larger
vector), vectors agreeing on the shorter length are ordered by length
(shorter is smaller), and the result is 0 exactly when the vectors have equal
length and equal components everywhere. -/
theorem C8_vectorCompare_spec :
    (∀ a b : List ℚ, vectorCompare1By1 (mkVec a) (mkVec b) = 0 ↔ a = b) ∧
    (∀ (a b : List ℚ) (i : Nat), i < a.length → i < b.length →
      (∀ j, j < i → a.getD j 0 = b.getD j 0) →
      a.getD i 0 ≠ b.getD i 0 →
      vectorCompare1By1 (mkVec a) (mkVec b) =
        if a.getD i 0 < b.getD i 0 then -1 else 1) ∧
    (∀ a b : List ℚ, a.length < b.length →
      (∀ j, j < a.length → a.getD j 0 = b.getD j 0) →
      vectorCompare1By1 (mkVec a) (mkVec b) = -1) ∧
    (∀ a b : List ℚ, b.length < a.length →
      (∀ j, j < b.length → a.getD j 0 = b.getD j 0) →
      vectorCompare1By1 (mkVec a) (mkVec b) = 1) := by
  have hmin : ∀ a b : List ℚ,
      (minC (mkVec a).len (mkVec b).len).toNat = min a.length b.length := by
    intro a b
    rw [mkVec_len, mkVec_len, minC_cast]
  refine ⟨?_, ?_, ?_, ?_⟩
  · intro a b
    constructor
    · intro h
      unfold vectorCompare1By1 at h
      split at h
      · next r hscan =>
        rcases vcScan_some_cases (mkVec a) (mkVec b) _ 0 r hscan with h1 | h1 <;>
          omega
      · next hscan =>
        rw [hmin] at hscan
        have hagree := (vcScan_none_iff (mkVec a) (mkVec b) _ 0).mp hscan
        split at h
        · next hlen =>
          have hlen' : a.length = b.length := by
            have := hlen
            rw [mkVec_len, mkVec_len] at this
            omega
          refine list_eq_of_getD a b hlen' (fun j hj => ?_)
          have := hagree j (by omega)
          simpa [mkVec_elts] using this
        · split at h <;> omega
    · intro h
      subst h
      unfold vectorCompare1By1
      have hscan : vcScan (mkVec a) (mkVec a) 0
          (minC (mkVec a).len (mkVec a).len).toNat = none :=
        (vcScan_none_iff _ _ _ 0).mpr (fun _ _ => rfl)
      rw [hscan, if_pos rfl]
  · intro a b i hia hib hpre hne
    unfold vectorCompare1By1
    have hscan := vcScan_first_diff (mkVec a) (mkVec b) i 0
      (minC (mkVec a).len (mkVec b).len).toNat
      (by rw [hmin]; omega)
      (fun j hj => by simpa [mkVec_elts] using hpre j hj)
      (by simpa [mkVec_elts] using hne)
    rw [hscan]
    simp [mkVec_elts]
  · intro a b hlen hpre
    unfold vectorCompare1By1
    have hscan : vcScan (mkVec a) (mkVec b) 0
        (minC (mkVec a).len (mkVec b).len).toNat = none := by
      rw [hmin]
      exact (vcScan_none_iff _ _ _ 0).mpr (fun j hj => by
        simpa [mkVec_elts] using hpre j (by omega))
    rw [hscan]
    rw [if_neg (by rw [mkVec_len, mkVec_len]; omega),
        if_pos (by rw [mkVec_len, mkVec_len]; omega)]
  · intro a b hlen hpre
    unfold vectorCompare1By1
    have hscan : vcScan (mkVec a) (mkVec b) 0
        (minC (mkVec a).len (mkVec b).len).toNat = none := by
      rw [hmin]
      exact (vcScan_none_iff _ _ _ 0).mpr (fun j hj => by
        simpa [mkVec_elts] using hpre j (by omega))
    rw [hscan]
    rw [if_neg (by rw [mkVec_len, mkVec_len]; omega),
        if_neg (by rw [mkVec_len, mkVec_len]; omega)]

/-- Witness for C8: the first differing index (index 1) decides, and a strict
prefix is smaller. -/
theorem C8_vectorCompare_spec_witness :
    vectorCompare1By1 (mkVec [(1:ℚ), 2]) (mkVec [(1:ℚ), 3]) = -1 ∧
    vectorCompare1By1 (mkVec [(1:ℚ)]) (mkVec [(1:ℚ), 3]) = -1 := by
  constructor
  · have h := C8_vectorCompare_spec.2.1 [(1:ℚ), 2] [(1:ℚ), 3] 1
      (by decide) (by decide)
      (by decide)
      (by decide)
    simpa using h
  · exact C8_vectorCompare_spec.2.2.1 [(1:ℚ)] [(1:ℚ), 3] (by decide) (by decide)

/-! C4 machinery: the insert fixup family only rewrites fields of existing
nodes, so the size/next/freed fields and the heap's key sequence are
untouched. -/


theorem fixInv_refl (st : RBState α) : fixInv st st := ⟨rfl, rfl, rfl, rfl⟩

theorem fixInv_trans {st1 st2 st3 : RBState α} (h1 : fixInv st1 st2)
    (h2 : fixInv st2 st3) : fixInv st1 st3 := by
  obtain ⟨a1, b1, c1, d1⟩ := h1
  obtain ⟨a2, b2, c2, d2⟩ := h2
  exact ⟨a2.trans a1, b2.trans b1, c2.trans c1, d2.trans d1⟩

theorem ubBind_eq_some {a b : Type} {e : UB a} {f : a → UB b} {r : b}
    (h : ubBind e f = some r) : ∃ v, e = some v ∧ f v = some r := by
  cases he : e with
  | none => rw [he] at h; exact absurd h (by simp [ubBind])
  | some v => rw [he] at h; exact ⟨v, rfl, h⟩

theorem hset_keys (h : Heap α) (i : Nat) (n : NRec α) :
    (hset h i n).map Prod.fst = h.map Prod.fst := by
  induction h with
  | nil => rfl
  | cons p t ih =>
    simp only [hset, List.map_cons] at ih ⊢
    split
    · next heq => simp only [List.map_cons, ih, heq]
    · simp only [List.map_cons, ih]

theorem setNode_fixInv (st : RBState α) (i : Nat) (n : NRec α) :
    fixInv st (setNode st i n) :=
  ⟨rfl, rfl, rfl, hset_keys st.heap i n⟩

theorem setLeft_fixInv {st st' : RBState α} {i : Nat} {v : Option Nat}
    (h : setLeft st i v = some st') : fixInv st st' := by
  rcases Option.map_eq_some'.mp h with ⟨n, _, hst⟩
  exact hst ▸ setNode_fixInv st i _

theorem setRight_fixInv {st st' : RBState α} {i : Nat} {v : Option Nat}
    (h : setRight st i v = some st') : fixInv st st' := by
  rcases Option.map_eq_some'.mp h with ⟨n, _, hst⟩
  exact hst ▸ setNode_fixInv st i _

theorem setParent_fixInv {st st' : RBState α} {i : Nat} {v : Option Nat}
    (h : setParent st i v = some st') : fixInv st st' := by
  rcases Option.map_eq_some'.mp h with ⟨n, _, hst⟩
  exact hst ▸ setNode_fixInv st i _

theorem setColor_fixInv {st st' : RBState α} {i : Nat} {c : Color}
    (h : setColor st i c = some st') : fixInv st st' := by
  rcases Option.map_eq_some'.mp h with ⟨n, _, hst⟩
  exact hst ▸ setNode_fixInv st i _

theorem setData_fixInv {st st' : RBState α} {i : Nat} {d : α}
    (h : setData st i d = some st') : fixInv st st' := by
  rcases Option.map_eq_some'.mp h with ⟨n, _, hst⟩
  exact hst ▸ setNode_fixInv st i _

/-- A state with only the root pointer changed keeps the `fixInv` projections. -/
theorem root_update_fixInv (st : RBState α) (r : Option Nat) :
    fixInv st { st with root := r } := ⟨rfl, rfl, rfl, rfl⟩

theorem setParentIf_fixInv {st st' : RBState α} {p v : Option Nat}
    (h : setParentIf st p v = some st') : fixInv st st' := by
  unfold setParentIf at h
  split at h
  · exact setParent_fixInv h
  · cases h; exact fixInv_refl st

theorem setLeftElseRight_fixInv {st st' : RBState α} {i : Nat} {c : Bool}
    {v : Option Nat} (h : setLeftElseRight st i c v = some st') :
    fixInv st st' := by
  unfold setLeftElseRight at h
  split at h
  · exact setLeft_fixInv h
  · exact setRight_fixInv h

theorem setRightElseLeft_fixInv {st st' : RBState α} {i : Nat} {c : Bool}
    {v : Option Nat} (h : setRightElseLeft st i c v = some st') :
    fixInv st st' := by
  unfold setRightElseLeft at h
  split at h
  · exact setRight_fixInv h
  · exact setLeft_fixInv h

theorem rotateLink_fixInv {cmp : α → α → Int} {st3 st' : RBState α}
    {gi pi : Nat} (h : rotateLink cmp st3 gi pi = some st') :
    fixInv st3 st' := by
  unfold rotateLink at h
  obtain ⟨g3, _, h⟩ := ubBind_eq_some h
  rcases hg3p : g3.parent with _ | ggi <;> rw [hg3p] at h
  · obtain ⟨st5, hst5, h⟩ := ubBind_eq_some h
    obtain ⟨st6, hst6, h⟩ := ubBind_eq_some h
    exact fixInv_trans
      (fixInv_trans (fixInv_trans (root_update_fixInv st3 _)
        (setParent_fixInv hst5)) (setColor_fixInv hst6))
      (setParent_fixInv h)
  · obtain ⟨gg, _, h⟩ := ubBind_eq_some h
    obtain ⟨ggl, _, h⟩ := ubBind_eq_some h
    obtain ⟨gln, _, h⟩ := ubBind_eq_some h
    obtain ⟨g, _, h⟩ := ubBind_eq_some h
    obtain ⟨st4, hst4, h⟩ := ubBind_eq_some h
    obtain ⟨st5, hst5, h⟩ := ubBind_eq_some h
    exact fixInv_trans (fixInv_trans (setLeftElseRight_fixInv hst4)
      (setParent_fixInv hst5)) (setParent_fixInv h)

theorem rotateLeft2_fixInv {cmp : α → α → Int} {st0 st' : RBState α}
    {node : Nat} (h : rotateLeft2 cmp st0 node = some st') : fixInv st0 st' := by
  unfold rotateLeft2 at h
  obtain ⟨pp, _, h⟩ := ubBind_eq_some h
  obtain ⟨gp, _, h⟩ := ubBind_eq_some h
  obtain ⟨gi, _, h⟩ := ubBind_eq_some h
  obtain ⟨pi, _, h⟩ := ubBind_eq_some h
  obtain ⟨p0, _, h⟩ := ubBind_eq_some h
  obtain ⟨st1, hst1, h⟩ := ubBind_eq_some h
  obtain ⟨st2, hst2, h⟩ := ubBind_eq_some h
  obtain ⟨st3, hst3, h⟩ := ubBind_eq_some h
  exact fixInv_trans (fixInv_trans (fixInv_trans (setRight_fixInv hst1)
    (setParentIf_fixInv hst2)) (setLeft_fixInv hst3)) (rotateLink_fixInv h)

theorem rotateRight2_fixInv {cmp : α → α → Int} {st0 st' : RBState α}
    {node : Nat} (h : rotateRight2 cmp st0 node = some st') :
    fixInv st0 st' := by
  unfold rotateRight2 at h
  obtain ⟨pp, _, h⟩ := ubBind_eq_some h
  obtain ⟨gp, _, h⟩ := ubBind_eq_some h
  obtain ⟨gi, _, h⟩ := ubBind_eq_some h
  obtain ⟨pi, _, h⟩ := ubBind_eq_some h
  obtain ⟨p0, _, h⟩ := ubBind_eq_some h
  obtain ⟨st1, hst1, h⟩ := ubBind_eq_some h
  obtain ⟨st2, hst2, h⟩ := ubBind_eq_some h
  obtain ⟨st3, hst3, h⟩ := ubBind_eq_some h
  obtain ⟨st4, hst4, h⟩ := ubBind_eq_some h
  exact fixInv_trans (fixInv_trans (fixInv_trans (fixInv_trans
    (setLeft_fixInv hst1) (setParentIf_fixInv hst2)) (setRight_fixInv hst3))
    (rotateLink_fixInv hst4)) (setColor_fixInv h)

theorem rotateLeft_fixInv {cmp : α → α → Int} {st0 st' : RBState α}
    {node : Nat} (h : rotateLeft cmp st0 node = some st') : fixInv st0 st' := by
  unfold rotateLeft at h
  obtain ⟨pp, _, h⟩ := ubBind_eq_some h
  obtain ⟨gp, _, h⟩ := ubBind_eq_some h
  obtain ⟨gi, _, h⟩ := ubBind_eq_some h
  obtain ⟨g0, _, h⟩ := ubBind_eq_some h
  obtain ⟨pi, _, h⟩ := ubBind_eq_some h
  obtain ⟨p0, _, h⟩ := ubBind_eq_some h
  obtain ⟨cond, _, h⟩ := ubBind_eq_some h
  split at h
  · obtain ⟨st1, hst1, h⟩ := ubBind_eq_some h
    obtain ⟨n1, _, h⟩ := ubBind_eq_some h
    obtain ⟨st2, hst2, h⟩ := ubBind_eq_some h
    obtain ⟨n2, _, h⟩ := ubBind_eq_some h
    obtain ⟨st3, hst3, h⟩ := ubBind_eq_some h
    obtain ⟨st4, hst4, h⟩ := ubBind_eq_some h
    obtain ⟨st5, hst5, h⟩ := ubBind_eq_some h
    obtain ⟨st6, hst6, h⟩ := ubBind_eq_some h
    obtain ⟨st7, hst7, h⟩ := ubBind_eq_some h
    obtain ⟨st8, hst8, h⟩ := ubBind_eq_some h
    have f1 := setLeft_fixInv hst1
    have f2 := fixInv_trans f1 (setParentIf_fixInv hst2)
    have f3 := fixInv_trans f2 (setRight_fixInv hst3)
    have f4 := fixInv_trans f3 (setLeft_fixInv hst4)
    have f5 := fixInv_trans f4 (setParent_fixInv hst5)
    have f6 := fixInv_trans f5 (setParent_fixInv hst6)
    have f7 := fixInv_trans f6 (rotateRight2_fixInv hst7)
    have f8 := fixInv_trans f7 (setColor_fixInv hst8)
    exact fixInv_trans f8 (setColor_fixInv h)
  · obtain ⟨st1, hst1, h⟩ := ubBind_eq_some h
    obtain ⟨st2, hst2, h⟩ := ubBind_eq_some h
    exact fixInv_trans (fixInv_trans (rotateLeft2_fixInv hst1)
      (setColor_fixInv hst2)) (setColor_fixInv h)

theorem rotateRight_fixInv {cmp : α → α → Int} {st0 st' : RBState α}
    {node : Nat} (h : rotateRight cmp st0 node = some st') : fixInv st0 st' := by
  unfold rotateRight at h
  obtain ⟨pp, _, h⟩ := ubBind_eq_some h
  obtain ⟨gp, _, h⟩ := ubBind_eq_some h
  obtain ⟨gi, _, h⟩ := ubBind_eq_some h
  obtain ⟨g0, _, h⟩ := ubBind_eq_some h
  obtain ⟨pi, _, h⟩ := ubBind_eq_some h
  obtain ⟨p0, _, h⟩ := ubBind_eq_some h
  obtain ⟨cond, _, h⟩ := ubBind_eq_some h
  split at h
  · obtain ⟨st1, hst1, h⟩ := ubBind_eq_some h
    obtain ⟨n1, _, h⟩ := ubBind_eq_some h
    obtain ⟨st2, hst2, h⟩ := ubBind_eq_some h
    obtain ⟨n2, _, h⟩ := ubBind_eq_some h
    obtain ⟨st3, hst3, h⟩ := ubBind_eq_some h
    obtain ⟨st4, hst4, h⟩ := ubBind_eq_some h
    obtain ⟨st5, hst5, h⟩ := ubBind_eq_some h
    obtain ⟨st6, hst6, h⟩ := ubBind_eq_some h
    obtain ⟨st7, hst7, h⟩ := ubBind_eq_some h
    obtain ⟨st8, hst8, h⟩ := ubBind_eq_some h
    have f1 := setRight_fixInv hst1
    have f2 := fixInv_trans f1 (setParentIf_fixInv hst2)
    have f3 := fixInv_trans f2 (setLeft_fixInv hst3)
    have f4 := fixInv_trans f3 (setRight_fixInv hst4)
    have f5 := fixInv_trans f4 (setParent_fixInv hst5)
    have f6 := fixInv_trans f5 (setParent_fixInv hst6)
    have f7 := fixInv_trans f6 (rotateLeft2_fixInv hst7)
    have f8 := fixInv_trans f7 (setColor_fixInv hst8)
    exact fixInv_trans f8 (setColor_fixInv h)
  · obtain ⟨gl, _, h⟩ := ubBind_eq_some h
    obtain ⟨gln, _, h⟩ := ubBind_eq_some h
    split at h
    · obtain ⟨st1, hst1, h⟩ := ubBind_eq_some h
      obtain ⟨st2, hst2, h⟩ := ubBind_eq_some h
      exact fixInv_trans (fixInv_trans (rotateRight2_fixInv hst1)
        (setColor_fixInv hst2)) (setColor_fixInv h)
    · exact setColor_fixInv h

theorem fixInsElse_fixInv {cmp : α → α → Int} {st st' : RBState α}
    {ni pi : Nat} (h : fixInsElse cmp st ni pi = some st') : fixInv st st' := by
  unfold fixInsElse at h
  obtain ⟨pn, _, h⟩ := ubBind_eq_some h
  obtain ⟨nn, _, h⟩ := ubBind_eq_some h
  obtain ⟨cond, _, h⟩ := ubBind_eq_some h
  split at h
  · exact rotateRight_fixInv h
  · exact rotateLeft_fixInv h

theorem fixTreeInsert_fixInv {cmp : α → α → Int} :
    ∀ {fuel : Nat} {st st' : RBState α} {ni : Nat},
      fixTreeInsert cmp st ni fuel = some st' → fixInv st st' := by
  intro fuel
  induction fuel with
  | zero => intro st st' ni h; exact absurd h (by simp [fixTreeInsert])
  | succ fuel ih =>
    intro st st' ni h
    unfold fixTreeInsert at h
    obtain ⟨uncle, _, h⟩ := ubBind_eq_some h
    obtain ⟨pp, _, h⟩ := ubBind_eq_some h
    obtain ⟨gp, _, h⟩ := ubBind_eq_some h
    obtain ⟨ri, _, h⟩ := ubBind_eq_some h
    obtain ⟨rn, _, h⟩ := ubBind_eq_some h
    obtain ⟨nn, _, h⟩ := ubBind_eq_some h
    split at h
    · exact setColor_fixInv h
    · obtain ⟨pi, _, h⟩ := ubBind_eq_some h
      obtain ⟨pn, _, h⟩ := ubBind_eq_some h
      split at h
      · rcases hu : uncle with _ | ui <;> rw [hu] at h
        · exact fixInsElse_fixInv h
        · obtain ⟨un, _, h⟩ := ubBind_eq_some h
          split at h
          · obtain ⟨st1, hst1, h⟩ := ubBind_eq_some h
            obtain ⟨st2, hst2, h⟩ := ubBind_eq_some h
            obtain ⟨gi, _, h⟩ := ubBind_eq_some h
            obtain ⟨st3, hst3, h⟩ := ubBind_eq_some h
            exact fixInv_trans (fixInv_trans (fixInv_trans
              (setColor_fixInv hst1) (setColor_fixInv hst2))
              (setColor_fixInv hst3)) (ih h)
          · exact fixInsElse_fixInv h
      · cases h; exact fixInv_refl st

theorem treeRBinsert_fixInv {cmp : α → α → Int} :
    ∀ {fuel : Nat} {st : RBState α} {r ni : Nat} {res : Int × RBState α},
      treeRBinsert cmp st r ni fuel = some res → fixInv st res.2 := by
  intro fuel
  induction fuel with
  | zero => intro st r ni res h; exact absurd h (by simp [treeRBinsert])
  | succ fuel ih =>
    intro st r ni res h
    unfold treeRBinsert at h
    obtain ⟨rn, _, h⟩ := ubBind_eq_some h
    obtain ⟨nn, _, h⟩ := ubBind_eq_some h
    split at h
    · cases Option.some.inj h; exact fixInv_refl st
    · split at h
      · split at h
        · obtain ⟨res1, hres1, h⟩ := ubBind_eq_some h
          cases Option.some.inj h
          show fixInv st res1.2
          exact ih hres1
        · obtain ⟨st1, hst1, h⟩ := ubBind_eq_some h
          obtain ⟨st2, hst2, h⟩ := ubBind_eq_some h
          cases Option.some.inj h
          exact fixInv_trans (setRight_fixInv hst1) (setParent_fixInv hst2)
      · split at h
        · obtain ⟨res1, hres1, h⟩ := ubBind_eq_some h
          cases Option.some.inj h
          show fixInv st res1.2
          exact ih hres1
        · obtain ⟨st1, hst1, h⟩ := ubBind_eq_some h
          obtain ⟨st2, hst2, h⟩ := ubBind_eq_some h
          cases Option.some.inj h
          exact fixInv_trans (setLeft_fixInv hst1) (setParent_fixInv hst2)

/-! Heap lemmas and allocator freshness. -/

theorem hget_mem : ∀ {h : Heap α} {i : Nat} {x : NRec α},
    hget h i = some x → (i, x) ∈ h := by
  intro h
  induction h with
  | nil => intro i x hx; exact absurd hx (by simp [hget])
  | cons p t ih =>
    intro i x hx
    unfold hget at hx
    split at hx
    · next hpi =>
      cases Option.some.inj hx
      subst hpi
      exact List.mem_cons_self _ _
    · exact List.mem_cons_of_mem p (ih hx)

theorem hget_append (l2 : Heap α) :
    ∀ {h : Heap α} {i : Nat} {x : NRec α},
      hget h i = some x → hget (h ++ l2) i = some x := by
  intro h
  induction h with
  | nil => intro i x hx; exact absurd hx (by simp [hget])
  | cons p t ih =>
    intro i x hx
    rw [List.cons_append]
    unfold hget at hx ⊢
    by_cases hpi : p.1 = i
    · rwa [if_pos hpi] at hx ⊢
    · rw [if_neg hpi] at hx ⊢
      exact ih hx

theorem hget_append_fresh {k : Nat} (c : NRec α) :
    ∀ {h : Heap α}, hget h k = none → hget (h ++ [(k, c)]) k = some c := by
  intro h
  induction h with
  | nil => intro _; simp [hget]
  | cons p t ih =>
    intro hk
    rw [List.cons_append]
    unfold hget at hk ⊢
    by_cases hpk : p.1 = k
    · rw [if_pos hpk] at hk; cases hk
    · rw [if_neg hpk] at hk ⊢
      exact ih hk

theorem hget_hset_ne {i j : Nat} (n : NRec α) (hij : i ≠ j) :
    ∀ {h : Heap α}, hget (hset h i n) j = hget h j := by
  intro h
  induction h with
  | nil => rfl
  | cons p t ih =>
    unfold hset hget
    simp only [List.map_cons]
    by_cases hpi : p.1 = i
    · rw [if_pos hpi]
      show (if i = j then some n else hget (hset t i n) j) = _
      rw [if_neg hij, if_neg (by rw [hpi]; exact hij)]
      exact ih
    · rw [if_neg hpi]
      show (if p.1 = j then some p.2 else hget (hset t i n) j) = _
      by_cases hpj : p.1 = j
      · rw [if_pos hpj, if_pos hpj]
      · rw [if_neg hpj, if_neg hpj]
        exact ih

theorem hget_hset_self {i : Nat} {n : NRec α} :
    ∀ {h : Heap α} {x : NRec α}, hget h i = some x →
      hget (hset h i n) i = some n := by
  intro h
  induction h with
  | nil => intro x hx; exact absurd hx (by simp [hget])
  | cons p t ih =>
    intro x hx
    unfold hget at hx
    unfold hset
    simp only [List.map_cons]
    by_cases hpi : p.1 = i
    · rw [if_pos hpi]
      show (if i = i then some n else _) = _
      rw [if_pos rfl]
    · rw [if_neg hpi] at hx
      rw [if_neg hpi]
      show (if p.1 = i then some p.2 else hget (hset t i n) i) = _
      rw [if_neg hpi]
      exact ih hx


theorem hget_next_none {st : RBState α} (hf : fresh st) :
    hget st.heap st.next = none := by
  cases hx : hget st.heap st.next with
  | none => rfl
  | some x => exact absurd (hf _ (hget_mem hx)) (by omega)

/-- `contains` only ever returns 0 or 1. -/
theorem contains_cases {cmp : α → α → Int} :
    ∀ {fuel : Nat} {st : RBState α} {p : Option Nat} {d : α} {v : Int},
      contains cmp st p d fuel = some v → v = 0 ∨ v = 1 := by
  intro fuel
  induction fuel with
  | zero => intro st p d v h; exact absurd h (by simp [contains])
  | succ fuel ih =>
    intro st p d v h
    unfold contains at h
    split at h
    · next i =>
      obtain ⟨n, hn, h⟩ := ubBind_eq_some h
      split at h
      · cases Option.some.inj h; exact Or.inr rfl
      · split at h
        · exact ih h
        · exact ih h
    · cases Option.some.inj h; exact Or.inl rfl

/-- If the membership probe reported 0, the recursive insert descends the very
same comparator-guided path, never meets a comparator-equal node, and attaches
the fresh node, returning 1.  (This rules out the dead branch of
`insertToRBTree` in which `treeRBinsert` reports a duplicate after
`RBTreeContains` reported absence.) -/
theorem treeRBinsert_of_contains_zero {cmp : α → α → Int} {st : RBState α}
    (st0 : RBState α) {d : α} {ni : Nat}
    (hni : hget st.heap ni = none)
    (hheap : st0.heap = st.heap ++ [(ni, ⟨d, Color.RED, none, none, none⟩)]) :
    ∀ {fuel : Nat} {r : Nat}, contains cmp st (some r) d fuel = some 0 →
      ∃ st', treeRBinsert cmp st0 r ni fuel = some (1, st') := by
  intro fuel
  induction fuel with
  | zero => intro r h; exact absurd h (by simp [contains])
  | succ fuel ih =>
    intro r h
    unfold contains at h
    obtain ⟨n, hn, h⟩ := ubBind_eq_some h
    have hrni : r ≠ ni := by
      intro he
      rw [he] at hn
      show False
      rw [show hget st.heap ni = some n from hn] at hni
      cases hni
    have hn0 : getN st0 r = some n := by
      show hget st0.heap r = some n
      rw [hheap]
      exact hget_append _ hn
    have hnewN : getN st0 ni = some ⟨d, Color.RED, none, none, none⟩ := by
      show hget st0.heap ni = some _
      rw [hheap]
      exact hget_append_fresh _ hni
    unfold treeRBinsert
    rw [ub_bind_eq, hn0, ubBind_some, ub_bind_eq, hnewN, ubBind_some]
    split at h
    · cases Option.some.inj h
    · next hne =>
      split at h
      · next hlt =>
        rw [if_neg hne, if_pos hlt]
        cases hr : n.right with
        | none =>
          have hset1 : setRight st0 r (some ni) =
              some (setNode st0 r { n with right := some ni }) := by
            show (hget st0.heap r).map _ = _
            rw [show hget st0.heap r = some n from hn0]
            rfl
          rw [ub_bind_eq, hset1, ubBind_some]
          have hget2 : getN (setNode st0 r { n with right := some ni }) ni =
              some ⟨d, Color.RED, none, none, none⟩ := by
            show hget (hset st0.heap r _) ni = _
            rw [hget_hset_ne _ hrni]
            exact hnewN
          have hset2 : setParent (setNode st0 r { n with right := some ni }) ni
              (some r) = some (setNode (setNode st0 r { n with right := some ni })
                ni { (⟨d, Color.RED, none, none, none⟩ : NRec α) with
                      parent := some r }) := by
            show (hget _ _).map _ = _
            rw [show hget (setNode st0 r _).heap ni = _ from hget2]
            rfl
          rw [ub_bind_eq, hset2, ubBind_some]
          exact ⟨_, rfl⟩
        | some ri =>
          rw [hr] at h
          obtain ⟨st', hst'⟩ := ih h
          refine ⟨st', ?_⟩
          show ubBind (treeRBinsert cmp st0 ri ni fuel)
            (fun res => pure (1, res.2)) = some (1, st')
          rw [hst', ubBind_some]
          rfl
      · next hnlt =>
        rw [if_neg hne, if_neg hnlt]
        cases hl : n.left with
        | none =>
          have hset1 : setLeft st0 r (some ni) =
              some (setNode st0 r { n with left := some ni }) := by
            show (hget st0.heap r).map _ = _
            rw [show hget st0.heap r = some n from hn0]
            rfl
          rw [ub_bind_eq, hset1, ubBind_some]
          have hget2 : getN (setNode st0 r { n with left := some ni }) ni =
              some ⟨d, Color.RED, none, none, none⟩ := by
            show hget (hset st0.heap r _) ni = _
            rw [hget_hset_ne _ hrni]
            exact hnewN
          have hset2 : setParent (setNode st0 r { n with left := some ni }) ni
              (some r) = some (setNode (setNode st0 r { n with left := some ni })
                ni { (⟨d, Color.RED, none, none, none⟩ : NRec α) with
                      parent := some r }) := by
            show (hget _ _).map _ = _
            rw [show hget (setNode st0 r _).heap ni = _ from hget2]
            rfl
          rw [ub_bind_eq, hset2, ubBind_some]
          exact ⟨_, rfl⟩
        | some li =>
          rw [hl] at h
          obtain ⟨st', hst'⟩ := ih h
          refine ⟨st', ?_⟩
          show ubBind (treeRBinsert cmp st0 li ni fuel)
            (fun res => pure (1, res.2)) = some (1, st')
          rw [hst', ubBind_some]
          rfl

/-- A failing insert (result 0) on a fresh-allocator state returns the state
unchanged: the early null/duplicate exits return it literally, and the dead
deep-duplicate branch of `treeRBinsert` is unreachable. -/
theorem insert_fail_unchanged {cmp : α → α → Int} {st : RBState α} {d : α}
    {fuel : Nat} {t : Option (RBState α)} (hf : fresh st)
    (h : insertToRBTree cmp (some st) (some d) fuel = some (0, t)) :
    t = some st := by
  unfold insertToRBTree at h
  obtain ⟨c, hc, h⟩ := ubBind_eq_some h
  split at h
  · cases Option.some.inj h; rfl
  · next hc1 =>
    have hc0 : c = 0 := (contains_cases hc).resolve_right hc1
    subst hc0
    unfold insertMain at h
    rcases hroot : st.root with _ | ri <;>
      rw [show ({ st with
          heap := st.heap ++ [(st.next, ⟨d, Color.RED, none, none, none⟩)],
          next := st.next + 1 } : RBState α).root = st.root from rfl, hroot] at h
    · obtain ⟨st1, hst1, h⟩ := ubBind_eq_some h
      have h10 := congrArg Prod.fst (Option.some.inj h)
      simp at h10
    · obtain ⟨res, hres, h⟩ := ubBind_eq_some h
      have hcontains : contains cmp st (some ri) d fuel = some 0 := by
        have h2 : contains cmp st st.root d fuel = some 0 := hc
        rwa [hroot] at h2
      obtain ⟨st', hst'⟩ := treeRBinsert_of_contains_zero
        ({ heap := st.heap ++ [(st.next, ⟨d, Color.RED, none, none, none⟩)],
           next := st.next + 1, root := some ri, size := st.size,
           freed := st.freed })
        (hget_next_none hf) rfl hcontains
      rw [hst'] at hres
      cases Option.some.inj hres
      split at h
      · next h10 => simp at h10
      · obtain ⟨st2, hst2, h⟩ := ubBind_eq_some h
        have h10 := congrArg Prod.fst (Option.some.inj h)
        simp at h10

/-- A successful insert increments the size field by exactly one. -/
theorem insert_success_size {cmp : α → α → Int} {st st' : RBState α} {d : α}
    {fuel : Nat}
    (h : insertToRBTree cmp (some st) (some d) fuel = some (1, some st')) :
    st'.size = st.size + 1 := by
  unfold insertToRBTree at h
  obtain ⟨c, hc, h⟩ := ubBind_eq_some h
  split at h
  · have h10 := congrArg Prod.fst (Option.some.inj h)
    simp at h10
  · unfold insertMain at h
    rcases hroot : st.root with _ | ri <;>
      rw [show ({ st with
          heap := st.heap ++ [(st.next, ⟨d, Color.RED, none, none, none⟩)],
          next := st.next + 1 } : RBState α).root = st.root from rfl, hroot] at h
    · obtain ⟨st1, hst1, h⟩ := ubBind_eq_some h
      have hfix := setColor_fixInv hst1
      have hX := Option.some.inj (congrArg Prod.snd (Option.some.inj h))
      rw [← hX]
      show st1.size + 1 = st.size + 1
      rw [hfix.1]
    · obtain ⟨res, hres, h⟩ := ubBind_eq_some h
      split at h
      · have h10 := congrArg Prod.fst (Option.some.inj h)
        simp at h10
      · obtain ⟨st2, hst2, h⟩ := ubBind_eq_some h
        have f1 := treeRBinsert_fixInv hres
        have f2 := fixTreeInsert_fixInv hst2
        have hX := Option.some.inj (congrArg Prod.snd (Option.some.inj h))
        rw [← hX]
        show st2.size + 1 = st.size + 1
        rw [f2.1, f1.1]

/-- A failing delete returns the tree unchanged: every result-0 path of
`deleteFromRBTree` exits before any mutation. -/
theorem delete_fail_unchanged {cmp : α → α → Int} {st : RBState α} {d : α}
    {fuel : Nat} {t : Option (RBState α)}
    (h : deleteFromRBTree cmp (some st) (some d) fuel = some (0, t)) :
    t = some st := by
  unfold deleteFromRBTree at h
  obtain ⟨c, hc, h⟩ := ubBind_eq_some h
  split at h
  · cases Option.some.inj h; rfl
  · obtain ⟨nodeOpt, hn, h⟩ := ubBind_eq_some h
    split at h
    · cases Option.some.inj h; rfl
    · obtain ⟨sucPtr, hs, h⟩ := ubBind_eq_some h
      split at h
      · obtain ⟨st1, hst1, h⟩ := ubBind_eq_some h
        obtain ⟨st2, hst2, h⟩ := ubBind_eq_some h
        have h10 := congrArg Prod.fst (Option.some.inj h)
        simp at h10
      · obtain ⟨st2, hst2, h⟩ := ubBind_eq_some h
        have h10 := congrArg Prod.fst (Option.some.inj h)
        simp at h10

theorem rotateLeftDelete_fixInv {cmp : α → α → Int} {st0 st' : RBState α}
    {parent : Nat} (h : rotateLeftDelete cmp st0 parent = some st') :
    fixInv st0 st' := by
  unfold rotateLeftDelete at h
  obtain ⟨p0, _, h⟩ := ubBind_eq_some h
  obtain ⟨si, _, h⟩ := ubBind_eq_some h
  obtain ⟨s0, _, h⟩ := ubBind_eq_some h
  obtain ⟨st1, hst1, h⟩ := ubBind_eq_some h
  obtain ⟨st2, hst2, h⟩ := ubBind_eq_some h
  obtain ⟨st3, hst3, h⟩ := ubBind_eq_some h
  obtain ⟨p3, _, h⟩ := ubBind_eq_some h
  obtain ⟨st4, hst4, h⟩ := ubBind_eq_some h
  obtain ⟨p4, _, h⟩ := ubBind_eq_some h
  have f4 : fixInv st0 st4 :=
    fixInv_trans (fixInv_trans (fixInv_trans (setRight_fixInv hst1)
      (setParentIf_fixInv hst2)) (setLeft_fixInv hst3)) (setParent_fixInv hst4)
  rcases hp4 : p4.parent with _ | ppi <;> rw [hp4] at h
  · exact fixInv_trans (fixInv_trans f4 (root_update_fixInv st4 _))
      (setParent_fixInv h)
  · obtain ⟨pp, _, h⟩ := ubBind_eq_some h
    obtain ⟨ppl, _, h⟩ := ubBind_eq_some h
    obtain ⟨ppln, _, h⟩ := ubBind_eq_some h
    obtain ⟨pn, _, h⟩ := ubBind_eq_some h
    obtain ⟨st5, hst5, h⟩ := ubBind_eq_some h
    exact fixInv_trans (fixInv_trans f4 (setLeftElseRight_fixInv hst5))
      (setParent_fixInv h)

theorem rotateRightDelete_fixInv {cmp : α → α → Int} {st0 st' : RBState α}
    {parent : Nat} (h : rotateRightDelete cmp st0 parent = some st') :
    fixInv st0 st' := by
  unfold rotateRightDelete at h
  obtain ⟨p0, _, h⟩ := ubBind_eq_some h
  obtain ⟨si, _, h⟩ := ubBind_eq_some h
  obtain ⟨s0, _, h⟩ := ubBind_eq_some h
  obtain ⟨st1, hst1, h⟩ := ubBind_eq_some h
  obtain ⟨st2, hst2, h⟩ := ubBind_eq_some h
  obtain ⟨st3, hst3, h⟩ := ubBind_eq_some h
  obtain ⟨p3, _, h⟩ := ubBind_eq_some h
  obtain ⟨st4, hst4, h⟩ := ubBind_eq_some h
  obtain ⟨p4, _, h⟩ := ubBind_eq_some h
  have f4 : fixInv st0 st4 :=
    fixInv_trans (fixInv_trans (fixInv_trans (setLeft_fixInv hst1)
      (setParentIf_fixInv hst2)) (setRight_fixInv hst3)) (setParent_fixInv hst4)
  rcases hp4 : p4.parent with _ | ppi <;> rw [hp4] at h
  · exact fixInv_trans (fixInv_trans f4 (root_update_fixInv st4 _))
      (setParent_fixInv h)
  · obtain ⟨pp, _, h⟩ := ubBind_eq_some h
    obtain ⟨pn, _, h⟩ := ubBind_eq_some h
    obtain ⟨cond, _, h⟩ := ubBind_eq_some h
    obtain ⟨st5, hst5, h⟩ := ubBind_eq_some h
    exact fixInv_trans (fixInv_trans f4 (setLeftElseRight_fixInv hst5))
      (setParent_fixInv h)

theorem deleteE_fixInv {cmp : α → α → Int} {st0 st' : RBState α}
    {parent : Nat} {side : Char} (h : deleteE cmp st0 parent side = some st') :
    fixInv st0 st' := by
  unfold deleteE at h
  split at h
  · obtain ⟨p, _, h⟩ := ubBind_eq_some h
    obtain ⟨si, _, h⟩ := ubBind_eq_some h
    obtain ⟨sn, _, h⟩ := ubBind_eq_some h
    obtain ⟨st1, hst1, h⟩ := ubBind_eq_some h
    obtain ⟨st2, hst2, h⟩ := ubBind_eq_some h
    obtain ⟨st3, hst3, h⟩ := ubBind_eq_some h
    obtain ⟨s3, _, h⟩ := ubBind_eq_some h
    obtain ⟨sri, _, h⟩ := ubBind_eq_some h
    exact fixInv_trans (fixInv_trans (fixInv_trans (setColor_fixInv hst1)
      (setColor_fixInv hst2)) (rotateLeftDelete_fixInv hst3))
      (setColor_fixInv h)
  · split at h
    · obtain ⟨p, _, h⟩ := ubBind_eq_some h
      obtain ⟨si, _, h⟩ := ubBind_eq_some h
      obtain ⟨sn, _, h⟩ := ubBind_eq_some h
      obtain ⟨st1, hst1, h⟩ := ubBind_eq_some h
      obtain ⟨st2, hst2, h⟩ := ubBind_eq_some h
      obtain ⟨st3, hst3, h⟩ := ubBind_eq_some h
      obtain ⟨s3, _, h⟩ := ubBind_eq_some h
      obtain ⟨sli, _, h⟩ := ubBind_eq_some h
      exact fixInv_trans (fixInv_trans (fixInv_trans (setColor_fixInv hst1)
        (setColor_fixInv hst2)) (rotateRightDelete_fixInv hst3))
        (setColor_fixInv h)
    · cases Option.some.inj h; exact fixInv_refl _

theorem deleteD_fixInv {cmp : α → α → Int} {st0 st' : RBState α}
    {parent : Nat} {side : Char} (h : deleteD cmp st0 parent side = some st') :
    fixInv st0 st' := by
  unfold deleteD at h
  split at h
  · obtain ⟨p, _, h⟩ := ubBind_eq_some h
    obtain ⟨ri, _, h⟩ := ubBind_eq_some h
    obtain ⟨r, _, h⟩ := ubBind_eq_some h
    obtain ⟨rli, _, h⟩ := ubBind_eq_some h
    obtain ⟨st1, hst1, h⟩ := ubBind_eq_some h
    obtain ⟨st2, hst2, h⟩ := ubBind_eq_some h
    obtain ⟨st3, hst3, h⟩ := ubBind_eq_some h
    exact fixInv_trans (fixInv_trans (fixInv_trans (setColor_fixInv hst1)
      (setColor_fixInv hst2)) (rotateRightDelete_fixInv hst3))
      (deleteE_fixInv h)
  · obtain ⟨p, _, h⟩ := ubBind_eq_some h
    obtain ⟨li, _, h⟩ := ubBind_eq_some h
    obtain ⟨l, _, h⟩ := ubBind_eq_some h
    obtain ⟨lri, _, h⟩ := ubBind_eq_some h
    obtain ⟨st1, hst1, h⟩ := ubBind_eq_some h
    obtain ⟨st2, hst2, h⟩ := ubBind_eq_some h
    obtain ⟨st3, hst3, h⟩ := ubBind_eq_some h
    exact fixInv_trans (fixInv_trans (fixInv_trans (setColor_fixInv hst1)
      (setColor_fixInv hst2)) (rotateLeftDelete_fixInv hst3))
      (deleteE_fixInv h)

/-- The whole double-black rebalancing family only recolors and rotates: it
preserves size, next, freed and the heap keys. -/
theorem delete3Family_fixInv {cmp : α → α → Int} :
    ∀ (fuel : Nat),
      (∀ {st0 st' : RBState α} {p : Nat} {side : Char},
        delete3 cmp st0 p side fuel = some st' → fixInv st0 st') ∧
      (∀ {st0 st' : RBState α} {p : Nat} {side : Char},
        deleteB cmp st0 p side fuel = some st' → fixInv st0 st') ∧
      (∀ {st0 st' : RBState α} {p : Nat} {side : Char},
        deleteC cmp st0 p side fuel = some st' → fixInv st0 st') := by
  intro fuel
  induction fuel with
  | zero =>
    refine ⟨?_, ?_, ?_⟩ <;> intro st0 st' p side h
    · exact absurd h (by simp [delete3])
    · exact absurd h (by simp [deleteB])
    · exact absurd h (by simp [deleteC])
  | succ fuel ih =>
    obtain ⟨ih3, ihB, ihC⟩ := ih
    refine ⟨?_, ?_, ?_⟩ <;> intro st0 st' p side h
    · unfold delete3 at h
      split at h
      · obtain ⟨pn, _, h⟩ := ubBind_eq_some h
        obtain ⟨g, _, h⟩ := ubBind_eq_some h
        split at h
        · cases Option.some.inj h; exact fixInv_refl _
        · split at h
          · obtain ⟨r, _, h⟩ := ubBind_eq_some h
            split at h
            · obtain ⟨rrB, _, h⟩ := ubBind_eq_some h
              obtain ⟨rlB, _, h⟩ := ubBind_eq_some h
              obtain ⟨rlR, _, h⟩ := ubBind_eq_some h
              obtain ⟨rrR, _, h⟩ := ubBind_eq_some h
              split at h
              · exact ihB h
              · split at h
                · exact deleteD_fixInv h
                · split at h
                  · exact deleteE_fixInv h
                  · cases Option.some.inj h; exact fixInv_refl _
            · exact ihC h
          · exact ihC h
      · split at h
        · obtain ⟨pn, _, h⟩ := ubBind_eq_some h
          obtain ⟨g, _, h⟩ := ubBind_eq_some h
          split at h
          · cases Option.some.inj h; exact fixInv_refl _
          · split at h
            · obtain ⟨l, _, h⟩ := ubBind_eq_some h
              split at h
              · obtain ⟨lrB, _, h⟩ := ubBind_eq_some h
                obtain ⟨llB, _, h⟩ := ubBind_eq_some h
                obtain ⟨lrR, _, h⟩ := ubBind_eq_some h
                obtain ⟨llR, _, h⟩ := ubBind_eq_some h
                split at h
                · exact ihB h
                · split at h
                  · exact deleteD_fixInv h
                  · split at h
                    · exact deleteE_fixInv h
                    · cases Option.some.inj h; exact fixInv_refl _
              · exact ihC h
            · exact ihC h
        · cases Option.some.inj h; exact fixInv_refl _
    · unfold deleteB at h
      obtain ⟨pn, _, h⟩ := ubBind_eq_some h
      split at h
      · obtain ⟨st1, hst1, h⟩ := ubBind_eq_some h
        have f1 := setColor_fixInv hst1
        split at h
        · obtain ⟨p1, _, h⟩ := ubBind_eq_some h
          obtain ⟨ri, _, h⟩ := ubBind_eq_some h
          exact fixInv_trans f1 (setColor_fixInv h)
        · split at h
          · obtain ⟨p1, _, h⟩ := ubBind_eq_some h
            obtain ⟨li, _, h⟩ := ubBind_eq_some h
            exact fixInv_trans f1 (setColor_fixInv h)
          · cases Option.some.inj h; exact f1
      · split at h
        · obtain ⟨ri, _, h⟩ := ubBind_eq_some h
          exact setColor_fixInv h
        · obtain ⟨li, _, h⟩ := ubBind_eq_some h
          obtain ⟨st1, hst1, h⟩ := ubBind_eq_some h
          have f1 := setColor_fixInv hst1
          obtain ⟨p1, _, h⟩ := ubBind_eq_some h
          rcases hp1 : p1.parent with _ | ppi <;> rw [hp1] at h
          · cases Option.some.inj h; exact f1
          · obtain ⟨pp, _, h⟩ := ubBind_eq_some h
            obtain ⟨ppl, _, h⟩ := ubBind_eq_some h
            obtain ⟨ppln, _, h⟩ := ubBind_eq_some h
            split at h
            · exact fixInv_trans f1 (ih3 h)
            · exact fixInv_trans f1 (ih3 h)
    · unfold deleteC at h
      split at h
      · obtain ⟨pn, _, h⟩ := ubBind_eq_some h
        obtain ⟨ri, _, h⟩ := ubBind_eq_some h
        obtain ⟨r, _, h⟩ := ubBind_eq_some h
        obtain ⟨st1, hst1, h⟩ := ubBind_eq_some h
        obtain ⟨st2, hst2, h⟩ := ubBind_eq_some h
        obtain ⟨st3, hst3, h⟩ := ubBind_eq_some h
        exact fixInv_trans (fixInv_trans (fixInv_trans (setColor_fixInv hst1)
          (setColor_fixInv hst2)) (rotateLeftDelete_fixInv hst3)) (ih3 h)
      · split at h
        · obtain ⟨pn, _, h⟩ := ubBind_eq_some h
          obtain ⟨li, _, h⟩ := ubBind_eq_some h
          obtain ⟨l, _, h⟩ := ubBind_eq_some h
          obtain ⟨st1, hst1, h⟩ := ubBind_eq_some h
          obtain ⟨st2, hst2, h⟩ := ubBind_eq_some h
          obtain ⟨st3, hst3, h⟩ := ubBind_eq_some h
          exact fixInv_trans (fixInv_trans (fixInv_trans (setColor_fixInv hst1)
            (setColor_fixInv hst2)) (rotateRightDelete_fixInv hst3)) (ih3 h)
        · exact ih3 h


theorem remInv_of_fixInv {st1 st2 st3 : RBState α} {x : α}
    (h1 : fixInv st1 st2) (h2 : remInv st2 st3 x) : remInv st1 st3 x := by
  obtain ⟨a1, b1, c1, _⟩ := h1
  obtain ⟨a2, b2, c2⟩ := h2
  exact ⟨a2.trans a1, b2.trans b1, by rw [c2, c1]⟩

theorem remInv_fixInv {st1 st2 st3 : RBState α} {x : α}
    (h1 : remInv st1 st2 x) (h2 : fixInv st2 st3) : remInv st1 st3 x := by
  obtain ⟨a1, b1, c1⟩ := h1
  obtain ⟨a2, b2, c2, _⟩ := h2
  exact ⟨a2.trans a1, b2.trans b1, by rw [c2, c1]⟩

theorem delete1_spec {cmp : α → α → Int} {st0 st' : RBState α} {node : Nat}
    (h : delete1 cmp st0 node = some st') :
    ∃ n, getN st0 node = some n ∧ remInv st0 st' n.data := by
  unfold delete1 at h
  obtain ⟨n, hn, h⟩ := ubBind_eq_some h
  obtain ⟨pi, _, h⟩ := ubBind_eq_some h
  obtain ⟨p, _, h⟩ := ubBind_eq_some h
  obtain ⟨cond, _, h⟩ := ubBind_eq_some h
  refine ⟨n, hn, ?_⟩
  split at h
  · obtain ⟨st1, hst1, h⟩ := ubBind_eq_some h
    have f1 := setRight_fixInv hst1
    cases Option.some.inj h
    exact remInv_of_fixInv f1 ⟨rfl, rfl, rfl⟩
  · obtain ⟨st1, hst1, h⟩ := ubBind_eq_some h
    have f1 := setLeft_fixInv hst1
    cases Option.some.inj h
    exact remInv_of_fixInv f1 ⟨rfl, rfl, rfl⟩

theorem delete2_spec {cmp : α → α → Int} {st0 st' : RBState α} {node : Nat}
    {side : Char} (h : delete2 cmp st0 node side = some st') :
    ∃ n, getN st0 node = some n ∧ remInv st0 st' n.data := by
  unfold delete2 at h
  obtain ⟨n, hn, h⟩ := ubBind_eq_some h
  refine ⟨n, hn, ?_⟩
  split at h
  · obtain ⟨ri, _, h⟩ := ubBind_eq_some h
    obtain ⟨st1, hst1, h⟩ := ubBind_eq_some h
    obtain ⟨pi, _, h⟩ := ubBind_eq_some h
    obtain ⟨p, _, h⟩ := ubBind_eq_some h
    obtain ⟨pri, _, h⟩ := ubBind_eq_some h
    obtain ⟨prn, _, h⟩ := ubBind_eq_some h
    obtain ⟨st2, hst2, h⟩ := ubBind_eq_some h
    obtain ⟨st3, hst3, h⟩ := ubBind_eq_some h
    have f := fixInv_trans (fixInv_trans (setParent_fixInv hst1)
      (setRightElseLeft_fixInv hst2)) (setColor_fixInv hst3)
    cases Option.some.inj h
    exact remInv_of_fixInv f ⟨rfl, rfl, rfl⟩
  · obtain ⟨li, _, h⟩ := ubBind_eq_some h
    rcases hp : n.parent with _ | pi <;> rw [hp] at h
    · obtain ⟨st2, hst2, h⟩ := ubBind_eq_some h
      obtain ⟨st3, hst3, h⟩ := ubBind_eq_some h
      have f := fixInv_trans (fixInv_trans (root_update_fixInv st0 _)
        (setParent_fixInv hst2)) (setColor_fixInv hst3)
      cases Option.some.inj h
      exact remInv_of_fixInv f ⟨rfl, rfl, rfl⟩
    · obtain ⟨st1, hst1, h⟩ := ubBind_eq_some h
      obtain ⟨p, _, h⟩ := ubBind_eq_some h
      obtain ⟨pri, _, h⟩ := ubBind_eq_some h
      obtain ⟨prn, _, h⟩ := ubBind_eq_some h
      obtain ⟨st2, hst2, h⟩ := ubBind_eq_some h
      obtain ⟨st3, hst3, h⟩ := ubBind_eq_some h
      have f := fixInv_trans (fixInv_trans (setParent_fixInv hst1)
        (setRightElseLeft_fixInv hst2)) (setColor_fixInv hst3)
      cases Option.some.inj h
      exact remInv_of_fixInv f ⟨rfl, rfl, rfl⟩

theorem removeM_spec {cmp : α → α → Int} {st0 : RBState α} {node : Nat}
    {res : Char × RBState α} (h : removeM cmp st0 node = some res) :
    ∃ n, getN st0 node = some n ∧ remInv st0 res.2 n.data := by
  unfold removeM at h
  obtain ⟨n, hn, h⟩ := ubBind_eq_some h
  refine ⟨n, hn, ?_⟩
  rcases hp : n.parent with _ | pi <;> rw [hp] at h
  · obtain ⟨st2, hst2, h⟩ := ubBind_eq_some h
    have f := fixInv_trans (root_update_fixInv st0 _) (setParentIf_fixInv hst2)
    cases Option.some.inj h
    exact remInv_of_fixInv f ⟨rfl, rfl, rfl⟩
  · obtain ⟨p, _, h⟩ := ubBind_eq_some h
    obtain ⟨isL, _, h⟩ := ubBind_eq_some h
    split at h
    · obtain ⟨st1, hst1, h⟩ := ubBind_eq_some h
      obtain ⟨st2, hst2, h⟩ := ubBind_eq_some h
      have f := fixInv_trans (setLeft_fixInv hst1) (setParentIf_fixInv hst2)
      cases Option.some.inj h
      exact remInv_of_fixInv f ⟨rfl, rfl, rfl⟩
    · obtain ⟨st1, hst1, h⟩ := ubBind_eq_some h
      obtain ⟨st2, hst2, h⟩ := ubBind_eq_some h
      have f := fixInv_trans (setRight_fixInv hst1) (setParentIf_fixInv hst2)
      cases Option.some.inj h
      exact remInv_of_fixInv f ⟨rfl, rfl, rfl⟩

/-- `fixTreeDelete` frees exactly one node: the one it was pointed at. -/
theorem fixTreeDelete_spec {cmp : α → α → Int} {st0 st' : RBState α}
    {node : Nat} {fuel : Nat}
    (h : fixTreeDelete cmp st0 node fuel = some st') :
    ∃ n, getN st0 node = some n ∧ remInv st0 st' n.data := by
  unfold fixTreeDelete at h
  obtain ⟨n, hn, h⟩ := ubBind_eq_some h
  refine ⟨n, hn, ?_⟩
  split at h
  · obtain ⟨m, hm, hrem⟩ := delete1_spec h
    rw [hn] at hm
    cases Option.some.inj hm
    exact hrem
  · obtain ⟨rRed, _, h⟩ := ubBind_eq_some h
    split at h
    · obtain ⟨m, hm, hrem⟩ := delete2_spec h
      rw [hn] at hm
      cases Option.some.inj hm
      exact hrem
    · obtain ⟨lRed, _, h⟩ := ubBind_eq_some h
      split at h
      · obtain ⟨m, hm, hrem⟩ := delete2_spec h
        rw [hn] at hm
        cases Option.some.inj hm
        exact hrem
      · obtain ⟨res, hres, h⟩ := ubBind_eq_some h
        obtain ⟨m, hm, hrem⟩ := removeM_spec hres
        rw [hn] at hm
        cases Option.some.inj hm
        split at h
        · obtain ⟨pi, _, h⟩ := ubBind_eq_some h
          exact remInv_fixInv hrem ((delete3Family_fixInv fuel).1 h)
        · cases Option.some.inj h
          exact hrem

/-- `nodeFinder` returns a live node whose data compares equal to the key. -/
theorem nodeFinder_spec {cmp : α → α → Int} :
    ∀ {fuel : Nat} {st : RBState α} {p : Option Nat} {d : α} {node : Nat},
      nodeFinder cmp st p d fuel = some (some node) →
      ∃ n, getN st node = some n ∧ cmp n.data d = 0 := by
  intro fuel
  induction fuel with
  | zero => intro st p d node h; exact absurd h (by simp [nodeFinder])
  | succ fuel ih =>
    intro st p d node h
    unfold nodeFinder at h
    obtain ⟨i, hi, h⟩ := ubBind_eq_some h
    obtain ⟨n, hn, h⟩ := ubBind_eq_some h
    split at h
    · next heq =>
      cases Option.some.inj (Option.some.inj h)
      exact ⟨n, hn, heq⟩
    · split at h
      · exact ih h
      · exact ih h

/-- `treeReplaceNode` swaps data: afterwards node `b` holds node `a`'s data. -/
theorem treeReplaceNode_spec {st st1 : RBState α} {a b : Nat}
    (h : treeReplaceNode st a b = some st1) :
    fixInv st st1 ∧
      ∃ na x, getN st a = some na ∧ getN st1 b = some x ∧ x.data = na.data := by
  unfold treeReplaceNode at h
  obtain ⟨nn, hnn, h⟩ := ubBind_eq_some h
  obtain ⟨cn, hcn, h⟩ := ubBind_eq_some h
  obtain ⟨stm, hstm, h⟩ := ubBind_eq_some h
  have f1 := setData_fixInv hstm
  have f2 := setData_fixInv h
  constructor
  · exact fixInv_trans f1 f2
  · rcases Option.map_eq_some'.mp hstm with ⟨na1, hna1, hstm'⟩
    rcases Option.map_eq_some'.mp h with ⟨nb1, hnb1, hst1'⟩
    refine ⟨nn, { nb1 with data := nn.data }, hnn, ?_, rfl⟩
    rw [← hst1']
    show hget (hset stm.heap b _) b = _
    exact hget_hset_self hnb1

/-- A successful delete decrements the size field by exactly one and invokes
the destructor exactly once, on an element comparing equal to the key. -/
theorem delete_success_spec {cmp : α → α → Int} {st st' : RBState α} {d : α}
    {fuel : Nat}
    (h : deleteFromRBTree cmp (some st) (some d) fuel = some (1, some st')) :
    st'.size = st.size - 1 ∧
      ∃ x, cmp x d = 0 ∧ st'.freed = st.freed ++ [x] := by
  unfold deleteFromRBTree at h
  obtain ⟨c, hc, h⟩ := ubBind_eq_some h
  split at h
  · have h10 := congrArg Prod.fst (Option.some.inj h)
    simp at h10
  · obtain ⟨nodeOpt, hnf, h⟩ := ubBind_eq_some h
    split at h
    · have h10 := congrArg Prod.fst (Option.some.inj h)
      simp at h10
    · next node =>
      obtain ⟨nfound, hnfound, hcmp0⟩ := nodeFinder_spec hnf
      obtain ⟨sucPtr, hs, h⟩ := ubBind_eq_some h
      split at h
      · next suc =>
        obtain ⟨st1, hst1, h⟩ := ubBind_eq_some h
        obtain ⟨st2, hst2, h⟩ := ubBind_eq_some h
        obtain ⟨f1, na, x, hna, hgx, hxd⟩ := treeReplaceNode_spec hst1
        obtain ⟨m, hm, hrem⟩ := fixTreeDelete_spec hst2
        rw [hgx] at hm
        cases Option.some.inj hm
        rw [hnfound] at hna
        cases Option.some.inj hna
        have hX := Option.some.inj (congrArg Prod.snd (Option.some.inj h))
        constructor
        · rw [← hX]
          show st2.size - 1 = st.size - 1
          rw [hrem.1, f1.1]
        · refine ⟨x.data, ?_, ?_⟩
          · rw [hxd]
            exact hcmp0
          · rw [← hX]
            show st2.freed = st.freed ++ [x.data]
            rw [hrem.2.2, f1.2.2.1]
      · obtain ⟨st2, hst2, h⟩ := ubBind_eq_some h
        obtain ⟨m, hm, hrem⟩ := fixTreeDelete_spec hst2
        rw [hnfound] at hm
        cases Option.some.inj hm
        have hX := Option.some.inj (congrArg Prod.snd (Option.some.inj h))
        constructor
        · rw [← hX]
          show st2.size - 1 = st.size - 1
          rw [hrem.1]
        · refine ⟨nfound.data, hcmp0, ?_⟩
          rw [← hX]
          show st2.freed = st.freed ++ [nfound.data]
          exact hrem.2.2

/-- C4: failing inserts and deletes (null tree, null element, duplicate on
insert, absent element on delete) return the failure indicator 0 and leave the
tree state completely unchanged (in particular same size, heap, root and
in-order sequence), and a successful insert (resp. delete) changes the element
count by exactly +1 (resp. -1).  The only hypothesis, allocator freshness,
holds for every state the API builds. -/
theorem C4_failure_paths_and_size {α : Type} (cmp : α → α → Int)
    (st : RBState α) (hf : fresh st) :
    (∀ (d : Option α) (fuel : Nat),
      insertToRBTree cmp none d fuel = some (0, none)) ∧
    (∀ (d : Option α) (fuel : Nat),
      deleteFromRBTree cmp none d fuel = some (0, none)) ∧
    (∀ fuel, insertToRBTree cmp (some st) none fuel = some (0, some st)) ∧
    (∀ fuel, deleteFromRBTree cmp (some st) none fuel = some (0, some st)) ∧
    (∀ (d : α) (fuel : Nat) (t : Option (RBState α)),
      insertToRBTree cmp (some st) (some d) fuel = some (0, t) →
        t = some st) ∧
    (∀ (d : α) (fuel : Nat) (t : Option (RBState α)),
      deleteFromRBTree cmp (some st) (some d) fuel = some (0, t) →
        t = some st) ∧
    (∀ (d : α) (fuel : Nat) (st' : RBState α),
      insertToRBTree cmp (some st) (some d) fuel = some (1, some st') →
        st'.size = st.size + 1) ∧
    (∀ (d : α) (fuel : Nat) (st' : RBState α),
      deleteFromRBTree cmp (some st) (some d) fuel = some (1, some st') →
        st'.size = st.size - 1) := by
  refine ⟨fun d fuel => rfl, fun d fuel => rfl, fun fuel => rfl,
    fun fuel => rfl, ?_, ?_, ?_, ?_⟩
  · intro d fuel t h
    exact insert_fail_unchanged hf h
  · intro d fuel t h
    exact delete_fail_unchanged h
  · intro d fuel st' h
    exact insert_success_size h
  · intro d fuel st' h
    exact (delete_success_spec h).1


/-- Witness for C4 at the concrete two-element tree: the duplicate insert and
the absent-element delete leave the state unchanged, and a successful insert
and delete change the size field by exactly one. -/
theorem C4_failure_paths_and_size_witness :
    (some t2St = some t2St ∧ some t2St = some t2St) ∧
    t2StIns7.size = t2St.size + 1 ∧ t2StDel2.size = t2St.size - 1 :=
  ⟨⟨(C4_failure_paths_and_size intCmp t2St (by unfold fresh; decide)).2.2.2.2.1 1 5
      (some t2St) (by rfl),
    (C4_failure_paths_and_size intCmp t2St (by unfold fresh; decide)).2.2.2.2.2.1 7 5
      (some t2St) (by rfl)⟩,
   (C4_failure_paths_and_size intCmp t2St (by unfold fresh; decide)).2.2.2.2.2.2.1 7 5
      t2StIns7 (by rfl),
   (C4_failure_paths_and_size intCmp t2St (by unfold fresh; decide)).2.2.2.2.2.2.2 2 5
      t2StDel2 (by rfl)⟩

theorem revInorder_eq_reverse {α : Type} (t : BT α) :
    revInorder t = (inorder t).reverse := by
  induction t with
  | leaf => rfl
  | nd l d c r ihl ihr =>
    simp [revInorder, inorder, ihl, ihr]

theorem obind_some {a b : Type} (v : a) (f : a → Option b) :
    Option.bind (some v) f = f v := rfl

/-- Extraction only reads the cells it lists, so it is stable under heap
changes outside them. -/
theorem extractIds_agree {α : Type} {st st2 : RBState α} :
    ∀ {fuel : Nat} {p : Option Nat} {t : BT α} {ids : List Nat},
      extractIds st fuel p = some (t, ids) →
      (∀ j ∈ ids, hget st2.heap j = hget st.heap j) →
      extractIds st2 fuel p = some (t, ids) := by
  intro fuel
  induction fuel with
  | zero =>
    intro p t ids h hagree
    cases p with
    | none => exact h
    | some i => exact absurd h (by simp [extractIds])
  | succ fuel ih =>
    intro p t ids h hagree
    cases p with
    | none => exact h
    | some i =>
      unfold extractIds at h
      obtain ⟨n, hn, h⟩ := Option.bind_eq_some.mp h
      obtain ⟨l, hl, h⟩ := Option.bind_eq_some.mp h
      obtain ⟨r, hr, h⟩ := Option.bind_eq_some.mp h
      have hpair := Option.some.inj h
      rw [Prod.mk.injEq] at hpair
      obtain ⟨ht, hids⟩ := hpair
      subst ht
      subst hids
      have hmem : i ∈ (i :: (l.2 ++ r.2)) := List.mem_cons_self _ _
      have hl2 := ih hl (fun j hj => hagree j
        (by simp only [List.mem_cons, List.mem_append]; exact Or.inr (Or.inl hj)))
      have hr2 := ih hr (fun j hj => hagree j
        (by simp only [List.mem_cons, List.mem_append]; exact Or.inr (Or.inr hj)))
      have hstep : extractIds st2 (fuel+1) (some i) =
          Option.bind (hget st2.heap i) (fun n0 =>
            Option.bind (extractIds st2 fuel n0.left) (fun l0 =>
              Option.bind (extractIds st2 fuel n0.right) (fun r0 =>
                some (BT.nd l0.1 n0.data n0.color r0.1,
                  i :: (l0.2 ++ r0.2))))) := rfl
      rw [hstep, show hget st2.heap i = some n from (hagree i hmem).trans hn]
      rw [obind_some]
      rw [hl2, obind_some, hr2, obind_some]

theorem hget_hdel {α : Type} {i j : Nat} :
    ∀ {h : Heap α}, hget (hdel h i) j = if j = i then none else hget h j := by
  intro h
  induction h with
  | nil => simp [hdel, hget]
  | cons p t ih =>
    by_cases hpi : p.1 = i
    · rw [show hdel (p :: t) i = hdel t i by simp [hdel, List.filter, hpi]]
      rw [ih]
      by_cases hji : j = i
      · rw [if_pos hji, if_pos hji]
      · rw [if_neg hji, if_neg hji]
        rw [show hget (p :: t) j = if p.1 = j then some p.2 else hget t j
          from rfl]
        rw [if_neg (fun he : p.1 = j => hji (he ▸ hpi))]
    · rw [show hdel (p :: t) i = p :: hdel t i by simp [hdel, List.filter, hpi]]
      rw [show hget (p :: hdel t i) j =
        if p.1 = j then some p.2 else hget (hdel t i) j from rfl]
      by_cases hpj : p.1 = j
      · rw [if_pos hpj]
        have hji : ¬ j = i := fun he => hpi (hpj.trans he)
        rw [if_neg hji]
        rw [show hget (p :: t) j = if p.1 = j then some p.2 else hget t j
          from rfl, if_pos hpj]
      · rw [if_neg hpj, ih]
        by_cases hji : j = i
        · rw [if_pos hji, if_pos hji]
        · rw [if_neg hji, if_neg hji]
          rw [show hget (p :: t) j = if p.1 = j then some p.2 else hget t j
            from rfl, if_neg hpj]

/-- `freeHelper` on a well-formed subtree succeeds, logs exactly the subtree's
elements in reverse in-order, does not touch cells outside the subtree, and
leaves root, size and next unchanged. -/
theorem freeHelper_spec {α : Type} :
    ∀ {fuel : Nat} {st : RBState α} {p : Option Nat} {t : BT α}
      {ids : List Nat},
      extractIds st fuel p = some (t, ids) → ids.Nodup →
      ∃ st', freeHelper st p (fuel+1) = some st' ∧
        st'.freed = st.freed ++ revInorder t ∧
        (∀ j, j ∉ ids → hget st'.heap j = hget st.heap j) ∧
        st'.root = st.root ∧ st'.size = st.size ∧ st'.next = st.next := by
  intro fuel
  induction fuel with
  | zero =>
    intro st p t ids h hnd
    cases p with
    | none =>
      have hpair := Option.some.inj h
      rw [Prod.mk.injEq] at hpair
      obtain ⟨ht, hids⟩ := hpair
      subst ht
      subst hids
      exact ⟨st, rfl, by simp [revInorder], fun j _ => rfl, rfl, rfl, rfl⟩
    | some i => exact absurd h (by simp [extractIds])
  | succ fuel ih =>
    intro st p t ids h hnd
    cases p with
    | none =>
      have hpair := Option.some.inj h
      rw [Prod.mk.injEq] at hpair
      obtain ⟨ht, hids⟩ := hpair
      subst ht
      subst hids
      exact ⟨st, rfl, by simp [revInorder], fun j _ => rfl, rfl, rfl, rfl⟩
    | some i =>
      unfold extractIds at h
      obtain ⟨n, hn, h⟩ := Option.bind_eq_some.mp h
      obtain ⟨l, hl, h⟩ := Option.bind_eq_some.mp h
      obtain ⟨r, hr, h⟩ := Option.bind_eq_some.mp h
      have hpair := Option.some.inj h
      rw [Prod.mk.injEq] at hpair
      obtain ⟨ht, hids⟩ := hpair
      subst ht
      subst hids
      have hnd' := hnd
      rw [List.nodup_cons] at hnd'
      obtain ⟨hi_not, hlr_nd⟩ := hnd'
      rw [List.nodup_append] at hlr_nd
      obtain ⟨hl_nd, hr_nd, hdisj⟩ := hlr_nd
      obtain ⟨st1, hfh1, hfreed1, hout1, hroot1, hsize1, hnext1⟩ :=
        ih hr hr_nd
      have hn1 : hget st1.heap i = some n := by
        rw [hout1 i (fun hin => hi_not (by
          simp only [List.mem_append]; exact Or.inr hin))]
        exact hn
      have hl_in_st2 : extractIds
          { st1 with freed := st1.freed ++ [n.data] } fuel n.left =
            some (l.1, l.2) := by
        refine extractIds_agree hl (fun j hj => ?_)
        show hget st1.heap j = _
        rw [hout1 j (fun hin => hdisj hj hin)]
      obtain ⟨st3, hfh3, hfreed3, hout3, hroot3, hsize3, hnext3⟩ :=
        ih hl_in_st2 hl_nd
      refine ⟨{ st3 with heap := hdel st3.heap i }, ?_, ?_, ?_, ?_, ?_, ?_⟩
      · have hstep : freeHelper st (some i) (fuel+1+1) =
            ubBind (getN st i) (fun n0 =>
              ubBind (freeHelper st n0.right (fuel+1)) (fun st1 =>
                ubBind (getN st1 i) (fun n1 =>
                  ubBind (freeHelper
                      { st1 with freed := st1.freed ++ [n1.data] }
                      n1.left (fuel+1)) (fun st3 =>
                    pure { st3 with heap := hdel st3.heap i })))) := rfl
        show freeHelper st (some i) (fuel + 1 + 1) = _
        rw [hstep, show (getN st i : UB (NRec α)) = some n from hn]
        simp only [ubBind_some]
        rw [show (freeHelper st n.right (fuel+1) : UB (RBState α)) =
          some st1 from hfh1]
        simp only [ubBind_some]
        rw [show (getN st1 i : UB (NRec α)) = some n from hn1]
        simp only [ubBind_some]
        rw [show (freeHelper { st1 with freed := st1.freed ++ [n.data] }
          n.left (fuel+1) : UB (RBState α)) = some st3 from hfh3]
        simp only [ubBind_some]
        rfl
      · show st3.freed = st.freed ++ revInorder (BT.nd l.1 n.data n.color r.1)
        rw [hfreed3]
        show (st1.freed ++ [n.data]) ++ revInorder l.1 = _
        rw [hfreed1]
        simp [revInorder]
      · intro j hj
        simp only [List.mem_cons, List.mem_append] at hj
        push_neg at hj
        obtain ⟨hji, hjl, hjr⟩ := hj
        show hget (hdel st3.heap i) j = _
        rw [hget_hdel, if_neg hji, hout3 j hjl]
        show hget st1.heap j = _
        exact hout1 j hjr
      · show st3.root = st.root
        exact hroot3.trans hroot1
      · show st3.size = st.size
        exact hsize3.trans hsize1
      · show st3.next = st.next
        exact hnext3.trans hnext1

/-- C7: the destructor is invoked exactly once per destroyed element: a failed
or duplicate-rejected insert never invokes it, a successful delete invokes it
exactly once (on an element comparing equal to the deleted one), and tearing
down a well-formed tree holding n elements invokes it exactly once per
currently-present element (the log grows by the reverse in-order listing of
the tree's elements). -/
theorem C7_destructor_exactly_once {α : Type} (cmp : α → α → Int) :
    (∀ (st st2 : RBState α) (d : Option α) (fuel : Nat), fresh st →
      insertToRBTree cmp (some st) d fuel = some (0, some st2) →
      st2.freed = st.freed) ∧
    (∀ (st st' : RBState α) (d : α) (fuel : Nat),
      deleteFromRBTree cmp (some st) (some d) fuel = some (1, some st') →
      ∃ x, cmp x d = 0 ∧ st'.freed = st.freed ++ [x]) ∧
    (∀ (st : RBState α) (t : BT α) (ids : List Nat) (fuel : Nat),
      extractIds st fuel st.root = some (t, ids) → ids.Nodup →
      ∃ st', freeRBTree st (fuel+1) = some st' ∧
        st'.freed = st.freed ++ (inorder t).reverse) := by
  refine ⟨?_, ?_, ?_⟩
  · intro st st2 d fuel hf h
    match d with
    | none =>
      have hp := Option.some.inj (congrArg Prod.snd (Option.some.inj h))
      rw [← hp]
    | some d' =>
      have hp := insert_fail_unchanged hf h
      rw [Option.some.inj hp]
  · intro st st' d fuel h
    exact (delete_success_spec h).2
  · intro st t ids fuel hx hnd
    obtain ⟨st', h1, h2, _⟩ := freeHelper_spec hx hnd
    refine ⟨st', h1, ?_⟩
    rw [h2, revInorder_eq_reverse]

/-- Witness for C7 at the two-element tree: the duplicate insert of 1 leaves
the destructor log unchanged, deleting 2 logs exactly one comparator-equal
element, and full teardown logs both elements. -/
theorem C7_destructor_exactly_once_witness :
    t2St.freed = t2St.freed ∧
    (∃ x, intCmp x 2 = 0 ∧ t2StDel2.freed = t2St.freed ++ [x]) ∧
    (∃ st', freeRBTree t2St (5+1) = some st' ∧
      st'.freed = t2St.freed ++ (inorder (BT.nd BT.leaf (1 : ℤ) Color.BLACK
        (BT.nd BT.leaf 2 Color.RED BT.leaf))).reverse) :=
  ⟨(C7_destructor_exactly_once intCmp).1 t2St t2St (some 1) 5
      (by unfold fresh; decide) (by rfl),
   (C7_destructor_exactly_once intCmp).2.1 t2St t2StDel2 2 5 (by rfl),
   (C7_destructor_exactly_once intCmp).2.2 t2St
      (BT.nd BT.leaf (1 : ℤ) Color.BLACK (BT.nd BT.leaf 2 Color.RED BT.leaf))
      [0, 1] 5 (by rfl) (by decide)⟩

/-! Machinery for the rotation claims: fuel monotonicity and congruence
lemmas for extraction, black-height facts, and comparator laws. -/

theorem extractIds_destr {α : Type} {st : RBState α} {fuel : Nat} {i : Nat}
    {t : BT α} {ids : List Nat}
    (h : extractIds st (fuel+1) (some i) = some (t, ids)) :
    ∃ n tl idsl tr idsr, hget st.heap i = some n ∧
      extractIds st fuel n.left = some (tl, idsl) ∧
      extractIds st fuel n.right = some (tr, idsr) ∧
      t = BT.nd tl n.data n.color tr ∧ ids = i :: (idsl ++ idsr) := by
  unfold extractIds at h
  obtain ⟨n, hn, h⟩ := Option.bind_eq_some.mp h
  obtain ⟨l, hl, h⟩ := Option.bind_eq_some.mp h
  obtain ⟨r, hr, h⟩ := Option.bind_eq_some.mp h
  have hpair := Option.some.inj h
  rw [Prod.mk.injEq] at hpair
  exact ⟨n, l.1, l.2, r.1, r.2, hn, hl, hr, hpair.1.symm, hpair.2.symm⟩

theorem extractIds_none {α : Type} (st : RBState α) (fuel : Nat) :
    extractIds st fuel none = some (BT.leaf, []) := by
  cases fuel with
  | zero => rfl
  | succ f => rfl

theorem extractIds_mono {α : Type} {st : RBState α} :
    ∀ {fuel fuel' : Nat} {p : Option Nat} {t : BT α} {ids : List Nat},
      fuel ≤ fuel' → extractIds st fuel p = some (t, ids) →
      extractIds st fuel' p = some (t, ids) := by
  intro fuel
  induction fuel with
  | zero =>
    intro fuel' p t ids _ h
    cases p with
    | none => rw [extractIds_none] at h ⊢; exact h
    | some i => exact absurd h (by simp [extractIds])
  | succ fuel ih =>
    intro fuel' p t ids hle h
    cases p with
    | none => rw [extractIds_none] at h ⊢; exact h
    | some i =>
      obtain ⟨f2, rfl⟩ : ∃ f2, fuel' = f2 + 1 := ⟨fuel' - 1, by omega⟩
      have hle2 : fuel ≤ f2 := by omega
      obtain ⟨n, tl, idsl, tr, idsr, hn, hl, hr, ht, hids⟩ := extractIds_destr h
      have hl2 := ih hle2 hl
      have hr2 := ih hle2 hr
      have hstep : extractIds st (f2+1) (some i) =
          Option.bind (hget st.heap i) (fun n0 =>
            Option.bind (extractIds st f2 n0.left) (fun l0 =>
              Option.bind (extractIds st f2 n0.right) (fun r0 =>
                some (BT.nd l0.1 n0.data n0.color r0.1,
                  i :: (l0.2 ++ r0.2))))) := rfl
      rw [hstep, hn, obind_some, hl2, obind_some, hr2, obind_some, ht, hids]

theorem extractIds_build {α : Type} {st : RBState α} {q : Nat} {qc : NRec α}
    {f1 f2 : Nat} {tl tr : BT α} {idsl idsr : List Nat}
    (hq : hget st.heap q = some qc)
    (hl : extractIds st f1 qc.left = some (tl, idsl))
    (hr : extractIds st f2 qc.right = some (tr, idsr)) :
    extractIds st (max f1 f2 + 1) (some q) =
      some (BT.nd tl qc.data qc.color tr, q :: (idsl ++ idsr)) := by
  have hl2 := extractIds_mono (le_max_left f1 f2) hl
  have hr2 := extractIds_mono (le_max_right f1 f2) hr
  have hstep : extractIds st (max f1 f2 + 1) (some q) =
      Option.bind (hget st.heap q) (fun n0 =>
        Option.bind (extractIds st (max f1 f2) n0.left) (fun l0 =>
          Option.bind (extractIds st (max f1 f2) n0.right) (fun r0 =>
            some (BT.nd l0.1 n0.data n0.color r0.1,
              q :: (l0.2 ++ r0.2))))) := rfl
  rw [hstep, hq, obind_some, hl2, obind_some, hr2, obind_some]

theorem extractIds_agreeLR {α : Type} {st st2 : RBState α} :
    ∀ {fuel : Nat} {p : Option Nat} {t : BT α} {ids : List Nat},
      extractIds st fuel p = some (t, ids) →
      (∀ j ∈ ids, cellLR (hget st2.heap j) = cellLR (hget st.heap j)) →
      extractIds st2 fuel p = some (t, ids) := by
  intro fuel
  induction fuel with
  | zero =>
    intro p t ids h hagree
    cases p with
    | none => exact h
    | some i => exact absurd h (by simp [extractIds])
  | succ fuel ih =>
    intro p t ids h hagree
    cases p with
    | none => exact h
    | some i =>
      obtain ⟨n, tl, idsl, tr, idsr, hn, hl, hr, ht, hids⟩ := extractIds_destr h
      subst ht
      subst hids
      have hmem : i ∈ (i :: (idsl ++ idsr)) := List.mem_cons_self _ _
      have hcell := hagree i hmem
      rw [hn] at hcell
      obtain ⟨n2, hn2, hfields⟩ := Option.map_eq_some'.mp hcell
      rw [Prod.mk.injEq, Prod.mk.injEq, Prod.mk.injEq] at hfields
      obtain ⟨hd, hc, hlf, hrf⟩ := hfields
      have hl2 := ih hl (fun j hj => hagree j
        (by simp only [List.mem_cons, List.mem_append]; exact Or.inr (Or.inl hj)))
      have hr2 := ih hr (fun j hj => hagree j
        (by simp only [List.mem_cons, List.mem_append]; exact Or.inr (Or.inr hj)))
      have hstep : extractIds st2 (fuel+1) (some i) =
          Option.bind (hget st2.heap i) (fun n0 =>
            Option.bind (extractIds st2 fuel n0.left) (fun l0 =>
              Option.bind (extractIds st2 fuel n0.right) (fun r0 =>
                some (BT.nd l0.1 n0.data n0.color r0.1,
                  i :: (l0.2 ++ r0.2))))) := rfl
      rw [hstep, hn2, obind_some, hlf, hl2, obind_some, hrf, hr2, obind_some,
        hd, hc]

theorem extractIds_length {α : Type} {st : RBState α} :
    ∀ {fuel : Nat} {p : Option Nat} {t : BT α} {ids : List Nat},
      extractIds st fuel p = some (t, ids) → ids.length = btSize t := by
  intro fuel
  induction fuel with
  | zero =>
    intro p t ids h
    cases p with
    | none =>
      cases Option.some.inj h
      rfl
    | some i => exact absurd h (by simp [extractIds])
  | succ fuel ih =>
    intro p t ids h
    cases p with
    | none =>
      cases Option.some.inj h
      rfl
    | some i =>
      obtain ⟨n, tl, idsl, tr, idsr, hn, hl, hr, ht, hids⟩ := extractIds_destr h
      subst ht
      subst hids
      have h1 := ih hl
      have h2 := ih hr
      simp [btSize, List.length_append, h1, h2]

theorem btSize_eq_inorder_length {α : Type} (t : BT α) :
    btSize t = (inorder t).length := by
  induction t with
  | leaf => rfl
  | nd l d c r ihl ihr =>
    simp [btSize, inorder, List.length_append, ihl, ihr]
    omega

theorem blackH_nd {α : Type} :
    ∀ {l r : BT α} {d : α} {c : Color} {h : Nat},
      blackH (BT.nd l d c r) = some h →
      ∃ hl, blackH l = some hl ∧ blackH r = some hl ∧
        h = (if c = Color.BLACK then hl + 1 else hl) := by
  intro l r d c h hh
  unfold blackH at hh
  obtain ⟨a, ha, hh⟩ := Option.bind_eq_some.mp hh
  obtain ⟨b, hb, hh⟩ := Option.bind_eq_some.mp hh
  by_cases hab : a = b
  · rw [if_pos hab] at hh
    exact ⟨a, ha, hab ▸ hb, (Option.some.inj hh).symm⟩
  · rw [if_neg hab] at hh
    exact absurd hh (by simp)

theorem blackH_pos {α : Type} :
    ∀ {t : BT α} {h : Nat}, blackH t = some h → 1 ≤ h := by
  intro t
  induction t with
  | leaf =>
    intro h hh
    cases Option.some.inj hh
    exact le_refl 1
  | nd l d c r ihl ihr =>
    intro h hh
    obtain ⟨hl, hhl, hhr, heq⟩ := blackH_nd hh
    have h1 := ihl hhl
    subst heq
    by_cases hc : c = Color.BLACK
    · rw [if_pos hc]; omega
    · rw [if_neg hc]; omega

theorem blackH_ge_two {α : Type} {t : BT α} {h : Nat}
    (hnr : noRedRed t = true) (hh : blackH t = some h) (hs : 2 ≤ btSize t) :
    2 ≤ h := by
  cases t with
  | leaf => simp [btSize] at hs
  | nd l d c r =>
    obtain ⟨hl, hhl, hhr, heq⟩ := blackH_nd hh
    have hpl := blackH_pos hhl
    subst heq
    cases c with
    | BLACK => rw [if_pos rfl]; omega
    | RED =>
      rw [if_neg (by decide)]
      have hsz : 1 ≤ btSize l ∨ 1 ≤ btSize r := by
        simp only [btSize] at hs
        by_cases h1 : 1 ≤ btSize l
        · exact Or.inl h1
        · exact Or.inr (by omega)
      cases hsz with
      | inl hsl =>
        cases l with
        | leaf => simp [btSize] at hsl
        | nd l1 d1 c1 r1 =>
          have hc1 : c1 = Color.BLACK := by
            cases c1
            · exfalso
              simp [noRedRed, colorOf] at hnr
            · rfl
          subst hc1
          obtain ⟨h2, h2l, h2r, heq2⟩ := blackH_nd hhl
          rw [if_pos rfl] at heq2
          have := blackH_pos h2l
          omega
      | inr hsr =>
        cases r with
        | leaf => simp [btSize] at hsr
        | nd l1 d1 c1 r1 =>
          have hc1 : c1 = Color.BLACK := by
            cases c1
            · exfalso
              simp [noRedRed, colorOf] at hnr
            · rfl
          subst hc1
          obtain ⟨h2, h2l, h2r, heq2⟩ := blackH_nd hhr
          rw [if_pos rfl] at heq2
          have := blackH_pos h2l
          omega

theorem pairwise_of_ascending {α : Type} {cmp : α → α → Int}
    (htr : ∀ a b c, cmp a b < 0 → cmp b c < 0 → cmp a c < 0) :
    ∀ {l : List α}, ascending cmp l = true →
      l.Pairwise (fun a b => cmp a b < 0) := by
  intro l
  induction l with
  | nil => intro _; exact List.Pairwise.nil
  | cons x l ih =>
    intro h
    cases l with
    | nil => exact List.pairwise_singleton _ _
    | cons y t =>
      have hxy : cmp x y < 0 ∧ ascending cmp (y :: t) = true := by
        simp only [ascending, Bool.and_eq_true, decide_eq_true_eq] at h
        exact h
      have hyt := ih hxy.2
      rw [List.pairwise_cons]
      refine ⟨?_, hyt⟩
      intro z hz
      rcases List.mem_cons.mp hz with hzy | hzt
      · exact hzy ▸ hxy.1
      · have hmyz : cmp y z < 0 := (List.pairwise_cons.mp hyt).1 z hzt
        exact htr x y z hxy.1 hmyz

theorem intCmp_refl (x : ℤ) : intCmp x x = 0 := by
  unfold intCmp
  split_ifs <;> omega

theorem intCmp_asym {a b : ℤ} (h : intCmp a b < 0) : ¬ intCmp b a = 0 := by
  unfold intCmp at h ⊢
  split_ifs at h ⊢ <;> omega

theorem intCmp_trans (a b c : ℤ) (h1 : intCmp a b < 0) (h2 : intCmp b c < 0) :
    intCmp a c < 0 := by
  unfold intCmp at h1 h2 ⊢
  split_ifs at h1 h2 ⊢ <;> omega

theorem hset_hset_same {α : Type} (h : Heap α) (i : Nat) (a b : NRec α) :
    hset (hset h i a) i b = hset h i b := by
  unfold hset
  rw [List.map_map]
  congr 1
  funext p
  by_cases hp : p.1 = i <;> simp [hp]

theorem setParentIf_run {α : Type} {st : RBState α} {b v : Option Nat}
    (hb : ∀ m, b = some m → (hget st.heap m).isSome = true) :
    setParentIf st b v = some { st with heap := parUpd st.heap b v } := by
  cases b with
  | none => rfl
  | some m =>
    obtain ⟨mc, hmc⟩ := Option.isSome_iff_exists.mp (hb m rfl)
    have hpu : parUpd st.heap (some m) v =
        match hget st.heap m with
        | none => st.heap
        | some mc => hset st.heap m { mc with parent := v } := rfl
    show setParent st m v = _
    unfold setParent
    rw [hmc, hpu, hmc]
    rfl

theorem parsOk_destr {α : Type} {st : RBState α} {fuel : Nat} {i : Nat}
    {par : Option Nat} (h : parsOk st (fuel+1) (some i) par = true) :
    ∃ n, hget st.heap i = some n ∧ n.parent = par ∧
      parsOk st fuel n.left (some i) = true ∧
      parsOk st fuel n.right (some i) = true := by
  have hstep : parsOk st (fuel+1) (some i) par =
      (match hget st.heap i with
       | none => false
       | some n =>
         (n.parent == par) && parsOk st fuel n.left (some i) &&
           parsOk st fuel n.right (some i)) := rfl
  rw [hstep] at h
  cases hg : hget st.heap i with
  | none =>
    rw [hg] at h
    exact absurd h (by simp)
  | some n =>
    rw [hg] at h
    simp only [Bool.and_eq_true, beq_iff_eq] at h
    exact ⟨n, rfl, h.1.1, h.1.2, h.2⟩

theorem rebuildCont_base_left {α : Type} {st : RBState α} {q : Nat}
    {n : NRec α} {fuel : Nat} {tl tr : BT α} {idsl idsr : List Nat}
    (hr : extractIds st fuel n.right = some (tr, idsr))
    (hqnotin : ¬ q ∈ idsl ++ idsr)
    (hndr : idsr.Nodup)
    (hdisj : idsl.Disjoint idsr) :
    rebuildCont st (some q) (inorder tl ++ n.data :: inorder tr)
      (q :: (idsl ++ idsr)) (inorder tl) idsl q
      (fun rr => { n with left := rr }) := by
  intro st' rr t' idsg' f' hx' hio' hmem' hnd2 hout hq'
  have hrr2 : extractIds st' fuel n.right = some (tr, idsr) :=
    extractIds_agree hr (fun j hj =>
      hout j (fun hin => hdisj hin hj)
        (fun hjq => hqnotin (List.mem_append.mpr (Or.inr (hjq ▸ hj)))))
  have hb := extractIds_build hq' hx' hrr2
  refine ⟨max f' fuel + 1, _, _, hb, ?_, ?_, ?_⟩
  · show inorder t' ++ n.data :: inorder tr = _
    rw [hio']
  · intro j
    simp only [List.mem_cons, List.mem_append]
    constructor
    · rintro (h1 | h2 | h3)
      · exact Or.inl h1
      · exact Or.inr (Or.inl ((hmem' j).mp h2))
      · exact Or.inr (Or.inr h3)
    · rintro (h1 | h2 | h3)
      · exact Or.inl h1
      · exact Or.inr (Or.inl ((hmem' j).mpr h2))
      · exact Or.inr (Or.inr h3)
  · rw [List.nodup_cons]
    constructor
    · intro hqm
      rcases List.mem_append.mp hqm with h1 | h2
      · exact hqnotin (List.mem_append.mpr (Or.inl ((hmem' q).mp h1)))
      · exact hqnotin (List.mem_append.mpr (Or.inr h2))
    · rw [List.nodup_append]
      exact ⟨hnd2, hndr, fun a ha1 ha2 => hdisj ((hmem' a).mp ha1) ha2⟩

theorem rebuildCont_base_right {α : Type} {st : RBState α} {q : Nat}
    {n : NRec α} {fuel : Nat} {tl tr : BT α} {idsl idsr : List Nat}
    (hl : extractIds st fuel n.left = some (tl, idsl))
    (hqnotin : ¬ q ∈ idsl ++ idsr)
    (hndl : idsl.Nodup)
    (hdisj : idsl.Disjoint idsr) :
    rebuildCont st (some q) (inorder tl ++ n.data :: inorder tr)
      (q :: (idsl ++ idsr)) (inorder tr) idsr q
      (fun rr => { n with right := rr }) := by
  intro st' rr t' idsg' f' hx' hio' hmem' hnd2 hout hq'
  have hll2 : extractIds st' fuel n.left = some (tl, idsl) :=
    extractIds_agree hl (fun j hj =>
      hout j (fun hin => hdisj hj hin)
        (fun hjq => hqnotin (List.mem_append.mpr (Or.inl (hjq ▸ hj)))))
  have hb := extractIds_build hq' hll2 hx'
  refine ⟨max fuel f' + 1, _, _, hb, ?_, ?_, ?_⟩
  · show inorder tl ++ n.data :: inorder t' = _
    rw [hio']
  · intro j
    simp only [List.mem_cons, List.mem_append]
    constructor
    · rintro (h1 | h2 | h3)
      · exact Or.inl h1
      · exact Or.inr (Or.inl h2)
      · exact Or.inr (Or.inr ((hmem' j).mp h3))
    · rintro (h1 | h2 | h3)
      · exact Or.inl h1
      · exact Or.inr (Or.inl h2)
      · exact Or.inr (Or.inr ((hmem' j).mpr h3))
  · rw [List.nodup_cons]
    constructor
    · intro hqm
      rcases List.mem_append.mp hqm with h1 | h2
      · exact hqnotin (List.mem_append.mpr (Or.inl h1))
      · exact hqnotin (List.mem_append.mpr (Or.inr ((hmem' q).mp h2)))
    · rw [List.nodup_append]
      exact ⟨hndl, hnd2, fun a ha1 ha2 => hdisj ha1 ((hmem' a).mp ha2)⟩

theorem rebuildCont_lift_left {α : Type} {st : RBState α} {q pp : Nat}
    {n : NRec α} {fuel : Nat} {tr : BT α} {idsl idsr idsg : List Nat}
    {lt0 lg : List α} {ppNew : Option Nat → NRec α}
    (hn : hget st.heap q = some n)
    (hr : extractIds st fuel n.right = some (tr, idsr))
    (hqnotin : ¬ q ∈ idsl ++ idsr)
    (hndr : idsr.Nodup)
    (hdisj : idsl.Disjoint idsr)
    (hsubI : ∀ j, j ∈ idsg → j ∈ idsl)
    (hppin : pp ∈ idsl)
    (hcont : rebuildCont st n.left lt0 idsl lg idsg pp ppNew) :
    rebuildCont st (some q) (lt0 ++ n.data :: inorder tr)
      (q :: (idsl ++ idsr)) lg idsg pp ppNew := by
  intro st' rr t' idsg' f' hx' hio' hmem' hnd2 hout hpp'
  obtain ⟨F, t2, ids2, hxin, hioin, hmemin, hndin⟩ :=
    hcont st' rr t' idsg' f' hx' hio' hmem' hnd2 hout hpp'
  have hq2 : hget st'.heap q = some n := by
    rw [hout q (fun hin => hqnotin (List.mem_append.mpr (Or.inl (hsubI q hin))))
      (fun hq3 => hqnotin (List.mem_append.mpr (Or.inl (hq3.symm ▸ hppin))))]
    exact hn
  have hrr2 : extractIds st' fuel n.right = some (tr, idsr) :=
    extractIds_agree hr (fun j hj =>
      hout j (fun hin => hdisj (hsubI j hin) hj)
        (fun hjp => hdisj hppin (hjp ▸ hj)))
  have hb := extractIds_build hq2 hxin hrr2
  refine ⟨max F fuel + 1, _, _, hb, ?_, ?_, ?_⟩
  · show inorder t2 ++ n.data :: inorder tr = _
    rw [hioin]
  · intro j
    simp only [List.mem_cons, List.mem_append]
    constructor
    · rintro (h1 | h2 | h3)
      · exact Or.inl h1
      · exact Or.inr (Or.inl ((hmemin j).mp h2))
      · exact Or.inr (Or.inr h3)
    · rintro (h1 | h2 | h3)
      · exact Or.inl h1
      · exact Or.inr (Or.inl ((hmemin j).mpr h2))
      · exact Or.inr (Or.inr h3)
  · rw [List.nodup_cons]
    constructor
    · intro hqm
      rcases List.mem_append.mp hqm with h1 | h2
      · exact hqnotin (List.mem_append.mpr (Or.inl ((hmemin q).mp h1)))
      · exact hqnotin (List.mem_append.mpr (Or.inr h2))
    · rw [List.nodup_append]
      exact ⟨hndin, hndr, fun a ha1 ha2 => hdisj ((hmemin a).mp ha1) ha2⟩

theorem rebuildCont_lift_right {α : Type} {st : RBState α} {q pp : Nat}
    {n : NRec α} {fuel : Nat} {tl : BT α} {idsl idsr idsg : List Nat}
    {lt0 lg : List α} {ppNew : Option Nat → NRec α}
    (hn : hget st.heap q = some n)
    (hl : extractIds st fuel n.left = some (tl, idsl))
    (hqnotin : ¬ q ∈ idsl ++ idsr)
    (hndl : idsl.Nodup)
    (hdisj : idsl.Disjoint idsr)
    (hsubI : ∀ j, j ∈ idsg → j ∈ idsr)
    (hppin : pp ∈ idsr)
    (hcont : rebuildCont st n.right lt0 idsr lg idsg pp ppNew) :
    rebuildCont st (some q) (inorder tl ++ n.data :: lt0)
      (q :: (idsl ++ idsr)) lg idsg pp ppNew := by
  intro st' rr t' idsg' f' hx' hio' hmem' hnd2 hout hpp'
  obtain ⟨F, t2, ids2, hxin, hioin, hmemin, hndin⟩ :=
    hcont st' rr t' idsg' f' hx' hio' hmem' hnd2 hout hpp'
  have hq2 : hget st'.heap q = some n := by
    rw [hout q (fun hin => hqnotin (List.mem_append.mpr (Or.inr (hsubI q hin))))
      (fun hq3 => hqnotin (List.mem_append.mpr (Or.inr (hq3.symm ▸ hppin))))]
    exact hn
  have hll2 : extractIds st' fuel n.left = some (tl, idsl) :=
    extractIds_agree hl (fun j hj =>
      hout j (fun hin => hdisj hj (hsubI j hin))
        (fun hjp => hdisj (hjp ▸ hj) hppin))
  have hb := extractIds_build hq2 hll2 hxin
  refine ⟨max fuel F + 1, _, _, hb, ?_, ?_, ?_⟩
  · show inorder tl ++ n.data :: inorder t2 = _
    rw [hioin]
  · intro j
    simp only [List.mem_cons, List.mem_append]
    constructor
    · rintro (h1 | h2 | h3)
      · exact Or.inl h1
      · exact Or.inr (Or.inl h2)
      · exact Or.inr (Or.inr ((hmemin j).mp h3))
    · rintro (h1 | h2 | h3)
      · exact Or.inl h1
      · exact Or.inr (Or.inl h2)
      · exact Or.inr (Or.inr ((hmemin j).mpr h3))
  · rw [List.nodup_cons]
    constructor
    · intro hqm
      rcases List.mem_append.mp hqm with h1 | h2
      · exact hqnotin (List.mem_append.mpr (Or.inl h1))
      · exact hqnotin (List.mem_append.mpr (Or.inr ((hmemin q).mp h2)))
    · rw [List.nodup_append]
      exact ⟨hndl, hndin, fun a ha1 ha2 => hdisj ha1 ((hmemin a).mp ha2)⟩

/-- Locating a pivot node inside a well-formed extracted tree: its cell, its
subtree's extraction and local invariants, and — unless it is the subtree
root — its parent frame together with a rebuild guarantee and the order
facts that decide the comparator-driven relink tests of the rotations. -/
theorem locatePivot {α : Type} {cmp : α → α → Int} {st : RBState α} :
    ∀ {fuel : Nat} {r par : Option Nat} {t : BT α} {ids : List Nat},
      extractIds st fuel r = some (t, ids) →
      ids.Nodup →
      parsOk st fuel r par = true →
      noRedRed t = true →
      (blackH t).isSome = true →
      (inorder t).Pairwise (fun a b => cmp a b < 0) →
      ∀ g, g ∈ ids →
      ∃ gcell tg idsg,
        hget st.heap g = some gcell ∧
        extractIds st fuel (some g) = some (tg, idsg) ∧
        (∀ j, j ∈ idsg → j ∈ ids) ∧ idsg.Nodup ∧
        noRedRed tg = true ∧ (blackH tg).isSome = true ∧
        (inorder tg).Pairwise (fun a b => cmp a b < 0) ∧
        ((gcell.parent = par ∧ r = some g ∧ tg = t ∧ idsg = ids) ∨
         (∃ pp ppcell, gcell.parent = some pp ∧ pp ∈ ids ∧ ¬ pp ∈ idsg ∧
            hget st.heap pp = some ppcell ∧
            ((ppcell.left = some g ∧
               rebuildCont st r (inorder t) ids (inorder tg) idsg pp
                 (fun rr => { ppcell with left := rr })) ∨
             (ppcell.right = some g ∧
               (∃ hg, blackH tg = some hg ∧ (ppcell.left = none → hg = 1)) ∧
               (∀ x, ppcell.left = some x → ∃ xcell,
                  hget st.heap x = some xcell ∧
                  cmp xcell.data gcell.data < 0 ∧ ¬ x ∈ idsg) ∧
               rebuildCont st r (inorder t) ids (inorder tg) idsg pp
                 (fun rr => { ppcell with right := rr }))))) := by
  intro fuel
  induction fuel with
  | zero =>
    intro r par t ids hx hnd hpo hnr hbh hpw g hg
    cases r with
    | none =>
      have hinj := Option.some.inj hx
      rw [Prod.mk.injEq] at hinj
      rw [← hinj.2] at hg
      exact absurd hg (List.not_mem_nil g)
    | some i => exact absurd hx (by simp [extractIds])
  | succ fuel ih =>
    intro r par t ids hx hnd hpo hnr hbh hpw g hg
    cases r with
    | none =>
      have hinj := Option.some.inj hx
      rw [Prod.mk.injEq] at hinj
      rw [← hinj.2] at hg
      exact absurd hg (List.not_mem_nil g)
    | some q =>
      obtain ⟨n, tl, idsl, tr, idsr, hn, hl, hr, ht, hids⟩ := extractIds_destr hx
      subst ht
      subst hids
      obtain ⟨n', hn', hpar, hpol, hpor⟩ := parsOk_destr hpo
      cases Option.some.inj (hn.symm.trans hn')
      rw [List.nodup_cons] at hnd
      obtain ⟨hqnotin, hndlr⟩ := hnd
      rw [List.nodup_append] at hndlr
      obtain ⟨hndl, hndr, hdisj⟩ := hndlr
      have hnr2 : noRedRed tl = true ∧ noRedRed tr = true := by
        simp only [noRedRed, Bool.and_eq_true] at hnr
        exact ⟨hnr.1.1, hnr.1.2⟩
      obtain ⟨h0, hh0⟩ := Option.isSome_iff_exists.mp hbh
      obtain ⟨b0, hbl0, hbr0, _⟩ := blackH_nd hh0
      have hbhl : (blackH tl).isSome = true := Option.isSome_iff_exists.mpr ⟨b0, hbl0⟩
      have hbhr : (blackH tr).isSome = true := Option.isSome_iff_exists.mpr ⟨b0, hbr0⟩
      have hpwflat : (inorder tl ++ n.data :: inorder tr).Pairwise
          (fun a b => cmp a b < 0) := hpw
      rw [List.pairwise_append] at hpwflat
      obtain ⟨hpwl, hpwcons, hcross⟩ := hpwflat
      have hpwr := (List.pairwise_cons.mp hpwcons).2
      rcases List.mem_cons.mp hg with hgq | hglr
      · subst hgq
        refine ⟨n, BT.nd tl n.data n.color tr, g :: (idsl ++ idsr), hn, hx,
          fun j hj => hj, ?_, hnr, hbh, hpw, Or.inl ⟨hpar, rfl, rfl, rfl⟩⟩
        rw [List.nodup_cons, List.nodup_append]
        exact ⟨hqnotin, hndl, hndr, hdisj⟩
      · rcases List.mem_append.mp hglr with hgl | hgr
        · obtain ⟨gcell, tg, idsg, hgc, hxg, hsubI, hndg, hnrg, hbhg, hpwg,
            hframe⟩ := ih hl hndl hpol hnr2.1 hbhl hpwl g hgl
          refine ⟨gcell, tg, idsg, hgc, extractIds_mono (Nat.le_succ fuel) hxg,
            fun j hj => List.mem_cons.mpr (Or.inr (List.mem_append.mpr
              (Or.inl (hsubI j hj)))), hndg, hnrg, hbhg, hpwg, Or.inr ?_⟩
          rcases hframe with ⟨hparg, hreq, htg, hidsg⟩ |
            ⟨pp, ppcell, hgp, hppinI, hppng, hppc, hside⟩
          · subst htg
            subst hidsg
            refine ⟨q, n, hparg, List.mem_cons_self _ _,
              fun hin => hqnotin (List.mem_append.mpr (Or.inl hin)), hn,
              Or.inl ⟨hreq, ?_⟩⟩
            exact rebuildCont_base_left hr hqnotin hndr hdisj
          · refine ⟨pp, ppcell, hgp,
              List.mem_cons.mpr (Or.inr (List.mem_append.mpr (Or.inl hppinI))),
              hppng, hppc, ?_⟩
            rcases hside with ⟨hppl, hcont⟩ | ⟨hppr, hbhf, hxf, hcont⟩
            · exact Or.inl ⟨hppl,
                rebuildCont_lift_left hn hr hqnotin hndr hdisj hsubI hppinI hcont⟩
            · exact Or.inr ⟨hppr, hbhf, hxf,
                rebuildCont_lift_left hn hr hqnotin hndr hdisj hsubI hppinI hcont⟩
        · obtain ⟨gcell, tg, idsg, hgc, hxg, hsubI, hndg, hnrg, hbhg, hpwg,
            hframe⟩ := ih hr hndr hpor hnr2.2 hbhr hpwr g hgr
          refine ⟨gcell, tg, idsg, hgc, extractIds_mono (Nat.le_succ fuel) hxg,
            fun j hj => List.mem_cons.mpr (Or.inr (List.mem_append.mpr
              (Or.inr (hsubI j hj)))), hndg, hnrg, hbhg, hpwg, Or.inr ?_⟩
          rcases hframe with ⟨hparg, hreq, htg, hidsg⟩ |
            ⟨pp, ppcell, hgp, hppinI, hppng, hppc, hside⟩
          · subst htg
            subst hidsg
            refine ⟨q, n, hparg, List.mem_cons_self _ _,
              fun hin => hqnotin (List.mem_append.mpr (Or.inr hin)), hn,
              Or.inr ⟨hreq, ⟨b0, hbr0, ?_⟩, ?_, ?_⟩⟩
            · intro hnone
              rw [hnone, extractIds_none] at hl
              have hinj := Option.some.inj hl
              rw [Prod.mk.injEq] at hinj
              rw [← hinj.1] at hbl0
              exact (Option.some.inj hbl0).symm
            · intro x hxeq
              cases fuel with
              | zero =>
                rw [hreq] at hr
                exact absurd hr (by simp [extractIds])
              | succ f2 =>
                rw [hxeq] at hl
                obtain ⟨nx, xtl, xidsl, xtr, xidsr, hnx, _, _, htlx, hidslx⟩ :=
                  extractIds_destr hl
                refine ⟨nx, hnx, ?_, ?_⟩
                · have hmx : nx.data ∈ inorder tl := by
                    rw [htlx]
                    simp [inorder]
                  have hgdata : gcell.data ∈ inorder tg := by
                    rw [hreq] at hr
                    obtain ⟨ng, gtl, gidsl, gtr, gidsr, hng, _, _, htrg, _⟩ :=
                      extractIds_destr hr
                    cases Option.some.inj (hng.symm.trans hgc)
                    rw [htrg]
                    simp [inorder]
                  exact hcross nx.data hmx gcell.data
                    (List.mem_cons.mpr (Or.inr hgdata))
                · intro hxin
                  have hxinl : x ∈ idsl := by
                    rw [hidslx]
                    exact List.mem_cons_self _ _
                  exact hdisj hxinl hxin
            · exact rebuildCont_base_right hl hqnotin hndl hdisj
          · refine ⟨pp, ppcell, hgp,
              List.mem_cons.mpr (Or.inr (List.mem_append.mpr (Or.inr hppinI))),
              hppng, hppc, ?_⟩
            rcases hside with ⟨hppl, hcont⟩ | ⟨hppr, hbhf, hxf, hcont⟩
            · exact Or.inl ⟨hppl,
                rebuildCont_lift_right hn hl hqnotin hndl hdisj hsubI hppinI hcont⟩
            · exact Or.inr ⟨hppr, hbhf, hxf,
                rebuildCont_lift_right hn hl hqnotin hndl hdisj hsubI hppinI hcont⟩

theorem hget_parUpd_other {α : Type} {h : Heap α} {b : Option Nat}
    {v : Option Nat} {j : Nat} (hj : ∀ m, b = some m → ¬ j = m) :
    hget (parUpd h b v) j = hget h j := by
  cases b with
  | none => rfl
  | some m =>
    rw [show parUpd h (some m) v =
      (match hget h m with
       | none => h
       | some mc => hset h m { mc with parent := v }) from rfl]
    cases hmc : hget h m with
    | none => rfl
    | some mc => exact hget_hset_ne _ (fun he => (hj m rfl) he.symm)

theorem hget_parUpd_self {α : Type} {h : Heap α} {m : Nat} {mc : NRec α}
    {v : Option Nat} (hmc : hget h m = some mc) :
    hget (parUpd h (some m) v) m = some { mc with parent := v } := by
  rw [show parUpd h (some m) v =
    (match hget h m with
     | none => h
     | some mc2 => hset h m { mc2 with parent := v }) from rfl, hmc]
  exact hget_hset_self hmc

theorem setLeftElseRight_run {α : Type} {st : RBState α} {i : Nat} {c : Bool}
    {v : Option Nat} {nc : NRec α} (hi : hget st.heap i = some nc) :
    setLeftElseRight st i c v =
      some (setNode st i
        (if c then { nc with left := v } else { nc with right := v })) := by
  cases c
  · show setRight st i v = _
    unfold setRight
    rw [hi]
    rfl
  · show setLeft st i v = _
    unfold setLeft
    rw [hi]
    rfl

/-- Forward execution of `rotateLeftDelete` at a pivot whose parent is null:
the tree's root pointer moves to the promoted child `s` and exactly the cells
of `g`, `s` and `s`'s old left child change, as described. -/
theorem rotateLeftDelete_run_root {α : Type} {cmp : α → α → Int}
    {st : RBState α} {g s : Nat} {gcell scell : NRec α}
    (hg : hget st.heap g = some gcell)
    (hgr : gcell.right = some s)
    (hs : hget st.heap s = some scell)
    (hsg : ¬ s = g)
    (hm : ∀ m, scell.left = some m → ∃ mcell, hget st.heap m = some mcell ∧
      ¬ m = g ∧ ¬ m = s)
    (hgp : gcell.parent = none) :
    ∃ st', rotateLeftDelete cmp st g = some st' ∧
      st'.size = st.size ∧ st'.next = st.next ∧ st'.freed = st.freed ∧
      st'.root = some s ∧
      hget st'.heap g =
        some { gcell with right := scell.left, parent := some s } ∧
      hget st'.heap s = some { scell with left := some g, parent := none } ∧
      (∀ m mcell, scell.left = some m → hget st.heap m = some mcell →
        hget st'.heap m = some { mcell with parent := some g }) ∧
      (∀ j, ¬ j = g → ¬ j = s → (∀ m, scell.left = some m → ¬ j = m) →
        hget st'.heap j = hget st.heap j) := by
  have hmne : ∀ m, scell.left = some m → ¬ m = g ∧ ¬ m = s := by
    intro m hmeq
    obtain ⟨mc, _, h1, h2⟩ := hm m hmeq
    exact ⟨h1, h2⟩
  have h2s : hget (parNode (setNode st g { gcell with right := scell.left })
      scell.left (some g)).heap s = some scell := by
    show hget (parUpd (hset st.heap g { gcell with right := scell.left })
      scell.left (some g)) s = some scell
    rw [hget_parUpd_other (fun m hmeq he => (hmne m hmeq).2 he.symm)]
    rw [hget_hset_ne _ (fun he => hsg he.symm)]
    exact hs
  have h3g : hget (setNode (parNode (setNode st g
      { gcell with right := scell.left }) scell.left (some g)) s
      { scell with left := some g }).heap g =
      some { gcell with right := scell.left } := by
    show hget (hset (parNode (setNode st g { gcell with right := scell.left })
      scell.left (some g)).heap s { scell with left := some g }) g = _
    rw [hget_hset_ne _ hsg]
    show hget (parUpd (hset st.heap g { gcell with right := scell.left })
      scell.left (some g)) g = _
    rw [hget_parUpd_other (fun m hmeq he => (hmne m hmeq).1 he.symm)]
    exact hget_hset_self hg
  have h3s : hget (setNode (parNode (setNode st g
      { gcell with right := scell.left }) scell.left (some g)) s
      { scell with left := some g }).heap s =
      some { scell with left := some g } := hget_hset_self h2s
  have h4g : hget (setNode (setNode (parNode (setNode st g
      { gcell with right := scell.left }) scell.left (some g)) s
      { scell with left := some g }) s
      { scell with left := some g, parent := gcell.parent }).heap g =
      some { gcell with right := scell.left } := by
    show hget (hset (setNode (parNode (setNode st g
      { gcell with right := scell.left }) scell.left (some g)) s
      { scell with left := some g }).heap s
      { scell with left := some g, parent := gcell.parent }) g = _
    rw [hget_hset_ne _ hsg]
    exact h3g
  have h4s : hget (setNode (setNode (parNode (setNode st g
      { gcell with right := scell.left }) scell.left (some g)) s
      { scell with left := some g }) s
      { scell with left := some g, parent := gcell.parent }).heap s =
      some { scell with left := some g, parent := gcell.parent } :=
    hget_hset_self h3s
  refine ⟨setNode (rootTo (setNode (setNode (parNode (setNode st g
      { gcell with right := scell.left }) scell.left (some g)) s
      { scell with left := some g }) s
      { scell with left := some g, parent := gcell.parent }) (some s)) g
      { gcell with right := scell.left, parent := some s },
    ?_, rfl, rfl, rfl, rfl, ?_, ?_, ?_, ?_⟩
  · have hbm : ∀ m, scell.left = some m →
        (hget (setNode st g { gcell with right := scell.left }).heap m).isSome
          = true := by
      intro m hmeq
      obtain ⟨mcell, hmc, hmg, _⟩ := hm m hmeq
      show (hget (hset st.heap g { gcell with right := scell.left }) m).isSome
        = true
      rw [hget_hset_ne _ (fun he => hmg he.symm), hmc]
      rfl
    have e1 : rotateLeftDelete cmp st g =
        ubBind (getN st g) (fun p0 =>
          ubBind (ptr p0.right) (fun si =>
            ubBind (getN st si) (fun s0 =>
              ubBind (setRight st g s0.left) (fun st1 =>
                ubBind (setParentIf st1 s0.left (some g)) (fun st2 =>
                  ubBind (setLeft st2 si (some g)) (fun st3 =>
                    ubBind (getN st3 g) (fun p3 =>
                      ubBind (setParent st3 si p3.parent) (fun st4 =>
                        ubBind (getN st4 g) (fun p4 =>
                          match p4.parent with
                          | some ppi =>
                            ubBind (getN st4 ppi) (fun pp =>
                              ubBind (ptr pp.left) (fun ppl =>
                                ubBind (getN st4 ppl) (fun ppln =>
                                  ubBind (getN st4 g) (fun pn =>
                                    ubBind (setLeftElseRight st4 ppi
                                        (cmp pn.data ppln.data == 0) (some si))
                                      (fun st5 =>
                                        setParent st5 g (some si))))))
                          | none =>
                            setParent (rootTo st4 (some si)) g
                              (some si)))))))))) := rfl
    rw [e1, show getN st g = some gcell from hg]
    simp only [ubBind_some]
    rw [hgr, show (ptr (some s) : UB Nat) = some s from rfl]
    simp only [ubBind_some]
    rw [show getN st s = some scell from hs]
    simp only [ubBind_some]
    rw [show setRight st g scell.left =
      some (setNode st g { gcell with right := scell.left }) from by
        unfold setRight
        rw [hg]
        rfl]
    simp only [ubBind_some]
    rw [show setParentIf (setNode st g { gcell with right := scell.left })
        scell.left (some g) =
      some (parNode (setNode st g { gcell with right := scell.left })
        scell.left (some g)) from setParentIf_run hbm]
    simp only [ubBind_some]
    rw [show setLeft (parNode (setNode st g
        { gcell with right := scell.left }) scell.left (some g)) s (some g) =
      some (setNode (parNode (setNode st g
        { gcell with right := scell.left }) scell.left (some g)) s
        { scell with left := some g }) from by
        unfold setLeft
        rw [h2s]
        rfl]
    simp only [ubBind_some]
    rw [show getN (setNode (parNode (setNode st g
        { gcell with right := scell.left }) scell.left (some g)) s
        { scell with left := some g }) g =
      some { gcell with right := scell.left } from h3g]
    simp only [ubBind_some]
    rw [show ({ gcell with right := scell.left } : NRec α).parent =
      gcell.parent from rfl]
    rw [show setParent (setNode (parNode (setNode st g
        { gcell with right := scell.left }) scell.left (some g)) s
        { scell with left := some g }) s gcell.parent =
      some (setNode (setNode (parNode (setNode st g
        { gcell with right := scell.left }) scell.left (some g)) s
        { scell with left := some g }) s
        { scell with left := some g, parent := gcell.parent }) from by
        unfold setParent
        rw [h3s]
        rfl]
    simp only [ubBind_some]
    rw [show getN (setNode (setNode (parNode (setNode st g
        { gcell with right := scell.left }) scell.left (some g)) s
        { scell with left := some g }) s
        { scell with left := some g, parent := gcell.parent }) g =
      some { gcell with right := scell.left } from h4g]
    simp only [ubBind_some]
    rw [show ({ gcell with right := scell.left } : NRec α).parent =
      gcell.parent from rfl]
    split
    next ppi heq =>
      rw [hgp] at heq
      simp at heq
    next heq =>
    show setParent (rootTo (setNode (setNode (parNode (setNode st g
        { gcell with right := scell.left }) scell.left (some g)) s
        { scell with left := some g }) s
        { scell with left := some g, parent := gcell.parent }) (some s)) g
        (some s) = _
    unfold setParent
    rw [show hget (rootTo (setNode (setNode (parNode (setNode st g
        { gcell with right := scell.left }) scell.left (some g)) s
        { scell with left := some g }) s
        { scell with left := some g, parent := gcell.parent })
        (some s)).heap g = some { gcell with right := scell.left } from h4g]
    rfl
  · show hget (hset (rootTo (setNode (setNode (parNode (setNode st g
      { gcell with right := scell.left }) scell.left (some g)) s
      { scell with left := some g }) s
      { scell with left := some g, parent := gcell.parent }) (some s)).heap g
      { gcell with right := scell.left, parent := some s }) g = _
    exact hget_hset_self h4g
  · show hget (hset (rootTo (setNode (setNode (parNode (setNode st g
      { gcell with right := scell.left }) scell.left (some g)) s
      { scell with left := some g }) s
      { scell with left := some g, parent := gcell.parent }) (some s)).heap g
      { gcell with right := scell.left, parent := some s }) s = _
    rw [hget_hset_ne _ (fun he => hsg he.symm)]
    rw [show hget (rootTo (setNode (setNode (parNode (setNode st g
      { gcell with right := scell.left }) scell.left (some g)) s
      { scell with left := some g }) s
      { scell with left := some g, parent := gcell.parent }) (some s)).heap s =
      some { scell with left := some g, parent := gcell.parent } from h4s, hgp]
  · intro m mcell hmeq hmc
    obtain ⟨mcell2, hmc2, hmg, hms⟩ := hm m hmeq
    cases Option.some.inj (hmc2.symm.trans hmc)
    show hget (hset (rootTo (setNode (setNode (parNode (setNode st g
      { gcell with right := scell.left }) scell.left (some g)) s
      { scell with left := some g }) s
      { scell with left := some g, parent := gcell.parent }) (some s)).heap g
      { gcell with right := scell.left, parent := some s }) m = _
    rw [hget_hset_ne _ (fun he => hmg he.symm)]
    show hget (hset (setNode (parNode (setNode st g
      { gcell with right := scell.left }) scell.left (some g)) s
      { scell with left := some g }).heap s
      { scell with left := some g, parent := gcell.parent }) m = _
    rw [hget_hset_ne _ (fun he => hms he.symm)]
    show hget (hset (parNode (setNode st g
      { gcell with right := scell.left }) scell.left (some g)).heap s
      { scell with left := some g }) m = _
    rw [hget_hset_ne _ (fun he => hms he.symm)]
    show hget (parUpd (hset st.heap g { gcell with right := scell.left })
      scell.left (some g)) m = _
    rw [hmeq]
    exact hget_parUpd_self (by
      rw [hget_hset_ne _ (fun he => hmg he.symm)]
      exact hmc2)
  · intro j hjg hjs hjm
    show hget (hset (rootTo (setNode (setNode (parNode (setNode st g
      { gcell with right := scell.left }) scell.left (some g)) s
      { scell with left := some g }) s
      { scell with left := some g, parent := gcell.parent }) (some s)).heap g
      { gcell with right := scell.left, parent := some s }) j = _
    rw [hget_hset_ne _ (fun he => hjg he.symm)]
    show hget (hset (setNode (parNode (setNode st g
      { gcell with right := scell.left }) scell.left (some g)) s
      { scell with left := some g }).heap s
      { scell with left := some g, parent := gcell.parent }) j = _
    rw [hget_hset_ne _ (fun he => hjs he.symm)]
    show hget (hset (parNode (setNode st g
      { gcell with right := scell.left }) scell.left (some g)).heap s
      { scell with left := some g }) j = _
    rw [hget_hset_ne _ (fun he => hjs he.symm)]
    show hget (parUpd (hset st.heap g { gcell with right := scell.left })
      scell.left (some g)) j = _
    rw [hget_parUpd_other (fun m hmeq he => hjm m hmeq he)]
    exact hget_hset_ne _ (fun he => hjg he.symm)

/-- Forward execution of `rotateLeftDelete` at a pivot with a parent `pp`:
the root pointer is untouched, the relink child of `pp` is decided by the
comparator test the C performs on `pp->left`, and exactly the cells of `g`,
`s`, `s`'s old left child and `pp` change, as described. -/
theorem rotateLeftDelete_run_frame {α : Type} {cmp : α → α → Int}
    {st : RBState α} {g s pp x : Nat} {gcell scell ppcell xcell4 : NRec α}
    (hg : hget st.heap g = some gcell)
    (hgr : gcell.right = some s)
    (hs : hget st.heap s = some scell)
    (hsg : ¬ s = g)
    (hm : ∀ m, scell.left = some m → ∃ mcell, hget st.heap m = some mcell ∧
      ¬ m = g ∧ ¬ m = s)
    (hgp : gcell.parent = some pp)
    (hpp : hget st.heap pp = some ppcell)
    (hppg : ¬ pp = g) (hpps : ¬ pp = s)
    (hppm : ∀ m, scell.left = some m → ¬ pp = m)
    (hppl : ppcell.left = some x)
    (hx4 : (x = g ∧ xcell4 = { gcell with right := scell.left }) ∨
      ((¬ x = g ∧ ¬ x = s ∧ (∀ m, scell.left = some m → ¬ x = m)) ∧
        hget st.heap x = some xcell4)) :
    ∃ st', rotateLeftDelete cmp st g = some st' ∧
      st'.size = st.size ∧ st'.next = st.next ∧ st'.freed = st.freed ∧
      st'.root = st.root ∧
      hget st'.heap g =
        some { gcell with right := scell.left, parent := some s } ∧
      hget st'.heap s = some { scell with left := some g, parent := some pp } ∧
      (∀ m mcell, scell.left = some m → hget st.heap m = some mcell →
        hget st'.heap m = some { mcell with parent := some g }) ∧
      hget st'.heap pp = some (if cmp gcell.data xcell4.data == 0 then
        { ppcell with left := some s } else { ppcell with right := some s }) ∧
      (∀ j, ¬ j = g → ¬ j = s → (∀ m, scell.left = some m → ¬ j = m) →
        ¬ j = pp → hget st'.heap j = hget st.heap j) := by
  have hmne : ∀ m, scell.left = some m → ¬ m = g ∧ ¬ m = s := by
    intro m hmeq
    obtain ⟨mc, _, h1, h2⟩ := hm m hmeq
    exact ⟨h1, h2⟩
  have h2s : hget (parNode (setNode st g { gcell with right := scell.left })
      scell.left (some g)).heap s = some scell := by
    show hget (parUpd (hset st.heap g { gcell with right := scell.left })
      scell.left (some g)) s = some scell
    rw [hget_parUpd_other (fun m hmeq he => (hmne m hmeq).2 he.symm)]
    rw [hget_hset_ne _ (fun he => hsg he.symm)]
    exact hs
  have h3g : hget (setNode (parNode (setNode st g
      { gcell with right := scell.left }) scell.left (some g)) s
      { scell with left := some g }).heap g =
      some { gcell with right := scell.left } := by
    show hget (hset (parNode (setNode st g { gcell with right := scell.left })
      scell.left (some g)).heap s { scell with left := some g }) g = _
    rw [hget_hset_ne _ hsg]
    show hget (parUpd (hset st.heap g { gcell with right := scell.left })
      scell.left (some g)) g = _
    rw [hget_parUpd_other (fun m hmeq he => (hmne m hmeq).1 he.symm)]
    exact hget_hset_self hg
  have h3s : hget (setNode (parNode (setNode st g
      { gcell with right := scell.left }) scell.left (some g)) s
      { scell with left := some g }).heap s =
      some { scell with left := some g } := hget_hset_self h2s
  have h4g : hget (rldMid st g s gcell scell).heap g =
      some { gcell with right := scell.left } := by
    show hget (hset (setNode (parNode (setNode st g
      { gcell with right := scell.left }) scell.left (some g)) s
      { scell with left := some g }).heap s
      { scell with left := some g, parent := gcell.parent }) g = _
    rw [hget_hset_ne _ hsg]
    exact h3g
  have h4s : hget (rldMid st g s gcell scell).heap s =
      some { scell with left := some g, parent := gcell.parent } := by
    show hget (hset (setNode (parNode (setNode st g
      { gcell with right := scell.left }) scell.left (some g)) s
      { scell with left := some g }).heap s
      { scell with left := some g, parent := gcell.parent }) s = _
    exact hget_hset_self h3s
  have h4pp : hget (rldMid st g s gcell scell).heap pp = some ppcell := by
    show hget (hset (setNode (parNode (setNode st g
      { gcell with right := scell.left }) scell.left (some g)) s
      { scell with left := some g }).heap s
      { scell with left := some g, parent := gcell.parent }) pp = _
    rw [hget_hset_ne _ (fun he => hpps he.symm)]
    show hget (hset (parNode (setNode st g
      { gcell with right := scell.left }) scell.left (some g)).heap s
      { scell with left := some g }) pp = _
    rw [hget_hset_ne _ (fun he => hpps he.symm)]
    show hget (parUpd (hset st.heap g { gcell with right := scell.left })
      scell.left (some g)) pp = _
    rw [hget_parUpd_other (fun m hmeq he => hppm m hmeq he)]
    rw [hget_hset_ne _ (fun he => hppg he.symm)]
    exact hpp
  have h4x : hget (rldMid st g s gcell scell).heap x = some xcell4 := by
    rcases hx4 with ⟨hxg, hxc⟩ | ⟨⟨hxng, hxns, hxnm⟩, hxc⟩
    · subst hxg
      rw [hxc]
      exact h4g
    · show hget (hset (setNode (parNode (setNode st g
        { gcell with right := scell.left }) scell.left (some g)) s
        { scell with left := some g }).heap s
        { scell with left := some g, parent := gcell.parent }) x = _
      rw [hget_hset_ne _ (fun he => hxns he.symm)]
      show hget (hset (parNode (setNode st g
        { gcell with right := scell.left }) scell.left (some g)).heap s
        { scell with left := some g }) x = _
      rw [hget_hset_ne _ (fun he => hxns he.symm)]
      show hget (parUpd (hset st.heap g { gcell with right := scell.left })
        scell.left (some g)) x = _
      rw [hget_parUpd_other (fun m hmeq he => hxnm m hmeq he)]
      rw [hget_hset_ne _ (fun he => hxng he.symm)]
      exact hxc
  refine ⟨setNode (setNode (rldMid st g s gcell scell) pp
      (if cmp gcell.data xcell4.data == 0 then
        { ppcell with left := some s } else { ppcell with right := some s })) g
      { gcell with right := scell.left, parent := some s },
    ?_, rfl, rfl, rfl, rfl, ?_, ?_, ?_, ?_, ?_⟩
  · have hbm : ∀ m, scell.left = some m →
        (hget (setNode st g { gcell with right := scell.left }).heap m).isSome
          = true := by
      intro m hmeq
      obtain ⟨mcell, hmc, hmg, _⟩ := hm m hmeq
      show (hget (hset st.heap g { gcell with right := scell.left }) m).isSome
        = true
      rw [hget_hset_ne _ (fun he => hmg he.symm), hmc]
      rfl
    have e1 : rotateLeftDelete cmp st g =
        ubBind (getN st g) (fun p0 =>
          ubBind (ptr p0.right) (fun si =>
            ubBind (getN st si) (fun s0 =>
              ubBind (setRight st g s0.left) (fun st1 =>
                ubBind (setParentIf st1 s0.left (some g)) (fun st2 =>
                  ubBind (setLeft st2 si (some g)) (fun st3 =>
                    ubBind (getN st3 g) (fun p3 =>
                      ubBind (setParent st3 si p3.parent) (fun st4 =>
                        ubBind (getN st4 g) (fun p4 =>
                          match p4.parent with
                          | some ppi =>
                            ubBind (getN st4 ppi) (fun pp2 =>
                              ubBind (ptr pp2.left) (fun ppl =>
                                ubBind (getN st4 ppl) (fun ppln =>
                                  ubBind (getN st4 g) (fun pn =>
                                    ubBind (setLeftElseRight st4 ppi
                                        (cmp pn.data ppln.data == 0) (some si))
                                      (fun st5 =>
                                        setParent st5 g (some si))))))
                          | none =>
                            setParent (rootTo st4 (some si)) g
                              (some si)))))))))) := rfl
    rw [e1, show getN st g = some gcell from hg]
    simp only [ubBind_some]
    rw [hgr, show (ptr (some s) : UB Nat) = some s from rfl]
    simp only [ubBind_some]
    rw [show getN st s = some scell from hs]
    simp only [ubBind_some]
    rw [show setRight st g scell.left =
      some (setNode st g { gcell with right := scell.left }) from by
        unfold setRight
        rw [hg]
        rfl]
    simp only [ubBind_some]
    rw [show setParentIf (setNode st g { gcell with right := scell.left })
        scell.left (some g) =
      some (parNode (setNode st g { gcell with right := scell.left })
        scell.left (some g)) from setParentIf_run hbm]
    simp only [ubBind_some]
    rw [show setLeft (parNode (setNode st g
        { gcell with right := scell.left }) scell.left (some g)) s (some g) =
      some (setNode (parNode (setNode st g
        { gcell with right := scell.left }) scell.left (some g)) s
        { scell with left := some g }) from by
        unfold setLeft
        rw [h2s]
        rfl]
    simp only [ubBind_some]
    rw [show getN (setNode (parNode (setNode st g
        { gcell with right := scell.left }) scell.left (some g)) s
        { scell with left := some g }) g =
      some { gcell with right := scell.left } from h3g]
    simp only [ubBind_some]
    rw [show ({ gcell with right := scell.left } : NRec α).parent =
      gcell.parent from rfl]
    rw [show setParent (setNode (parNode (setNode st g
        { gcell with right := scell.left }) scell.left (some g)) s
        { scell with left := some g }) s gcell.parent =
      some (rldMid st g s gcell scell) from by
        unfold setParent
        rw [h3s]
        rfl]
    simp only [ubBind_some]
    rw [show getN (rldMid st g s gcell scell) g =
      some { gcell with right := scell.left } from h4g]
    simp only [ubBind_some]
    rw [show ({ gcell with right := scell.left } : NRec α).parent =
      gcell.parent from rfl]
    split
    next ppi heq =>
      cases Option.some.inj ((hgp.symm.trans heq))
      rw [show getN (rldMid st g s gcell scell) pp = some ppcell from h4pp]
      simp only [ubBind_some]
      conv_lhs => rw [hppl]
      rw [show (ptr (some x) : UB Nat) = some x from rfl]
      simp only [ubBind_some]
      rw [show getN (rldMid st g s gcell scell) x = some xcell4 from h4x]
      simp only [ubBind_some]
      rw [setLeftElseRight_run h4pp]
      simp only [ubBind_some]
      unfold setParent
      rw [show hget (setNode (rldMid st g s gcell scell) pp
        (if cmp gcell.data xcell4.data == 0 then
          { ppcell with left := some s }
        else { ppcell with right := some s })).heap g =
        some { gcell with right := scell.left } from by
          show hget (hset (rldMid st g s gcell scell).heap pp
            (if cmp gcell.data xcell4.data == 0 then
              { ppcell with left := some s }
            else { ppcell with right := some s })) g = _
          rw [hget_hset_ne _ hppg]
          exact h4g]
      rfl
    next heq =>
      rw [hgp] at heq
      simp at heq
  · have hgpp : hget (hset (rldMid st g s gcell scell).heap pp
        (if cmp gcell.data xcell4.data == 0 then
          { ppcell with left := some s }
        else { ppcell with right := some s })) g =
        some { gcell with right := scell.left } := by
      rw [hget_hset_ne _ hppg]
      exact h4g
    show hget (hset (setNode (rldMid st g s gcell scell) pp
      (if cmp gcell.data xcell4.data == 0 then
        { ppcell with left := some s }
      else { ppcell with right := some s })).heap g
      { gcell with right := scell.left, parent := some s }) g = _
    exact hget_hset_self hgpp
  · show hget (hset (setNode (rldMid st g s gcell scell) pp
      (if cmp gcell.data xcell4.data == 0 then
        { ppcell with left := some s }
      else { ppcell with right := some s })).heap g
      { gcell with right := scell.left, parent := some s }) s = _
    rw [hget_hset_ne _ (fun he => hsg he.symm)]
    show hget (hset (rldMid st g s gcell scell).heap pp
      (if cmp gcell.data xcell4.data == 0 then
        { ppcell with left := some s }
      else { ppcell with right := some s })) s = _
    rw [hget_hset_ne _ hpps]
    rw [h4s, hgp]
  · intro m mcell hmeq hmc
    obtain ⟨mcell2, hmc2, hmg, hms⟩ := hm m hmeq
    cases Option.some.inj (hmc2.symm.trans hmc)
    show hget (hset (setNode (rldMid st g s gcell scell) pp
      (if cmp gcell.data xcell4.data == 0 then
        { ppcell with left := some s }
      else { ppcell with right := some s })).heap g
      { gcell with right := scell.left, parent := some s }) m = _
    rw [hget_hset_ne _ (fun he => hmg he.symm)]
    show hget (hset (rldMid st g s gcell scell).heap pp
      (if cmp gcell.data xcell4.data == 0 then
        { ppcell with left := some s }
      else { ppcell with right := some s })) m = _
    rw [hget_hset_ne _ (hppm m hmeq)]
    show hget (hset (setNode (parNode (setNode st g
      { gcell with right := scell.left }) scell.left (some g)) s
      { scell with left := some g }).heap s
      { scell with left := some g, parent := gcell.parent }) m = _
    rw [hget_hset_ne _ (fun he => hms he.symm)]
    show hget (hset (parNode (setNode st g
      { gcell with right := scell.left }) scell.left (some g)).heap s
      { scell with left := some g }) m = _
    rw [hget_hset_ne _ (fun he => hms he.symm)]
    show hget (parUpd (hset st.heap g { gcell with right := scell.left })
      scell.left (some g)) m = _
    rw [hmeq]
    exact hget_parUpd_self (by
      rw [hget_hset_ne _ (fun he => hmg he.symm)]
      exact hmc2)
  · show hget (hset (setNode (rldMid st g s gcell scell) pp
      (if cmp gcell.data xcell4.data == 0 then
        { ppcell with left := some s }
      else { ppcell with right := some s })).heap g
      { gcell with right := scell.left, parent := some s }) pp = _
    rw [hget_hset_ne _ (fun he => hppg he.symm)]
    exact hget_hset_self h4pp
  · intro j hjg hjs hjm hjpp
    show hget (hset (setNode (rldMid st g s gcell scell) pp
      (if cmp gcell.data xcell4.data == 0 then
        { ppcell with left := some s }
      else { ppcell with right := some s })).heap g
      { gcell with right := scell.left, parent := some s }) j = _
    rw [hget_hset_ne _ (fun he => hjg he.symm)]
    show hget (hset (rldMid st g s gcell scell).heap pp
      (if cmp gcell.data xcell4.data == 0 then
        { ppcell with left := some s }
      else { ppcell with right := some s })) j = _
    rw [hget_hset_ne _ (fun he => hjpp he.symm)]
    show hget (hset (setNode (parNode (setNode st g
      { gcell with right := scell.left }) scell.left (some g)) s
      { scell with left := some g }).heap s
      { scell with left := some g, parent := gcell.parent }) j = _
    rw [hget_hset_ne _ (fun he => hjs he.symm)]
    show hget (hset (parNode (setNode st g
      { gcell with right := scell.left }) scell.left (some g)).heap s
      { scell with left := some g }) j = _
    rw [hget_hset_ne _ (fun he => hjs he.symm)]
    show hget (parUpd (hset st.heap g { gcell with right := scell.left })
      scell.left (some g)) j = _
    rw [hget_parUpd_other (fun m hmeq he => hjm m hmeq he)]
    exact hget_hset_ne _ (fun he => hjg he.symm)

/-- Forward execution of `rotateRightDelete` at a pivot whose parent is
null. -/
theorem rotateRightDelete_run_root {α : Type} {cmp : α → α → Int}
    {st : RBState α} {g s : Nat} {gcell scell : NRec α}
    (hg : hget st.heap g = some gcell)
    (hgl : gcell.left = some s)
    (hs : hget st.heap s = some scell)
    (hsg : ¬ s = g)
    (hm : ∀ m, scell.right = some m → ∃ mcell, hget st.heap m = some mcell ∧
      ¬ m = g ∧ ¬ m = s)
    (hgp : gcell.parent = none) :
    ∃ st', rotateRightDelete cmp st g = some st' ∧
      st'.size = st.size ∧ st'.next = st.next ∧ st'.freed = st.freed ∧
      st'.root = some s ∧
      hget st'.heap g =
        some { gcell with left := scell.right, parent := some s } ∧
      hget st'.heap s = some { scell with right := some g, parent := none } ∧
      (∀ m mcell, scell.right = some m → hget st.heap m = some mcell →
        hget st'.heap m = some { mcell with parent := some g }) ∧
      (∀ j, ¬ j = g → ¬ j = s → (∀ m, scell.right = some m → ¬ j = m) →
        hget st'.heap j = hget st.heap j) := by
  have hmne : ∀ m, scell.right = some m → ¬ m = g ∧ ¬ m = s := by
    intro m hmeq
    obtain ⟨mc, _, h1, h2⟩ := hm m hmeq
    exact ⟨h1, h2⟩
  have h2s : hget (parNode (setNode st g { gcell with left := scell.right })
      scell.right (some g)).heap s = some scell := by
    show hget (parUpd (hset st.heap g { gcell with left := scell.right })
      scell.right (some g)) s = some scell
    rw [hget_parUpd_other (fun m hmeq he => (hmne m hmeq).2 he.symm)]
    rw [hget_hset_ne _ (fun he => hsg he.symm)]
    exact hs
  have h3g : hget (setNode (parNode (setNode st g
      { gcell with left := scell.right }) scell.right (some g)) s
      { scell with right := some g }).heap g =
      some { gcell with left := scell.right } := by
    show hget (hset (parNode (setNode st g { gcell with left := scell.right })
      scell.right (some g)).heap s { scell with right := some g }) g = _
    rw [hget_hset_ne _ hsg]
    show hget (parUpd (hset st.heap g { gcell with left := scell.right })
      scell.right (some g)) g = _
    rw [hget_parUpd_other (fun m hmeq he => (hmne m hmeq).1 he.symm)]
    exact hget_hset_self hg
  have h3s : hget (setNode (parNode (setNode st g
      { gcell with left := scell.right }) scell.right (some g)) s
      { scell with right := some g }).heap s =
      some { scell with right := some g } := hget_hset_self h2s
  have h4g : hget (rrdMid st g s gcell scell).heap g =
      some { gcell with left := scell.right } := by
    show hget (hset (setNode (parNode (setNode st g
      { gcell with left := scell.right }) scell.right (some g)) s
      { scell with right := some g }).heap s
      { scell with right := some g, parent := gcell.parent }) g = _
    rw [hget_hset_ne _ hsg]
    exact h3g
  have h4s : hget (rrdMid st g s gcell scell).heap s =
      some { scell with right := some g, parent := gcell.parent } := by
    show hget (hset (setNode (parNode (setNode st g
      { gcell with left := scell.right }) scell.right (some g)) s
      { scell with right := some g }).heap s
      { scell with right := some g, parent := gcell.parent }) s = _
    exact hget_hset_self h3s
  refine ⟨setNode (rootTo (rrdMid st g s gcell scell) (some s)) g
      { gcell with left := scell.right, parent := some s },
    ?_, rfl, rfl, rfl, rfl, ?_, ?_, ?_, ?_⟩
  · have hbm : ∀ m, scell.right = some m →
        (hget (setNode st g { gcell with left := scell.right }).heap m).isSome
          = true := by
      intro m hmeq
      obtain ⟨mcell, hmc, hmg, _⟩ := hm m hmeq
      show (hget (hset st.heap g { gcell with left := scell.right }) m).isSome
        = true
      rw [hget_hset_ne _ (fun he => hmg he.symm), hmc]
      rfl
    have e1 : rotateRightDelete cmp st g =
        ubBind (getN st g) (fun p0 =>
          ubBind (ptr p0.left) (fun si =>
            ubBind (getN st si) (fun s0 =>
              ubBind (setLeft st g s0.right) (fun st1 =>
                ubBind (setParentIf st1 s0.right (some g)) (fun st2 =>
                  ubBind (setRight st2 si (some g)) (fun st3 =>
                    ubBind (getN st3 g) (fun p3 =>
                      ubBind (setParent st3 si p3.parent) (fun st4 =>
                        ubBind (getN st4 g) (fun p4 =>
                          match p4.parent with
                          | some ppi =>
                            ubBind (getN st4 ppi) (fun pp2 =>
                              ubBind (getN st4 g) (fun pn =>
                                ubBind (cmpWithPtr cmp st4 pn.data pp2.left)
                                  (fun cond =>
                                    ubBind (setLeftElseRight st4 ppi cond
                                        (some si))
                                      (fun st5 =>
                                        setParent st5 g (some si)))))
                          | none =>
                            setParent (rootTo st4 (some si)) g
                              (some si)))))))))) := rfl
    rw [e1, show getN st g = some gcell from hg]
    simp only [ubBind_some]
    rw [hgl, show (ptr (some s) : UB Nat) = some s from rfl]
    simp only [ubBind_some]
    rw [show getN st s = some scell from hs]
    simp only [ubBind_some]
    rw [show setLeft st g scell.right =
      some (setNode st g { gcell with left := scell.right }) from by
        unfold setLeft
        rw [hg]
        rfl]
    simp only [ubBind_some]
    rw [show setParentIf (setNode st g { gcell with left := scell.right })
        scell.right (some g) =
      some (parNode (setNode st g { gcell with left := scell.right })
        scell.right (some g)) from setParentIf_run hbm]
    simp only [ubBind_some]
    rw [show setRight (parNode (setNode st g
        { gcell with left := scell.right }) scell.right (some g)) s (some g) =
      some (setNode (parNode (setNode st g
        { gcell with left := scell.right }) scell.right (some g)) s
        { scell with right := some g }) from by
        unfold setRight
        rw [h2s]
        rfl]
    simp only [ubBind_some]
    rw [show getN (setNode (parNode (setNode st g
        { gcell with left := scell.right }) scell.right (some g)) s
        { scell with right := some g }) g =
      some { gcell with left := scell.right } from h3g]
    simp only [ubBind_some]
    rw [show ({ gcell with left := scell.right } : NRec α).parent =
      gcell.parent from rfl]
    rw [show setParent (setNode (parNode (setNode st g
        { gcell with left := scell.right }) scell.right (some g)) s
        { scell with right := some g }) s gcell.parent =
      some (rrdMid st g s gcell scell) from by
        unfold setParent
        rw [h3s]
        rfl]
    simp only [ubBind_some]
    rw [show getN (rrdMid st g s gcell scell) g =
      some { gcell with left := scell.right } from h4g]
    simp only [ubBind_some]
    rw [show ({ gcell with left := scell.right } : NRec α).parent =
      gcell.parent from rfl]
    split
    next ppi heq =>
      rw [hgp] at heq
      simp at heq
    next heq =>
    show setParent (rootTo (rrdMid st g s gcell scell) (some s)) g (some s) = _
    unfold setParent
    rw [show hget (rootTo (rrdMid st g s gcell scell) (some s)).heap g =
      some { gcell with left := scell.right } from h4g]
    rfl
  · show hget (hset (rootTo (rrdMid st g s gcell scell) (some s)).heap g
      { gcell with left := scell.right, parent := some s }) g = _
    exact hget_hset_self h4g
  · show hget (hset (rootTo (rrdMid st g s gcell scell) (some s)).heap g
      { gcell with left := scell.right, parent := some s }) s = _
    rw [hget_hset_ne _ (fun he => hsg he.symm)]
    rw [show hget (rootTo (rrdMid st g s gcell scell) (some s)).heap s =
      some { scell with right := some g, parent := gcell.parent } from h4s,
      hgp]
  · intro m mcell hmeq hmc
    obtain ⟨mcell2, hmc2, hmg, hms⟩ := hm m hmeq
    cases Option.some.inj (hmc2.symm.trans hmc)
    show hget (hset (rootTo (rrdMid st g s gcell scell) (some s)).heap g
      { gcell with left := scell.right, parent := some s }) m = _
    rw [hget_hset_ne _ (fun he => hmg he.symm)]
    show hget (hset (setNode (parNode (setNode st g
      { gcell with left := scell.right }) scell.right (some g)) s
      { scell with right := some g }).heap s
      { scell with right := some g, parent := gcell.parent }) m = _
    rw [hget_hset_ne _ (fun he => hms he.symm)]
    show hget (hset (parNode (setNode st g
      { gcell with left := scell.right }) scell.right (some g)).heap s
      { scell with right := some g }) m = _
    rw [hget_hset_ne _ (fun he => hms he.symm)]
    show hget (parUpd (hset st.heap g { gcell with left := scell.right })
      scell.right (some g)) m = _
    rw [hmeq]
    exact hget_parUpd_self (by
      rw [hget_hset_ne _ (fun he => hmg he.symm)]
      exact hmc2)
  · intro j hjg hjs hjm
    show hget (hset (rootTo (rrdMid st g s gcell scell) (some s)).heap g
      { gcell with left := scell.right, parent := some s }) j = _
    rw [hget_hset_ne _ (fun he => hjg he.symm)]
    show hget (hset (setNode (parNode (setNode st g
      { gcell with left := scell.right }) scell.right (some g)) s
      { scell with right := some g }).heap s
      { scell with right := some g, parent := gcell.parent }) j = _
    rw [hget_hset_ne _ (fun he => hjs he.symm)]
    show hget (hset (parNode (setNode st g
      { gcell with left := scell.right }) scell.right (some g)).heap s
      { scell with right := some g }) j = _
    rw [hget_hset_ne _ (fun he => hjs he.symm)]
    show hget (parUpd (hset st.heap g { gcell with left := scell.right })
      scell.right (some g)) j = _
    rw [hget_parUpd_other (fun m hmeq he => hjm m hmeq he)]
    exact hget_hset_ne _ (fun he => hjg he.symm)

/-- Forward execution of `rotateRightDelete` at a pivot with a parent `pp`
whose left child is null: the guarded test is false, so `pp`'s right child is
relinked. -/
theorem rotateRightDelete_run_frameNone {α : Type} {cmp : α → α → Int}
    {st : RBState α} {g s pp : Nat} {gcell scell ppcell : NRec α}
    (hg : hget st.heap g = some gcell)
    (hgl : gcell.left = some s)
    (hs : hget st.heap s = some scell)
    (hsg : ¬ s = g)
    (hm : ∀ m, scell.right = some m → ∃ mcell, hget st.heap m = some mcell ∧
      ¬ m = g ∧ ¬ m = s)
    (hgp : gcell.parent = some pp)
    (hpp : hget st.heap pp = some ppcell)
    (hppg : ¬ pp = g) (hpps : ¬ pp = s)
    (hppm : ∀ m, scell.right = some m → ¬ pp = m)
    (hple : ppcell.left = none) :
    ∃ st', rotateRightDelete cmp st g = some st' ∧
      st'.size = st.size ∧ st'.next = st.next ∧ st'.freed = st.freed ∧
      st'.root = st.root ∧
      hget st'.heap g =
        some { gcell with left := scell.right, parent := some s } ∧
      hget st'.heap s =
        some { scell with right := some g, parent := some pp } ∧
      (∀ m mcell, scell.right = some m → hget st.heap m = some mcell →
        hget st'.heap m = some { mcell with parent := some g }) ∧
      hget st'.heap pp = some { ppcell with right := some s } ∧
      (∀ j, ¬ j = g → ¬ j = s → (∀ m, scell.right = some m → ¬ j = m) →
        ¬ j = pp → hget st'.heap j = hget st.heap j) := by
  have hmne : ∀ m, scell.right = some m → ¬ m = g ∧ ¬ m = s := by
    intro m hmeq
    obtain ⟨mc, _, h1, h2⟩ := hm m hmeq
    exact ⟨h1, h2⟩
  have h2s : hget (parNode (setNode st g { gcell with left := scell.right })
      scell.right (some g)).heap s = some scell := by
    show hget (parUpd (hset st.heap g { gcell with left := scell.right })
      scell.right (some g)) s = some scell
    rw [hget_parUpd_other (fun m hmeq he => (hmne m hmeq).2 he.symm)]
    rw [hget_hset_ne _ (fun he => hsg he.symm)]
    exact hs
  have h3g : hget (setNode (parNode (setNode st g
      { gcell with left := scell.right }) scell.right (some g)) s
      { scell with right := some g }).heap g =
      some { gcell with left := scell.right } := by
    show hget (hset (parNode (setNode st g { gcell with left := scell.right })
      scell.right (some g)).heap s { scell with right := some g }) g = _
    rw [hget_hset_ne _ hsg]
    show hget (parUpd (hset st.heap g { gcell with left := scell.right })
      scell.right (some g)) g = _
    rw [hget_parUpd_other (fun m hmeq he => (hmne m hmeq).1 he.symm)]
    exact hget_hset_self hg
  have h3s : hget (setNode (parNode (setNode st g
      { gcell with left := scell.right }) scell.right (some g)) s
      { scell with right := some g }).heap s =
      some { scell with right := some g } := hget_hset_self h2s
  have h4g : hget (rrdMid st g s gcell scell).heap g =
      some { gcell with left := scell.right } := by
    show hget (hset (setNode (parNode (setNode st g
      { gcell with left := scell.right }) scell.right (some g)) s
      { scell with right := some g }).heap s
      { scell with right := some g, parent := gcell.parent }) g = _
    rw [hget_hset_ne _ hsg]
    exact h3g
  have h4s : hget (rrdMid st g s gcell scell).heap s =
      some { scell with right := some g, parent := gcell.parent } := by
    show hget (hset (setNode (parNode (setNode st g
      { gcell with left := scell.right }) scell.right (some g)) s
      { scell with right := some g }).heap s
      { scell with right := some g, parent := gcell.parent }) s = _
    exact hget_hset_self h3s
  have h4pp : hget (rrdMid st g s gcell scell).heap pp = some ppcell := by
    show hget (hset (setNode (parNode (setNode st g
      { gcell with left := scell.right }) scell.right (some g)) s
      { scell with right := some g }).heap s
      { scell with right := some g, parent := gcell.parent }) pp = _
    rw [hget_hset_ne _ (fun he => hpps he.symm)]
    show hget (hset (parNode (setNode st g
      { gcell with left := scell.right }) scell.right (some g)).heap s
      { scell with right := some g }) pp = _
    rw [hget_hset_ne _ (fun he => hpps he.symm)]
    show hget (parUpd (hset st.heap g { gcell with left := scell.right })
      scell.right (some g)) pp = _
    rw [hget_parUpd_other (fun m hmeq he => hppm m hmeq he)]
    rw [hget_hset_ne _ (fun he => hppg he.symm)]
    exact hpp
  refine ⟨setNode (setNode (rrdMid st g s gcell scell) pp
      { ppcell with right := some s }) g
      { gcell with left := scell.right, parent := some s },
    ?_, rfl, rfl, rfl, rfl, ?_, ?_, ?_, ?_, ?_⟩
  · have hbm : ∀ m, scell.right = some m →
        (hget (setNode st g { gcell with left := scell.right }).heap m).isSome
          = true := by
      intro m hmeq
      obtain ⟨mcell, hmc, hmg, _⟩ := hm m hmeq
      show (hget (hset st.heap g { gcell with left := scell.right }) m).isSome
        = true
      rw [hget_hset_ne _ (fun he => hmg he.symm), hmc]
      rfl
    have e1 : rotateRightDelete cmp st g =
        ubBind (getN st g) (fun p0 =>
          ubBind (ptr p0.left) (fun si =>
            ubBind (getN st si) (fun s0 =>
              ubBind (setLeft st g s0.right) (fun st1 =>
                ubBind (setParentIf st1 s0.right (some g)) (fun st2 =>
                  ubBind (setRight st2 si (some g)) (fun st3 =>
                    ubBind (getN st3 g) (fun p3 =>
                      ubBind (setParent st3 si p3.parent) (fun st4 =>
                        ubBind (getN st4 g) (fun p4 =>
                          match p4.parent with
                          | some ppi =>
                            ubBind (getN st4 ppi) (fun pp2 =>
                              ubBind (getN st4 g) (fun pn =>
                                ubBind (cmpWithPtr cmp st4 pn.data pp2.left)
                                  (fun cond =>
                                    ubBind (setLeftElseRight st4 ppi cond
                                        (some si))
                                      (fun st5 =>
                                        setParent st5 g (some si)))))
                          | none =>
                            setParent (rootTo st4 (some si)) g
                              (some si)))))))))) := rfl
    rw [e1, show getN st g = some gcell from hg]
    simp only [ubBind_some]
    rw [hgl, show (ptr (some s) : UB Nat) = some s from rfl]
    simp only [ubBind_some]
    rw [show getN st s = some scell from hs]
    simp only [ubBind_some]
    rw [show setLeft st g scell.right =
      some (setNode st g { gcell with left := scell.right }) from by
        unfold setLeft
        rw [hg]
        rfl]
    simp only [ubBind_some]
    rw [show setParentIf (setNode st g { gcell with left := scell.right })
        scell.right (some g) =
      some (parNode (setNode st g { gcell with left := scell.right })
        scell.right (some g)) from setParentIf_run hbm]
    simp only [ubBind_some]
    rw [show setRight (parNode (setNode st g
        { gcell with left := scell.right }) scell.right (some g)) s (some g) =
      some (setNode (parNode (setNode st g
        { gcell with left := scell.right }) scell.right (some g)) s
        { scell with right := some g }) from by
        unfold setRight
        rw [h2s]
        rfl]
    simp only [ubBind_some]
    rw [show getN (setNode (parNode (setNode st g
        { gcell with left := scell.right }) scell.right (some g)) s
        { scell with right := some g }) g =
      some { gcell with left := scell.right } from h3g]
    simp only [ubBind_some]
    rw [show ({ gcell with left := scell.right } : NRec α).parent =
      gcell.parent from rfl]
    rw [show setParent (setNode (parNode (setNode st g
        { gcell with left := scell.right }) scell.right (some g)) s
        { scell with right := some g }) s gcell.parent =
      some (rrdMid st g s gcell scell) from by
        unfold setParent
        rw [h3s]
        rfl]
    simp only [ubBind_some]
    rw [show getN (rrdMid st g s gcell scell) g =
      some { gcell with left := scell.right } from h4g]
    simp only [ubBind_some]
    rw [show ({ gcell with left := scell.right } : NRec α).parent =
      gcell.parent from rfl]
    split
    next ppi heq =>
      cases Option.some.inj ((hgp.symm.trans heq))
      rw [show getN (rrdMid st g s gcell scell) pp = some ppcell from h4pp]
      simp only [ubBind_some]
      conv_lhs => rw [hple]
      rw [show cmpWithPtr cmp (rrdMid st g s gcell scell) gcell.data none =
        some false from rfl]
      simp only [ubBind_some]
      rw [show setLeftElseRight (rrdMid st g s gcell scell) pp false (some s) =
        some (setNode (rrdMid st g s gcell scell) pp
          { ppcell with right := some s }) from setLeftElseRight_run h4pp]
      simp only [ubBind_some]
      unfold setParent
      rw [show hget (setNode (rrdMid st g s gcell scell) pp
        { ppcell with right := some s }).heap g =
        some { gcell with left := scell.right } from by
          show hget (hset (rrdMid st g s gcell scell).heap pp
            { ppcell with right := some s }) g = _
          rw [hget_hset_ne _ hppg]
          exact h4g]
      rfl
    next heq =>
      rw [hgp] at heq
      simp at heq
  · have hgpp : hget (hset (rrdMid st g s gcell scell).heap pp
        { ppcell with right := some s }) g =
        some { gcell with left := scell.right } := by
      rw [hget_hset_ne _ hppg]
      exact h4g
    show hget (hset (setNode (rrdMid st g s gcell scell) pp
      { ppcell with right := some s }).heap g
      { gcell with left := scell.right, parent := some s }) g = _
    exact hget_hset_self hgpp
  · show hget (hset (setNode (rrdMid st g s gcell scell) pp
      { ppcell with right := some s }).heap g
      { gcell with left := scell.right, parent := some s }) s = _
    rw [hget_hset_ne _ (fun he => hsg he.symm)]
    show hget (hset (rrdMid st g s gcell scell).heap pp
      { ppcell with right := some s }) s = _
    rw [hget_hset_ne _ hpps]
    rw [h4s, hgp]
  · intro m mcell hmeq hmc
    obtain ⟨mcell2, hmc2, hmg, hms⟩ := hm m hmeq
    cases Option.some.inj (hmc2.symm.trans hmc)
    show hget (hset (setNode (rrdMid st g s gcell scell) pp
      { ppcell with right := some s }).heap g
      { gcell with left := scell.right, parent := some s }) m = _
    rw [hget_hset_ne _ (fun he => hmg he.symm)]
    show hget (hset (rrdMid st g s gcell scell).heap pp
      { ppcell with right := some s }) m = _
    rw [hget_hset_ne _ (hppm m hmeq)]
    show hget (hset (setNode (parNode (setNode st g
      { gcell with left := scell.right }) scell.right (some g)) s
      { scell with right := some g }).heap s
      { scell with right := some g, parent := gcell.parent }) m = _
    rw [hget_hset_ne _ (fun he => hms he.symm)]
    show hget (hset (parNode (setNode st g
      { gcell with left := scell.right }) scell.right (some g)).heap s
      { scell with right := some g }) m = _
    rw [hget_hset_ne _ (fun he => hms he.symm)]
    show hget (parUpd (hset st.heap g { gcell with left := scell.right })
      scell.right (some g)) m = _
    rw [hmeq]
    exact hget_parUpd_self (by
      rw [hget_hset_ne _ (fun he => hmg he.symm)]
      exact hmc2)
  · show hget (hset (setNode (rrdMid st g s gcell scell) pp
      { ppcell with right := some s }).heap g
      { gcell with left := scell.right, parent := some s }) pp = _
    rw [hget_hset_ne _ (fun he => hppg he.symm)]
    exact hget_hset_self h4pp
  · intro j hjg hjs hjm hjpp
    show hget (hset (setNode (rrdMid st g s gcell scell) pp
      { ppcell with right := some s }).heap g
      { gcell with left := scell.right, parent := some s }) j = _
    rw [hget_hset_ne _ (fun he => hjg he.symm)]
    show hget (hset (rrdMid st g s gcell scell).heap pp
      { ppcell with right := some s }) j = _
    rw [hget_hset_ne _ (fun he => hjpp he.symm)]
    show hget (hset (setNode (parNode (setNode st g
      { gcell with left := scell.right }) scell.right (some g)) s
      { scell with right := some g }).heap s
      { scell with right := some g, parent := gcell.parent }) j = _
    rw [hget_hset_ne _ (fun he => hjs he.symm)]
    show hget (hset (parNode (setNode st g
      { gcell with left := scell.right }) scell.right (some g)).heap s
      { scell with right := some g }) j = _
    rw [hget_hset_ne _ (fun he => hjs he.symm)]
    show hget (parUpd (hset st.heap g { gcell with left := scell.right })
      scell.right (some g)) j = _
    rw [hget_parUpd_other (fun m hmeq he => hjm m hmeq he)]
    exact hget_hset_ne _ (fun he => hjg he.symm)

/-- Forward execution of `rotateRightDelete` at a pivot with a parent `pp`
whose left child exists: the comparator test on that child decides the relink
side. -/
theorem rotateRightDelete_run_frameSome {α : Type} {cmp : α → α → Int}
    {st : RBState α} {g s pp x : Nat} {gcell scell ppcell xcell4 : NRec α}
    (hg : hget st.heap g = some gcell)
    (hgl : gcell.left = some s)
    (hs : hget st.heap s = some scell)
    (hsg : ¬ s = g)
    (hm : ∀ m, scell.right = some m → ∃ mcell, hget st.heap m = some mcell ∧
      ¬ m = g ∧ ¬ m = s)
    (hgp : gcell.parent = some pp)
    (hpp : hget st.heap pp = some ppcell)
    (hppg : ¬ pp = g) (hpps : ¬ pp = s)
    (hppm : ∀ m, scell.right = some m → ¬ pp = m)
    (hppl : ppcell.left = some x)
    (hx4 : (x = g ∧ xcell4 = { gcell with left := scell.right }) ∨
      ((¬ x = g ∧ ¬ x = s ∧ (∀ m, scell.right = some m → ¬ x = m)) ∧
        hget st.heap x = some xcell4)) :
    ∃ st', rotateRightDelete cmp st g = some st' ∧
      st'.size = st.size ∧ st'.next = st.next ∧ st'.freed = st.freed ∧
      st'.root = st.root ∧
      hget st'.heap g =
        some { gcell with left := scell.right, parent := some s } ∧
      hget st'.heap s =
        some { scell with right := some g, parent := some pp } ∧
      (∀ m mcell, scell.right = some m → hget st.heap m = some mcell →
        hget st'.heap m = some { mcell with parent := some g }) ∧
      hget st'.heap pp = some (if cmp gcell.data xcell4.data == 0 then { ppcell with left := some s } else { ppcell with right := some s }) ∧
      (∀ j, ¬ j = g → ¬ j = s → (∀ m, scell.right = some m → ¬ j = m) →
        ¬ j = pp → hget st'.heap j = hget st.heap j) := by
  have hmne : ∀ m, scell.right = some m → ¬ m = g ∧ ¬ m = s := by
    intro m hmeq
    obtain ⟨mc, _, h1, h2⟩ := hm m hmeq
    exact ⟨h1, h2⟩
  have h2s : hget (parNode (setNode st g { gcell with left := scell.right })
      scell.right (some g)).heap s = some scell := by
    show hget (parUpd (hset st.heap g { gcell with left := scell.right })
      scell.right (some g)) s = some scell
    rw [hget_parUpd_other (fun m hmeq he => (hmne m hmeq).2 he.symm)]
    rw [hget_hset_ne _ (fun he => hsg he.symm)]
    exact hs
  have h3g : hget (setNode (parNode (setNode st g
      { gcell with left := scell.right }) scell.right (some g)) s
      { scell with right := some g }).heap g =
      some { gcell with left := scell.right } := by
    show hget (hset (parNode (setNode st g { gcell with left := scell.right })
      scell.right (some g)).heap s { scell with right := some g }) g = _
    rw [hget_hset_ne _ hsg]
    show hget (parUpd (hset st.heap g { gcell with left := scell.right })
      scell.right (some g)) g = _
    rw [hget_parUpd_other (fun m hmeq he => (hmne m hmeq).1 he.symm)]
    exact hget_hset_self hg
  have h3s : hget (setNode (parNode (setNode st g
      { gcell with left := scell.right }) scell.right (some g)) s
      { scell with right := some g }).heap s =
      some { scell with right := some g } := hget_hset_self h2s
  have h4g : hget (rrdMid st g s gcell scell).heap g =
      some { gcell with left := scell.right } := by
    show hget (hset (setNode (parNode (setNode st g
      { gcell with left := scell.right }) scell.right (some g)) s
      { scell with right := some g }).heap s
      { scell with right := some g, parent := gcell.parent }) g = _
    rw [hget_hset_ne _ hsg]
    exact h3g
  have h4s : hget (rrdMid st g s gcell scell).heap s =
      some { scell with right := some g, parent := gcell.parent } := by
    show hget (hset (setNode (parNode (setNode st g
      { gcell with left := scell.right }) scell.right (some g)) s
      { scell with right := some g }).heap s
      { scell with right := some g, parent := gcell.parent }) s = _
    exact hget_hset_self h3s
  have h4pp : hget (rrdMid st g s gcell scell).heap pp = some ppcell := by
    show hget (hset (setNode (parNode (setNode st g
      { gcell with left := scell.right }) scell.right (some g)) s
      { scell with right := some g }).heap s
      { scell with right := some g, parent := gcell.parent }) pp = _
    rw [hget_hset_ne _ (fun he => hpps he.symm)]
    show hget (hset (parNode (setNode st g
      { gcell with left := scell.right }) scell.right (some g)).heap s
      { scell with right := some g }) pp = _
    rw [hget_hset_ne _ (fun he => hpps he.symm)]
    show hget (parUpd (hset st.heap g { gcell with left := scell.right })
      scell.right (some g)) pp = _
    rw [hget_parUpd_other (fun m hmeq he => hppm m hmeq he)]
    rw [hget_hset_ne _ (fun he => hppg he.symm)]
    exact hpp
  have h4x : hget (rrdMid st g s gcell scell).heap x = some xcell4 := by
    rcases hx4 with ⟨hxg, hxc⟩ | ⟨⟨hxng, hxns, hxnm⟩, hxc⟩
    · subst hxg
      rw [hxc]
      exact h4g
    · show hget (hset (setNode (parNode (setNode st g
        { gcell with left := scell.right }) scell.right (some g)) s
        { scell with right := some g }).heap s
        { scell with right := some g, parent := gcell.parent }) x = _
      rw [hget_hset_ne _ (fun he => hxns he.symm)]
      show hget (hset (parNode (setNode st g
        { gcell with left := scell.right }) scell.right (some g)).heap s
        { scell with right := some g }) x = _
      rw [hget_hset_ne _ (fun he => hxns he.symm)]
      show hget (parUpd (hset st.heap g { gcell with left := scell.right })
        scell.right (some g)) x = _
      rw [hget_parUpd_other (fun m hmeq he => hxnm m hmeq he)]
      rw [hget_hset_ne _ (fun he => hxng he.symm)]
      exact hxc
  refine ⟨setNode (setNode (rrdMid st g s gcell scell) pp
      (if cmp gcell.data xcell4.data == 0 then { ppcell with left := some s } else { ppcell with right := some s })) g
      { gcell with left := scell.right, parent := some s },
    ?_, rfl, rfl, rfl, rfl, ?_, ?_, ?_, ?_, ?_⟩
  · have hbm : ∀ m, scell.right = some m →
        (hget (setNode st g { gcell with left := scell.right }).heap m).isSome
          = true := by
      intro m hmeq
      obtain ⟨mcell, hmc, hmg, _⟩ := hm m hmeq
      show (hget (hset st.heap g { gcell with left := scell.right }) m).isSome
        = true
      rw [hget_hset_ne _ (fun he => hmg he.symm), hmc]
      rfl
    have e1 : rotateRightDelete cmp st g =
        ubBind (getN st g) (fun p0 =>
          ubBind (ptr p0.left) (fun si =>
            ubBind (getN st si) (fun s0 =>
              ubBind (setLeft st g s0.right) (fun st1 =>
                ubBind (setParentIf st1 s0.right (some g)) (fun st2 =>
                  ubBind (setRight st2 si (some g)) (fun st3 =>
                    ubBind (getN st3 g) (fun p3 =>
                      ubBind (setParent st3 si p3.parent) (fun st4 =>
                        ubBind (getN st4 g) (fun p4 =>
                          match p4.parent with
                          | some ppi =>
                            ubBind (getN st4 ppi) (fun pp2 =>
                              ubBind (getN st4 g) (fun pn =>
                                ubBind (cmpWithPtr cmp st4 pn.data pp2.left)
                                  (fun cond =>
                                    ubBind (setLeftElseRight st4 ppi cond
                                        (some si))
                                      (fun st5 =>
                                        setParent st5 g (some si)))))
                          | none =>
                            setParent (rootTo st4 (some si)) g
                              (some si)))))))))) := rfl
    rw [e1, show getN st g = some gcell from hg]
    simp only [ubBind_some]
    rw [hgl, show (ptr (some s) : UB Nat) = some s from rfl]
    simp only [ubBind_some]
    rw [show getN st s = some scell from hs]
    simp only [ubBind_some]
    rw [show setLeft st g scell.right =
      some (setNode st g { gcell with left := scell.right }) from by
        unfold setLeft
        rw [hg]
        rfl]
    simp only [ubBind_some]
    rw [show setParentIf (setNode st g { gcell with left := scell.right })
        scell.right (some g) =
      some (parNode (setNode st g { gcell with left := scell.right })
        scell.right (some g)) from setParentIf_run hbm]
    simp only [ubBind_some]
    rw [show setRight (parNode (setNode st g
        { gcell with left := scell.right }) scell.right (some g)) s (some g) =
      some (setNode (parNode (setNode st g
        { gcell with left := scell.right }) scell.right (some g)) s
        { scell with right := some g }) from by
        unfold setRight
        rw [h2s]
        rfl]
    simp only [ubBind_some]
    rw [show getN (setNode (parNode (setNode st g
        { gcell with left := scell.right }) scell.right (some g)) s
        { scell with right := some g }) g =
      some { gcell with left := scell.right } from h3g]
    simp only [ubBind_some]
    rw [show ({ gcell with left := scell.right } : NRec α).parent =
      gcell.parent from rfl]
    rw [show setParent (setNode (parNode (setNode st g
        { gcell with left := scell.right }) scell.right (some g)) s
        { scell with right := some g }) s gcell.parent =
      some (rrdMid st g s gcell scell) from by
        unfold setParent
        rw [h3s]
        rfl]
    simp only [ubBind_some]
    rw [show getN (rrdMid st g s gcell scell) g =
      some { gcell with left := scell.right } from h4g]
    simp only [ubBind_some]
    rw [show ({ gcell with left := scell.right } : NRec α).parent =
      gcell.parent from rfl]
    split
    next ppi heq =>
      cases Option.some.inj ((hgp.symm.trans heq))
      rw [show getN (rrdMid st g s gcell scell) pp = some ppcell from h4pp]
      simp only [ubBind_some]
      conv_lhs => rw [hppl]
      rw [show cmpWithPtr cmp (rrdMid st g s gcell scell) gcell.data (some x) =
        ubBind (getN (rrdMid st g s gcell scell) x)
          (fun n => some (cmp gcell.data n.data == 0)) from rfl]
      rw [show getN (rrdMid st g s gcell scell) x = some xcell4 from h4x]
      simp only [ubBind_some]
      rw [setLeftElseRight_run h4pp]
      simp only [ubBind_some]
      unfold setParent
      rw [show hget (setNode (rrdMid st g s gcell scell) pp
        (if cmp gcell.data xcell4.data == 0 then { ppcell with left := some s } else { ppcell with right := some s })).heap g =
        some { gcell with left := scell.right } from by
          show hget (hset (rrdMid st g s gcell scell).heap pp
            (if cmp gcell.data xcell4.data == 0 then { ppcell with left := some s } else { ppcell with right := some s })) g = _
          rw [hget_hset_ne _ hppg]
          exact h4g]
      rfl
    next heq =>
      rw [hgp] at heq
      simp at heq
  · have hgpp : hget (hset (rrdMid st g s gcell scell).heap pp
        (if cmp gcell.data xcell4.data == 0 then { ppcell with left := some s } else { ppcell with right := some s })) g =
        some { gcell with left := scell.right } := by
      rw [hget_hset_ne _ hppg]
      exact h4g
    show hget (hset (setNode (rrdMid st g s gcell scell) pp
      (if cmp gcell.data xcell4.data == 0 then { ppcell with left := some s } else { ppcell with right := some s })).heap g
      { gcell with left := scell.right, parent := some s }) g = _
    exact hget_hset_self hgpp
  · show hget (hset (setNode (rrdMid st g s gcell scell) pp
      (if cmp gcell.data xcell4.data == 0 then { ppcell with left := some s } else { ppcell with right := some s })).heap g
      { gcell with left := scell.right, parent := some s }) s = _
    rw [hget_hset_ne _ (fun he => hsg he.symm)]
    show hget (hset (rrdMid st g s gcell scell).heap pp
      (if cmp gcell.data xcell4.data == 0 then { ppcell with left := some s } else { ppcell with right := some s })) s = _
    rw [hget_hset_ne _ hpps]
    rw [h4s, hgp]
  · intro m mcell hmeq hmc
    obtain ⟨mcell2, hmc2, hmg, hms⟩ := hm m hmeq
    cases Option.some.inj (hmc2.symm.trans hmc)
    show hget (hset (setNode (rrdMid st g s gcell scell) pp
      (if cmp gcell.data xcell4.data == 0 then { ppcell with left := some s } else { ppcell with right := some s })).heap g
      { gcell with left := scell.right, parent := some s }) m = _
    rw [hget_hset_ne _ (fun he => hmg he.symm)]
    show hget (hset (rrdMid st g s gcell scell).heap pp
      (if cmp gcell.data xcell4.data == 0 then { ppcell with left := some s } else { ppcell with right := some s })) m = _
    rw [hget_hset_ne _ (hppm m hmeq)]
    show hget (hset (setNode (parNode (setNode st g
      { gcell with left := scell.right }) scell.right (some g)) s
      { scell with right := some g }).heap s
      { scell with right := some g, parent := gcell.parent }) m = _
    rw [hget_hset_ne _ (fun he => hms he.symm)]
    show hget (hset (parNode (setNode st g
      { gcell with left := scell.right }) scell.right (some g)).heap s
      { scell with right := some g }) m = _
    rw [hget_hset_ne _ (fun he => hms he.symm)]
    show hget (parUpd (hset st.heap g { gcell with left := scell.right })
      scell.right (some g)) m = _
    rw [hmeq]
    exact hget_parUpd_self (by
      rw [hget_hset_ne _ (fun he => hmg he.symm)]
      exact hmc2)
  · show hget (hset (setNode (rrdMid st g s gcell scell) pp
      (if cmp gcell.data xcell4.data == 0 then { ppcell with left := some s } else { ppcell with right := some s })).heap g
      { gcell with left := scell.right, parent := some s }) pp = _
    rw [hget_hset_ne _ (fun he => hppg he.symm)]
    exact hget_hset_self h4pp
  · intro j hjg hjs hjm hjpp
    show hget (hset (setNode (rrdMid st g s gcell scell) pp
      (if cmp gcell.data xcell4.data == 0 then { ppcell with left := some s } else { ppcell with right := some s })).heap g
      { gcell with left := scell.right, parent := some s }) j = _
    rw [hget_hset_ne _ (fun he => hjg he.symm)]
    show hget (hset (rrdMid st g s gcell scell).heap pp
      (if cmp gcell.data xcell4.data == 0 then { ppcell with left := some s } else { ppcell with right := some s })) j = _
    rw [hget_hset_ne _ (fun he => hjpp he.symm)]
    show hget (hset (setNode (parNode (setNode st g
      { gcell with left := scell.right }) scell.right (some g)) s
      { scell with right := some g }).heap s
      { scell with right := some g, parent := gcell.parent }) j = _
    rw [hget_hset_ne _ (fun he => hjs he.symm)]
    show hget (hset (parNode (setNode st g
      { gcell with left := scell.right }) scell.right (some g)).heap s
      { scell with right := some g }) j = _
    rw [hget_hset_ne _ (fun he => hjs he.symm)]
    show hget (parUpd (hset st.heap g { gcell with left := scell.right })
      scell.right (some g)) j = _
    rw [hget_parUpd_other (fun m hmeq he => hjm m hmeq he)]
    exact hget_hset_ne _ (fun he => hjg he.symm)

/-- Forward execution of `rotateLink` when the pivot's parent is null: the
root pointer moves to `p`, `p` is recolored BLACK and reparented to null, and
`g` is reparented under `p`. -/
theorem rotateLink_run_root {α : Type} {cmp : α → α → Int} {st3 : RBState α}
    {g p : Nat} {gc pc : NRec α}
    (hg3 : hget st3.heap g = some gc)
    (hgp : gc.parent = none)
    (hp3 : hget st3.heap p = some pc)
    (hpg : ¬ p = g) :
    rotateLink cmp st3 g p = some (rlkRoot st3 g p gc pc) ∧
    (rlkRoot st3 g p gc pc).size = st3.size ∧
    (rlkRoot st3 g p gc pc).next = st3.next ∧
    (rlkRoot st3 g p gc pc).freed = st3.freed ∧
    (rlkRoot st3 g p gc pc).root = some p ∧
    hget (rlkRoot st3 g p gc pc).heap g = some { gc with parent := some p } ∧
    hget (rlkRoot st3 g p gc pc).heap p =
      some { pc with parent := none, color := Color.BLACK } ∧
    (∀ j, ¬ j = g → ¬ j = p →
      hget (rlkRoot st3 g p gc pc).heap j = hget st3.heap j) := by
  have h5p : hget (setNode (rootTo st3 (some p)) p
      { pc with parent := none }).heap p = some { pc with parent := none } :=
    hget_hset_self hp3
  have h6p : hget (setNode (setNode (rootTo st3 (some p)) p
      { pc with parent := none }) p
      { pc with parent := none, color := Color.BLACK }).heap p =
      some { pc with parent := none, color := Color.BLACK } :=
    hget_hset_self h5p
  have h6g : hget (setNode (setNode (rootTo st3 (some p)) p
      { pc with parent := none }) p
      { pc with parent := none, color := Color.BLACK }).heap g = some gc := by
    show hget (hset (setNode (rootTo st3 (some p)) p
      { pc with parent := none }).heap p
      { pc with parent := none, color := Color.BLACK }) g = _
    rw [hget_hset_ne _ hpg]
    show hget (hset (rootTo st3 (some p)).heap p { pc with parent := none }) g
      = _
    rw [hget_hset_ne _ hpg]
    exact hg3
  refine ⟨?_, rfl, rfl, rfl, rfl, ?_, ?_, ?_⟩
  · have e1 : rotateLink cmp st3 g p =
        ubBind (getN st3 g) (fun g3 =>
          match g3.parent with
          | none =>
            ubBind (setParent (rootTo st3 (some p)) p none) (fun st5 =>
              ubBind (setColor st5 p Color.BLACK) (fun st6 =>
                setParent st6 g (some p)))
          | some ggi =>
            ubBind (getN st3 ggi) (fun gg =>
              ubBind (ptr gg.left) (fun ggl =>
                ubBind (getN st3 ggl) (fun gln =>
                  ubBind (getN st3 g) (fun g2 =>
                    ubBind (setLeftElseRight st3 ggi
                        (cmp gln.data g2.data == 0) (some p)) (fun st4 =>
                      ubBind (setParent st4 p (some ggi)) (fun st5 =>
                        setParent st5 g (some p)))))))) := rfl
    rw [e1, show getN st3 g = some gc from hg3]
    simp only [ubBind_some]
    split
    next heq =>
      rw [show setParent (rootTo st3 (some p)) p none =
        some (setNode (rootTo st3 (some p)) p { pc with parent := none })
        from by
          unfold setParent
          rw [show hget (rootTo st3 (some p)).heap p = some pc from hp3]
          rfl]
      simp only [ubBind_some]
      rw [show setColor (setNode (rootTo st3 (some p)) p
          { pc with parent := none }) p Color.BLACK =
        some (setNode (setNode (rootTo st3 (some p)) p
          { pc with parent := none }) p
          { pc with parent := none, color := Color.BLACK }) from by
          unfold setColor
          rw [h5p]
          rfl]
      simp only [ubBind_some]
      unfold setParent
      rw [h6g]
      rfl
    next ggi heq =>
      rw [hgp] at heq
      simp at heq
  · show hget (hset (setNode (setNode (rootTo st3 (some p)) p
      { pc with parent := none }) p
      { pc with parent := none, color := Color.BLACK }).heap g
      { gc with parent := some p }) g = _
    exact hget_hset_self h6g
  · show hget (hset (setNode (setNode (rootTo st3 (some p)) p
      { pc with parent := none }) p
      { pc with parent := none, color := Color.BLACK }).heap g
      { gc with parent := some p }) p = _
    rw [hget_hset_ne _ (fun he => hpg he.symm)]
    exact h6p
  · intro j hjg hjp
    show hget (hset (setNode (setNode (rootTo st3 (some p)) p
      { pc with parent := none }) p
      { pc with parent := none, color := Color.BLACK }).heap g
      { gc with parent := some p }) j = _
    rw [hget_hset_ne _ (fun he => hjg he.symm)]
    show hget (hset (setNode (rootTo st3 (some p)) p
      { pc with parent := none }).heap p
      { pc with parent := none, color := Color.BLACK }) j = _
    rw [hget_hset_ne _ (fun he => hjp he.symm)]
    show hget (hset (rootTo st3 (some p)).heap p { pc with parent := none }) j
      = _
    rw [hget_hset_ne _ (fun he => hjp he.symm)]
    rfl

/-- Forward execution of `rotateLink` when the pivot's parent `pp` exists:
the comparator test on `pp->left` decides the relink side, `p` is reparented
under `pp` and `g` under `p`. -/
theorem rotateLink_run_frame {α : Type} {cmp : α → α → Int} {st3 : RBState α}
    {g p pp x : Nat} {gc pc ppc xc : NRec α}
    (hg3 : hget st3.heap g = some gc)
    (hgp : gc.parent = some pp)
    (hp3 : hget st3.heap p = some pc)
    (hpg : ¬ p = g)
    (hpp3 : hget st3.heap pp = some ppc)
    (hppg : ¬ pp = g) (hppp : ¬ pp = p)
    (hppl : ppc.left = some x)
    (hx3 : hget st3.heap x = some xc) :
    rotateLink cmp st3 g p =
      some (rlkFrame st3 g p pp gc pc
        (if cmp xc.data gc.data == 0 then { ppc with left := some p }
         else { ppc with right := some p })) ∧
    ∀ ppn : NRec α,
      (rlkFrame st3 g p pp gc pc ppn).size = st3.size ∧
      (rlkFrame st3 g p pp gc pc ppn).next = st3.next ∧
      (rlkFrame st3 g p pp gc pc ppn).freed = st3.freed ∧
      (rlkFrame st3 g p pp gc pc ppn).root = st3.root ∧
      hget (rlkFrame st3 g p pp gc pc ppn).heap g =
        some { gc with parent := some p } ∧
      hget (rlkFrame st3 g p pp gc pc ppn).heap p =
        some { pc with parent := some pp } ∧
      hget (rlkFrame st3 g p pp gc pc ppn).heap pp = some ppn ∧
      (∀ j, ¬ j = g → ¬ j = p → ¬ j = pp →
        hget (rlkFrame st3 g p pp gc pc ppn).heap j = hget st3.heap j) := by
  constructor
  · have h4p : ∀ ppn : NRec α,
        hget (setNode st3 pp ppn).heap p = some pc := by
      intro ppn
      show hget (hset st3.heap pp ppn) p = _
      rw [hget_hset_ne _ hppp]
      exact hp3
    have h5g : ∀ ppn : NRec α,
        hget (setNode (setNode st3 pp ppn) p
          { pc with parent := some pp }).heap g = some gc := by
      intro ppn
      show hget (hset (setNode st3 pp ppn).heap p
        { pc with parent := some pp }) g = _
      rw [hget_hset_ne _ hpg]
      show hget (hset st3.heap pp ppn) g = _
      rw [hget_hset_ne _ hppg]
      exact hg3
    have e1 : rotateLink cmp st3 g p =
        ubBind (getN st3 g) (fun g3 =>
          match g3.parent with
          | none =>
            ubBind (setParent (rootTo st3 (some p)) p none) (fun st5 =>
              ubBind (setColor st5 p Color.BLACK) (fun st6 =>
                setParent st6 g (some p)))
          | some ggi =>
            ubBind (getN st3 ggi) (fun gg =>
              ubBind (ptr gg.left) (fun ggl =>
                ubBind (getN st3 ggl) (fun gln =>
                  ubBind (getN st3 g) (fun g2 =>
                    ubBind (setLeftElseRight st3 ggi
                        (cmp gln.data g2.data == 0) (some p)) (fun st4 =>
                      ubBind (setParent st4 p (some ggi)) (fun st5 =>
                        setParent st5 g (some p)))))))) := rfl
    rw [e1, show getN st3 g = some gc from hg3]
    simp only [ubBind_some]
    split
    next heq =>
      rw [hgp] at heq
      simp at heq
    next ggi heq =>
      cases Option.some.inj ((hgp.symm.trans heq))
      rw [show getN st3 pp = some ppc from hpp3]
      simp only [ubBind_some]
      conv_lhs => rw [hppl]
      rw [show (ptr (some x) : UB Nat) = some x from rfl]
      simp only [ubBind_some]
      rw [show getN st3 x = some xc from hx3]
      simp only [ubBind_some]
      rw [setLeftElseRight_run hpp3]
      simp only [ubBind_some]
      rw [show setParent (setNode st3 pp
          (if cmp xc.data gc.data == 0 then { ppc with left := some p }
           else { ppc with right := some p })) p (some pp) =
        some (setNode (setNode st3 pp
          (if cmp xc.data gc.data == 0 then { ppc with left := some p }
           else { ppc with right := some p })) p
          { pc with parent := some pp }) from by
          unfold setParent
          rw [h4p]
          rfl]
      simp only [ubBind_some]
      unfold setParent
      rw [h5g]
      rfl
  · intro ppn
    have h4p : hget (setNode st3 pp ppn).heap p = some pc := by
      show hget (hset st3.heap pp ppn) p = _
      rw [hget_hset_ne _ hppp]
      exact hp3
    have h5g : hget (setNode (setNode st3 pp ppn) p
        { pc with parent := some pp }).heap g = some gc := by
      show hget (hset (setNode st3 pp ppn).heap p
        { pc with parent := some pp }) g = _
      rw [hget_hset_ne _ hpg]
      show hget (hset st3.heap pp ppn) g = _
      rw [hget_hset_ne _ hppg]
      exact hg3
    refine ⟨rfl, rfl, rfl, rfl, ?_, ?_, ?_, ?_⟩
    · show hget (hset (setNode (setNode st3 pp ppn) p
        { pc with parent := some pp }).heap g { gc with parent := some p }) g
        = _
      exact hget_hset_self h5g
    · show hget (hset (setNode (setNode st3 pp ppn) p
        { pc with parent := some pp }).heap g { gc with parent := some p }) p
        = _
      rw [hget_hset_ne _ (fun he => hpg he.symm)]
      show hget (hset (setNode st3 pp ppn).heap p
        { pc with parent := some pp }) p = _
      exact hget_hset_self h4p
    · show hget (hset (setNode (setNode st3 pp ppn) p
        { pc with parent := some pp }).heap g { gc with parent := some p }) pp
        = _
      rw [hget_hset_ne _ (fun he => hppg he.symm)]
      show hget (hset (setNode st3 pp ppn).heap p
        { pc with parent := some pp }) pp = _
      rw [hget_hset_ne _ (fun he => hppp he.symm)]
      exact hget_hset_self hpp3
    · intro j hjg hjp hjpp
      show hget (hset (setNode (setNode st3 pp ppn) p
        { pc with parent := some pp }).heap g { gc with parent := some p }) j
        = _
      rw [hget_hset_ne _ (fun he => hjg he.symm)]
      show hget (hset (setNode st3 pp ppn).heap p
        { pc with parent := some pp }) j = _
      rw [hget_hset_ne _ (fun he => hjp he.symm)]
      show hget (hset st3.heap pp ppn) j = _
      rw [hget_hset_ne _ (fun he => hjpp he.symm)]

/-- Forward execution of `rotateLeft2` in the right-of-right configuration
(`p = g.right`, `node = n.parent`-chain coherent) when the pivot `g` is the
tree root: the root pointer moves to `p`, which is recolored BLACK. -/
theorem rotateLeft2_run_root {α : Type} {cmp : α → α → Int} {st : RBState α}
    {node p g : Nat} {ncell pcell gcell : NRec α}
    (hn : hget st.heap node = some ncell)
    (hnp : ncell.parent = some p)
    (hp : hget st.heap p = some pcell)
    (hpg2 : pcell.parent = some g)
    (hg : hget st.heap g = some gcell)
    (hpg : ¬ p = g)
    (hm : ∀ m, pcell.left = some m → ∃ mcell, hget st.heap m = some mcell ∧
      ¬ m = g ∧ ¬ m = p)
    (hgp : gcell.parent = none) :
    ∃ st', rotateLeft2 cmp st node = some st' ∧
      st'.size = st.size ∧ st'.next = st.next ∧ st'.freed = st.freed ∧
      st'.root = some p ∧
      hget st'.heap g =
        some { gcell with right := pcell.left, parent := some p } ∧
      hget st'.heap p =
        some { pcell with color := Color.BLACK, left := some g, parent := none } ∧
      (∀ m mcell, pcell.left = some m → hget st.heap m = some mcell →
        hget st'.heap m = some { mcell with parent := some g }) ∧
      (∀ j, ¬ j = g → ¬ j = p → (∀ m, pcell.left = some m → ¬ j = m) →
        hget st'.heap j = hget st.heap j) := by
  have hmne : ∀ m, pcell.left = some m → ¬ m = g ∧ ¬ m = p := by
    intro m hmeq
    obtain ⟨mc, _, h1, h2⟩ := hm m hmeq
    exact ⟨h1, h2⟩
  have h2p : hget (parNode (setNode st g { gcell with right := pcell.left })
      pcell.left (some g)).heap p = some pcell := by
    show hget (parUpd (hset st.heap g { gcell with right := pcell.left })
      pcell.left (some g)) p = some pcell
    rw [hget_parUpd_other (fun m hmeq he => (hmne m hmeq).2 he.symm)]
    rw [hget_hset_ne _ (fun he => hpg he.symm)]
    exact hp
  have h3g : hget (rl2Mid st g p gcell pcell).heap g =
      some { gcell with right := pcell.left } := by
    show hget (hset (parNode (setNode st g { gcell with right := pcell.left })
      pcell.left (some g)).heap p { pcell with left := some g }) g = _
    rw [hget_hset_ne _ hpg]
    show hget (parUpd (hset st.heap g { gcell with right := pcell.left })
      pcell.left (some g)) g = _
    rw [hget_parUpd_other (fun m hmeq he => (hmne m hmeq).1 he.symm)]
    exact hget_hset_self hg
  have h3p : hget (rl2Mid st g p gcell pcell).heap p =
      some { pcell with left := some g } := hget_hset_self h2p
  obtain ⟨hrun, hsz, hnx, hfr, hrt, hgc, hpc, hout⟩ :=
    @rotateLink_run_root _ cmp _ _ _ _ _ h3g
      (show ({ gcell with right := pcell.left } : NRec α).parent = none
        from hgp) h3p hpg
  refine ⟨rlkRoot (rl2Mid st g p gcell pcell) g p
      { gcell with right := pcell.left } { pcell with left := some g },
    ?_, rfl, rfl, rfl, rfl, hgc, hpc, ?_, ?_⟩
  · have hbm : ∀ m, pcell.left = some m →
        (hget (setNode st g { gcell with right := pcell.left }).heap m).isSome
          = true := by
      intro m hmeq
      obtain ⟨mcell, hmc, hmg, _⟩ := hm m hmeq
      show (hget (hset st.heap g { gcell with right := pcell.left }) m).isSome
        = true
      rw [hget_hset_ne _ (fun he => hmg he.symm), hmc]
      rfl
    have e1 : rotateLeft2 cmp st node =
        ubBind (getParent st (some node)) (fun parentPtr =>
          ubBind (getParent st parentPtr) (fun gpPtr =>
            ubBind (ptr gpPtr) (fun gi =>
              ubBind (ptr parentPtr) (fun pi =>
                ubBind (getN st pi) (fun p0 =>
                  ubBind (setRight st gi p0.left) (fun st1 =>
                    ubBind (setParentIf st1 p0.left (some gi)) (fun st2 =>
                      ubBind (setLeft st2 pi (some gi)) (fun st3 =>
                        rotateLink cmp st3 gi pi)))))))) := rfl
    rw [e1, show getParent st (some node) = some ncell.parent from by
      show ubBind (getN st node) (fun n0 => some n0.parent) =
        some ncell.parent
      rw [show getN st node = some ncell from hn]
      rfl]
    simp only [ubBind_some]
    rw [hnp]
    rw [show getParent st (some p) = some pcell.parent from by
      show ubBind (getN st p) (fun n0 => some n0.parent) = some pcell.parent
      rw [show getN st p = some pcell from hp]
      rfl]
    simp only [ubBind_some]
    conv_lhs => rw [hpg2]
    rw [show (ptr (some g) : UB Nat) = some g from rfl]
    simp only [ubBind_some]
    rw [show (ptr (some p) : UB Nat) = some p from rfl]
    simp only [ubBind_some]
    rw [show getN st p = some pcell from hp]
    simp only [ubBind_some]
    rw [show setRight st g pcell.left =
      some (setNode st g { gcell with right := pcell.left }) from by
        unfold setRight
        rw [hg]
        rfl]
    simp only [ubBind_some]
    rw [show setParentIf (setNode st g { gcell with right := pcell.left })
        pcell.left (some g) =
      some (parNode (setNode st g { gcell with right := pcell.left })
        pcell.left (some g)) from setParentIf_run hbm]
    simp only [ubBind_some]
    rw [show setLeft (parNode (setNode st g
        { gcell with right := pcell.left }) pcell.left (some g)) p (some g) =
      some (rl2Mid st g p gcell pcell) from by
        unfold setLeft
        rw [h2p]
        rfl]
    simp only [ubBind_some]
    exact hrun
  · intro m mcell hmeq hmc
    obtain ⟨mcell2, hmc2, hmg, hmp⟩ := hm m hmeq
    cases Option.some.inj (hmc2.symm.trans hmc)
    rw [hout m hmg hmp]
    show hget (hset (parNode (setNode st g
      { gcell with right := pcell.left }) pcell.left (some g)).heap p
      { pcell with left := some g }) m = _
    rw [hget_hset_ne _ (fun he => hmp he.symm)]
    show hget (parUpd (hset st.heap g { gcell with right := pcell.left })
      pcell.left (some g)) m = _
    rw [hmeq]
    exact hget_parUpd_self (by
      rw [hget_hset_ne _ (fun he => hmg he.symm)]
      exact hmc2)
  · intro j hjg hjp hjm
    rw [hout j hjg hjp]
    show hget (hset (parNode (setNode st g
      { gcell with right := pcell.left }) pcell.left (some g)).heap p
      { pcell with left := some g }) j = _
    rw [hget_hset_ne _ (fun he => hjp he.symm)]
    show hget (parUpd (hset st.heap g { gcell with right := pcell.left })
      pcell.left (some g)) j = _
    rw [hget_parUpd_other (fun m hmeq he => hjm m hmeq he)]
    exact hget_hset_ne _ (fun he => hjg he.symm)

/-- Forward execution of `rotateLeft2` in the right-of-right configuration
when the pivot `g` has a parent `pp`: the comparator test on `pp->left`
decides the relink side and the root pointer is untouched. -/
theorem rotateLeft2_run_frame {α : Type} {cmp : α → α → Int} {st : RBState α}
    {node p g pp x : Nat} {ncell pcell gcell ppcell xcell4 : NRec α}
    (hn : hget st.heap node = some ncell)
    (hnp : ncell.parent = some p)
    (hp : hget st.heap p = some pcell)
    (hpg2 : pcell.parent = some g)
    (hg : hget st.heap g = some gcell)
    (hpg : ¬ p = g)
    (hm : ∀ m, pcell.left = some m → ∃ mcell, hget st.heap m = some mcell ∧
      ¬ m = g ∧ ¬ m = p)
    (hgp : gcell.parent = some pp)
    (hpp : hget st.heap pp = some ppcell)
    (hppg : ¬ pp = g) (hppp : ¬ pp = p)
    (hppm : ∀ m, pcell.left = some m → ¬ pp = m)
    (hppl : ppcell.left = some x)
    (hx4 : (x = g ∧ xcell4 = { gcell with right := pcell.left }) ∨
      ((¬ x = g ∧ ¬ x = p ∧ (∀ m, pcell.left = some m → ¬ x = m)) ∧
        hget st.heap x = some xcell4)) :
    ∃ st', rotateLeft2 cmp st node = some st' ∧
      st'.size = st.size ∧ st'.next = st.next ∧ st'.freed = st.freed ∧
      st'.root = st.root ∧
      hget st'.heap g =
        some { gcell with right := pcell.left, parent := some p } ∧
      hget st'.heap p =
        some { pcell with left := some g, parent := some pp } ∧
      (∀ m mcell, pcell.left = some m → hget st.heap m = some mcell →
        hget st'.heap m = some { mcell with parent := some g }) ∧
      hget st'.heap pp = some (if cmp xcell4.data gcell.data == 0 then
        { ppcell with left := some p } else { ppcell with right := some p }) ∧
      (∀ j, ¬ j = g → ¬ j = p → (∀ m, pcell.left = some m → ¬ j = m) →
        ¬ j = pp → hget st'.heap j = hget st.heap j) := by
  have hmne : ∀ m, pcell.left = some m → ¬ m = g ∧ ¬ m = p := by
    intro m hmeq
    obtain ⟨mc, _, h1, h2⟩ := hm m hmeq
    exact ⟨h1, h2⟩
  have h2p : hget (parNode (setNode st g { gcell with right := pcell.left })
      pcell.left (some g)).heap p = some pcell := by
    show hget (parUpd (hset st.heap g { gcell with right := pcell.left })
      pcell.left (some g)) p = some pcell
    rw [hget_parUpd_other (fun m hmeq he => (hmne m hmeq).2 he.symm)]
    rw [hget_hset_ne _ (fun he => hpg he.symm)]
    exact hp
  have h3g : hget (rl2Mid st g p gcell pcell).heap g =
      some { gcell with right := pcell.left } := by
    show hget (hset (parNode (setNode st g { gcell with right := pcell.left })
      pcell.left (some g)).heap p { pcell with left := some g }) g = _
    rw [hget_hset_ne _ hpg]
    show hget (parUpd (hset st.heap g { gcell with right := pcell.left })
      pcell.left (some g)) g = _
    rw [hget_parUpd_other (fun m hmeq he => (hmne m hmeq).1 he.symm)]
    exact hget_hset_self hg
  have h3p : hget (rl2Mid st g p gcell pcell).heap p =
      some { pcell with left := some g } := hget_hset_self h2p
  have h3pp : hget (rl2Mid st g p gcell pcell).heap pp = some ppcell := by
    show hget (hset (parNode (setNode st g { gcell with right := pcell.left })
      pcell.left (some g)).heap p { pcell with left := some g }) pp = _
    rw [hget_hset_ne _ (fun he => hppp he.symm)]
    show hget (parUpd (hset st.heap g { gcell with right := pcell.left })
      pcell.left (some g)) pp = _
    rw [hget_parUpd_other (fun m hmeq he => hppm m hmeq he)]
    rw [hget_hset_ne _ (fun he => hppg he.symm)]
    exact hpp
  have h3x : hget (rl2Mid st g p gcell pcell).heap x = some xcell4 := by
    rcases hx4 with ⟨hxg, hxc⟩ | ⟨⟨hxng, hxnp, hxnm⟩, hxc⟩
    · subst hxg
      rw [hxc]
      exact h3g
    · show hget (hset (parNode (setNode st g
        { gcell with right := pcell.left }) pcell.left (some g)).heap p
        { pcell with left := some g }) x = _
      rw [hget_hset_ne _ (fun he => hxnp he.symm)]
      show hget (parUpd (hset st.heap g { gcell with right := pcell.left })
        pcell.left (some g)) x = _
      rw [hget_parUpd_other (fun m hmeq he => hxnm m hmeq he)]
      rw [hget_hset_ne _ (fun he => hxng he.symm)]
      exact hxc
  obtain ⟨hrun, hfacts⟩ :=
    @rotateLink_run_frame _ cmp _ _ _ _ _ _ _ _ _ h3g
      (show ({ gcell with right := pcell.left } : NRec α).parent = some pp
        from hgp) h3p hpg h3pp hppg hppp hppl h3x
  obtain ⟨hsz, hnx, hfr, hrt, hgc, hpc, hppc, hout⟩ :=
    hfacts (if cmp xcell4.data gcell.data == 0 then
      { ppcell with left := some p } else { ppcell with right := some p })
  refine ⟨rlkFrame (rl2Mid st g p gcell pcell) g p pp
      { gcell with right := pcell.left } { pcell with left := some g }
      (if cmp xcell4.data gcell.data == 0 then
        { ppcell with left := some p } else { ppcell with right := some p }),
    ?_, rfl, rfl, rfl, rfl, hgc, hpc, ?_, hppc, ?_⟩
  · have hbm : ∀ m, pcell.left = some m →
        (hget (setNode st g { gcell with right := pcell.left }).heap m).isSome
          = true := by
      intro m hmeq
      obtain ⟨mcell, hmc, hmg, _⟩ := hm m hmeq
      show (hget (hset st.heap g { gcell with right := pcell.left }) m).isSome
        = true
      rw [hget_hset_ne _ (fun he => hmg he.symm), hmc]
      rfl
    have e1 : rotateLeft2 cmp st node =
        ubBind (getParent st (some node)) (fun parentPtr =>
          ubBind (getParent st parentPtr) (fun gpPtr =>
            ubBind (ptr gpPtr) (fun gi =>
              ubBind (ptr parentPtr) (fun pi =>
                ubBind (getN st pi) (fun p0 =>
                  ubBind (setRight st gi p0.left) (fun st1 =>
                    ubBind (setParentIf st1 p0.left (some gi)) (fun st2 =>
                      ubBind (setLeft st2 pi (some gi)) (fun st3 =>
                        rotateLink cmp st3 gi pi)))))))) := rfl
    rw [e1, show getParent st (some node) = some ncell.parent from by
      show ubBind (getN st node) (fun n0 => some n0.parent) =
        some ncell.parent
      rw [show getN st node = some ncell from hn]
      rfl]
    simp only [ubBind_some]
    rw [hnp]
    rw [show getParent st (some p) = some pcell.parent from by
      show ubBind (getN st p) (fun n0 => some n0.parent) = some pcell.parent
      rw [show getN st p = some pcell from hp]
      rfl]
    simp only [ubBind_some]
    conv_lhs => rw [hpg2]
    rw [show (ptr (some g) : UB Nat) = some g from rfl]
    simp only [ubBind_some]
    rw [show (ptr (some p) : UB Nat) = some p from rfl]
    simp only [ubBind_some]
    rw [show getN st p = some pcell from hp]
    simp only [ubBind_some]
    rw [show setRight st g pcell.left =
      some (setNode st g { gcell with right := pcell.left }) from by
        unfold setRight
        rw [hg]
        rfl]
    simp only [ubBind_some]
    rw [show setParentIf (setNode st g { gcell with right := pcell.left })
        pcell.left (some g) =
      some (parNode (setNode st g { gcell with right := pcell.left })
        pcell.left (some g)) from setParentIf_run hbm]
    simp only [ubBind_some]
    rw [show setLeft (parNode (setNode st g
        { gcell with right := pcell.left }) pcell.left (some g)) p (some g) =
      some (rl2Mid st g p gcell pcell) from by
        unfold setLeft
        rw [h2p]
        rfl]
    simp only [ubBind_some]
    exact hrun
  · intro m mcell hmeq hmc
    obtain ⟨mcell2, hmc2, hmg, hmp⟩ := hm m hmeq
    cases Option.some.inj (hmc2.symm.trans hmc)
    rw [hout m hmg hmp (fun he => hppm m hmeq he.symm)]
    show hget (hset (parNode (setNode st g
      { gcell with right := pcell.left }) pcell.left (some g)).heap p
      { pcell with left := some g }) m = _
    rw [hget_hset_ne _ (fun he => hmp he.symm)]
    show hget (parUpd (hset st.heap g { gcell with right := pcell.left })
      pcell.left (some g)) m = _
    rw [hmeq]
    exact hget_parUpd_self (by
      rw [hget_hset_ne _ (fun he => hmg he.symm)]
      exact hmc2)
  · intro j hjg hjp hjm hjpp
    rw [hout j hjg hjp hjpp]
    show hget (hset (parNode (setNode st g
      { gcell with right := pcell.left }) pcell.left (some g)).heap p
      { pcell with left := some g }) j = _
    rw [hget_hset_ne _ (fun he => hjp he.symm)]
    show hget (parUpd (hset st.heap g { gcell with right := pcell.left })
      pcell.left (some g)) j = _
    rw [hget_parUpd_other (fun m hmeq he => hjm m hmeq he)]
    exact hget_hset_ne _ (fun he => hjg he.symm)

/-- Forward execution of `rotateRight2` in the left-of-left configuration
when the pivot `g` is the tree root: the root pointer moves to `p`, which is
recolored BLACK, and `g` is recolored RED. -/
theorem rotateRight2_run_root {α : Type} {cmp : α → α → Int} {st : RBState α}
    {node p g : Nat} {ncell pcell gcell : NRec α}
    (hn : hget st.heap node = some ncell)
    (hnp : ncell.parent = some p)
    (hp : hget st.heap p = some pcell)
    (hpg2 : pcell.parent = some g)
    (hg : hget st.heap g = some gcell)
    (hpg : ¬ p = g)
    (hm : ∀ m, pcell.right = some m → ∃ mcell, hget st.heap m = some mcell ∧
      ¬ m = g ∧ ¬ m = p)
    (hgp : gcell.parent = none) :
    ∃ st', rotateRight2 cmp st node = some st' ∧
      st'.size = st.size ∧ st'.next = st.next ∧ st'.freed = st.freed ∧
      st'.root = some p ∧
      hget st'.heap g =
        some { gcell with color := Color.RED, left := pcell.right, parent := some p } ∧
      hget st'.heap p =
        some { pcell with color := Color.BLACK, right := some g, parent := none } ∧
      (∀ m mcell, pcell.right = some m → hget st.heap m = some mcell →
        hget st'.heap m = some { mcell with parent := some g }) ∧
      (∀ j, ¬ j = g → ¬ j = p → (∀ m, pcell.right = some m → ¬ j = m) →
        hget st'.heap j = hget st.heap j) := by
  have hmne : ∀ m, pcell.right = some m → ¬ m = g ∧ ¬ m = p := by
    intro m hmeq
    obtain ⟨mc, _, h1, h2⟩ := hm m hmeq
    exact ⟨h1, h2⟩
  have h2p : hget (parNode (setNode st g { gcell with left := pcell.right })
      pcell.right (some g)).heap p = some pcell := by
    show hget (parUpd (hset st.heap g { gcell with left := pcell.right })
      pcell.right (some g)) p = some pcell
    rw [hget_parUpd_other (fun m hmeq he => (hmne m hmeq).2 he.symm)]
    rw [hget_hset_ne _ (fun he => hpg he.symm)]
    exact hp
  have h3g : hget (rr2Mid st g p gcell pcell).heap g =
      some { gcell with left := pcell.right } := by
    show hget (hset (parNode (setNode st g { gcell with left := pcell.right })
      pcell.right (some g)).heap p { pcell with right := some g }) g = _
    rw [hget_hset_ne _ hpg]
    show hget (parUpd (hset st.heap g { gcell with left := pcell.right })
      pcell.right (some g)) g = _
    rw [hget_parUpd_other (fun m hmeq he => (hmne m hmeq).1 he.symm)]
    exact hget_hset_self hg
  have h3p : hget (rr2Mid st g p gcell pcell).heap p =
      some { pcell with right := some g } := hget_hset_self h2p
  obtain ⟨hrun, hsz, hnx, hfr, hrt, hgc, hpc, hout⟩ :=
    @rotateLink_run_root _ cmp _ _ _ _ _ h3g
      (show ({ gcell with left := pcell.right } : NRec α).parent = none
        from hgp) h3p hpg
  refine ⟨setNode (rlkRoot (rr2Mid st g p gcell pcell) g p
      { gcell with left := pcell.right } { pcell with right := some g }) g
      { gcell with color := Color.RED, left := pcell.right, parent := some p },
    ?_, rfl, rfl, rfl, rfl, ?_, ?_, ?_, ?_⟩
  · have hbm : ∀ m, pcell.right = some m →
        (hget (setNode st g { gcell with left := pcell.right }).heap m).isSome
          = true := by
      intro m hmeq
      obtain ⟨mcell, hmc, hmg, _⟩ := hm m hmeq
      show (hget (hset st.heap g { gcell with left := pcell.right }) m).isSome
        = true
      rw [hget_hset_ne _ (fun he => hmg he.symm), hmc]
      rfl
    have e1 : rotateRight2 cmp st node =
        ubBind (getParent st (some node)) (fun parentPtr =>
          ubBind (getParent st parentPtr) (fun gpPtr =>
            ubBind (ptr gpPtr) (fun gi =>
              ubBind (ptr parentPtr) (fun pi =>
                ubBind (getN st pi) (fun p0 =>
                  ubBind (setLeft st gi p0.right) (fun st1 =>
                    ubBind (setParentIf st1 p0.right (some gi)) (fun st2 =>
                      ubBind (setRight st2 pi (some gi)) (fun st3 =>
                        ubBind (rotateLink cmp st3 gi pi) (fun stp =>
                          setColor stp gi Color.RED))))))))) := rfl
    rw [e1, show getParent st (some node) = some ncell.parent from by
      show ubBind (getN st node) (fun n0 => some n0.parent) =
        some ncell.parent
      rw [show getN st node = some ncell from hn]
      rfl]
    simp only [ubBind_some]
    rw [hnp]
    rw [show getParent st (some p) = some pcell.parent from by
      show ubBind (getN st p) (fun n0 => some n0.parent) = some pcell.parent
      rw [show getN st p = some pcell from hp]
      rfl]
    simp only [ubBind_some]
    conv_lhs => rw [hpg2]
    rw [show (ptr (some g) : UB Nat) = some g from rfl]
    simp only [ubBind_some]
    rw [show (ptr (some p) : UB Nat) = some p from rfl]
    simp only [ubBind_some]
    rw [show getN st p = some pcell from hp]
    simp only [ubBind_some]
    rw [show setLeft st g pcell.right =
      some (setNode st g { gcell with left := pcell.right }) from by
        unfold setLeft
        rw [hg]
        rfl]
    simp only [ubBind_some]
    rw [show setParentIf (setNode st g { gcell with left := pcell.right })
        pcell.right (some g) =
      some (parNode (setNode st g { gcell with left := pcell.right })
        pcell.right (some g)) from setParentIf_run hbm]
    simp only [ubBind_some]
    rw [show setRight (parNode (setNode st g
        { gcell with left := pcell.right }) pcell.right (some g)) p (some g) =
      some (rr2Mid st g p gcell pcell) from by
        unfold setRight
        rw [h2p]
        rfl]
    simp only [ubBind_some]
    rw [hrun]
    simp only [ubBind_some]
    unfold setColor
    rw [hgc]
    rfl
  · show hget (hset (rlkRoot (rr2Mid st g p gcell pcell) g p
      { gcell with left := pcell.right } { pcell with right := some g }).heap g
      { gcell with color := Color.RED, left := pcell.right, parent := some p })
      g = _
    exact hget_hset_self hgc
  · show hget (hset (rlkRoot (rr2Mid st g p gcell pcell) g p
      { gcell with left := pcell.right } { pcell with right := some g }).heap g
      { gcell with color := Color.RED, left := pcell.right, parent := some p })
      p = _
    rw [hget_hset_ne _ (fun he => hpg he.symm)]
    exact hpc
  · intro m mcell hmeq hmc
    obtain ⟨mcell2, hmc2, hmg, hmp⟩ := hm m hmeq
    cases Option.some.inj (hmc2.symm.trans hmc)
    show hget (hset (rlkRoot (rr2Mid st g p gcell pcell) g p
      { gcell with left := pcell.right } { pcell with right := some g }).heap g
      { gcell with color := Color.RED, left := pcell.right, parent := some p })
      m = _
    rw [hget_hset_ne _ (fun he => hmg he.symm)]
    rw [hout m hmg hmp]
    show hget (hset (parNode (setNode st g
      { gcell with left := pcell.right }) pcell.right (some g)).heap p
      { pcell with right := some g }) m = _
    rw [hget_hset_ne _ (fun he => hmp he.symm)]
    show hget (parUpd (hset st.heap g { gcell with left := pcell.right })
      pcell.right (some g)) m = _
    rw [hmeq]
    exact hget_parUpd_self (by
      rw [hget_hset_ne _ (fun he => hmg he.symm)]
      exact hmc2)
  · intro j hjg hjp hjm
    show hget (hset (rlkRoot (rr2Mid st g p gcell pcell) g p
      { gcell with left := pcell.right } { pcell with right := some g }).heap g
      { gcell with color := Color.RED, left := pcell.right, parent := some p })
      j = _
    rw [hget_hset_ne _ (fun he => hjg he.symm)]
    rw [hout j hjg hjp]
    show hget (hset (parNode (setNode st g
      { gcell with left := pcell.right }) pcell.right (some g)).heap p
      { pcell with right := some g }) j = _
    rw [hget_hset_ne _ (fun he => hjp he.symm)]
    show hget (parUpd (hset st.heap g { gcell with left := pcell.right })
      pcell.right (some g)) j = _
    rw [hget_parUpd_other (fun m hmeq he => hjm m hmeq he)]
    exact hget_hset_ne _ (fun he => hjg he.symm)

/-- Forward execution of `rotateRight2` in the left-of-left configuration
when the pivot `g` has a parent `pp`: the comparator test on `pp->left`
decides the relink side, the root pointer is untouched, and `g` is recolored
RED. -/
theorem rotateRight2_run_frame {α : Type} {cmp : α → α → Int} {st : RBState α}
    {node p g pp x : Nat} {ncell pcell gcell ppcell xcell4 : NRec α}
    (hn : hget st.heap node = some ncell)
    (hnp : ncell.parent = some p)
    (hp : hget st.heap p = some pcell)
    (hpg2 : pcell.parent = some g)
    (hg : hget st.heap g = some gcell)
    (hpg : ¬ p = g)
    (hm : ∀ m, pcell.right = some m → ∃ mcell, hget st.heap m = some mcell ∧
      ¬ m = g ∧ ¬ m = p)
    (hgp : gcell.parent = some pp)
    (hpp : hget st.heap pp = some ppcell)
    (hppg : ¬ pp = g) (hppp : ¬ pp = p)
    (hppm : ∀ m, pcell.right = some m → ¬ pp = m)
    (hppl : ppcell.left = some x)
    (hx4 : (x = g ∧ xcell4 = { gcell with left := pcell.right }) ∨
      ((¬ x = g ∧ ¬ x = p ∧ (∀ m, pcell.right = some m → ¬ x = m)) ∧
        hget st.heap x = some xcell4)) :
    ∃ st', rotateRight2 cmp st node = some st' ∧
      st'.size = st.size ∧ st'.next = st.next ∧ st'.freed = st.freed ∧
      st'.root = st.root ∧
      hget st'.heap g =
        some { gcell with color := Color.RED, left := pcell.right, parent := some p } ∧
      hget st'.heap p =
        some { pcell with right := some g, parent := some pp } ∧
      (∀ m mcell, pcell.right = some m → hget st.heap m = some mcell →
        hget st'.heap m = some { mcell with parent := some g }) ∧
      hget st'.heap pp = some (if cmp xcell4.data gcell.data == 0 then
        { ppcell with left := some p } else { ppcell with right := some p }) ∧
      (∀ j, ¬ j = g → ¬ j = p → (∀ m, pcell.right = some m → ¬ j = m) →
        ¬ j = pp → hget st'.heap j = hget st.heap j) := by
  have hmne : ∀ m, pcell.right = some m → ¬ m = g ∧ ¬ m = p := by
    intro m hmeq
    obtain ⟨mc, _, h1, h2⟩ := hm m hmeq
    exact ⟨h1, h2⟩
  have h2p : hget (parNode (setNode st g { gcell with left := pcell.right })
      pcell.right (some g)).heap p = some pcell := by
    show hget (parUpd (hset st.heap g { gcell with left := pcell.right })
      pcell.right (some g)) p = some pcell
    rw [hget_parUpd_other (fun m hmeq he => (hmne m hmeq).2 he.symm)]
    rw [hget_hset_ne _ (fun he => hpg he.symm)]
    exact hp
  have h3g : hget (rr2Mid st g p gcell pcell).heap g =
      some { gcell with left := pcell.right } := by
    show hget (hset (parNode (setNode st g { gcell with left := pcell.right })
      pcell.right (some g)).heap p { pcell with right := some g }) g = _
    rw [hget_hset_ne _ hpg]
    show hget (parUpd (hset st.heap g { gcell with left := pcell.right })
      pcell.right (some g)) g = _
    rw [hget_parUpd_other (fun m hmeq he => (hmne m hmeq).1 he.symm)]
    exact hget_hset_self hg
  have h3p : hget (rr2Mid st g p gcell pcell).heap p =
      some { pcell with right := some g } := hget_hset_self h2p
  have h3pp : hget (rr2Mid st g p gcell pcell).heap pp = some ppcell := by
    show hget (hset (parNode (setNode st g { gcell with left := pcell.right })
      pcell.right (some g)).heap p { pcell with right := some g }) pp = _
    rw [hget_hset_ne _ (fun he => hppp he.symm)]
    show hget (parUpd (hset st.heap g { gcell with left := pcell.right })
      pcell.right (some g)) pp = _
    rw [hget_parUpd_other (fun m hmeq he => hppm m hmeq he)]
    rw [hget_hset_ne _ (fun he => hppg he.symm)]
    exact hpp
  have h3x : hget (rr2Mid st g p gcell pcell).heap x = some xcell4 := by
    rcases hx4 with ⟨hxg, hxc⟩ | ⟨⟨hxng, hxnp, hxnm⟩, hxc⟩
    · subst hxg
      rw [hxc]
      exact h3g
    · show hget (hset (parNode (setNode st g
        { gcell with left := pcell.right }) pcell.right (some g)).heap p
        { pcell with right := some g }) x = _
      rw [hget_hset_ne _ (fun he => hxnp he.symm)]
      show hget (parUpd (hset st.heap g { gcell with left := pcell.right })
        pcell.right (some g)) x = _
      rw [hget_parUpd_other (fun m hmeq he => hxnm m hmeq he)]
      rw [hget_hset_ne _ (fun he => hxng he.symm)]
      exact hxc
  obtain ⟨hrun, hfacts⟩ :=
    @rotateLink_run_frame _ cmp _ _ _ _ _ _ _ _ _ h3g
      (show ({ gcell with left := pcell.right } : NRec α).parent = some pp
        from hgp) h3p hpg h3pp hppg hppp hppl h3x
  obtain ⟨hsz, hnx, hfr, hrt, hgc, hpc, hppc, hout⟩ :=
    hfacts (if cmp xcell4.data gcell.data == 0 then
      { ppcell with left := some p } else { ppcell with right := some p })
  refine ⟨setNode (rlkFrame (rr2Mid st g p gcell pcell) g p pp
      { gcell with left := pcell.right } { pcell with right := some g }
      (if cmp xcell4.data gcell.data == 0 then
        { ppcell with left := some p } else { ppcell with right := some p }))
      g
      { gcell with color := Color.RED, left := pcell.right, parent := some p },
    ?_, rfl, rfl, rfl, rfl, ?_, ?_, ?_, ?_, ?_⟩
  · have hbm : ∀ m, pcell.right = some m →
        (hget (setNode st g { gcell with left := pcell.right }).heap m).isSome
          = true := by
      intro m hmeq
      obtain ⟨mcell, hmc, hmg, _⟩ := hm m hmeq
      show (hget (hset st.heap g { gcell with left := pcell.right }) m).isSome
        = true
      rw [hget_hset_ne _ (fun he => hmg he.symm), hmc]
      rfl
    have e1 : rotateRight2 cmp st node =
        ubBind (getParent st (some node)) (fun parentPtr =>
          ubBind (getParent st parentPtr) (fun gpPtr =>
            ubBind (ptr gpPtr) (fun gi =>
              ubBind (ptr parentPtr) (fun pi =>
                ubBind (getN st pi) (fun p0 =>
                  ubBind (setLeft st gi p0.right) (fun st1 =>
                    ubBind (setParentIf st1 p0.right (some gi)) (fun st2 =>
                      ubBind (setRight st2 pi (some gi)) (fun st3 =>
                        ubBind (rotateLink cmp st3 gi pi) (fun stp =>
                          setColor stp gi Color.RED))))))))) := rfl
    rw [e1, show getParent st (some node) = some ncell.parent from by
      show ubBind (getN st node) (fun n0 => some n0.parent) =
        some ncell.parent
      rw [show getN st node = some ncell from hn]
      rfl]
    simp only [ubBind_some]
    rw [hnp]
    rw [show getParent st (some p) = some pcell.parent from by
      show ubBind (getN st p) (fun n0 => some n0.parent) = some pcell.parent
      rw [show getN st p = some pcell from hp]
      rfl]
    simp only [ubBind_some]
    conv_lhs => rw [hpg2]
    rw [show (ptr (some g) : UB Nat) = some g from rfl]
    simp only [ubBind_some]
    rw [show (ptr (some p) : UB Nat) = some p from rfl]
    simp only [ubBind_some]
    rw [show getN st p = some pcell from hp]
    simp only [ubBind_some]
    rw [show setLeft st g pcell.right =
      some (setNode st g { gcell with left := pcell.right }) from by
        unfold setLeft
        rw [hg]
        rfl]
    simp only [ubBind_some]
    rw [show setParentIf (setNode st g { gcell with left := pcell.right })
        pcell.right (some g) =
      some (parNode (setNode st g { gcell with left := pcell.right })
        pcell.right (some g)) from setParentIf_run hbm]
    simp only [ubBind_some]
    rw [show setRight (parNode (setNode st g
        { gcell with left := pcell.right }) pcell.right (some g)) p (some g) =
      some (rr2Mid st g p gcell pcell) from by
        unfold setRight
        rw [h2p]
        rfl]
    simp only [ubBind_some]
    rw [hrun]
    simp only [ubBind_some]
    unfold setColor
    rw [hgc]
    rfl
  · show hget (hset (rlkFrame (rr2Mid st g p gcell pcell) g p pp
      { gcell with left := pcell.right } { pcell with right := some g }
      (if cmp xcell4.data gcell.data == 0 then
        { ppcell with left := some p }
      else { ppcell with right := some p })).heap g
      { gcell with color := Color.RED, left := pcell.right, parent := some p })
      g = _
    exact hget_hset_self hgc
  · show hget (hset (rlkFrame (rr2Mid st g p gcell pcell) g p pp
      { gcell with left := pcell.right } { pcell with right := some g }
      (if cmp xcell4.data gcell.data == 0 then
        { ppcell with left := some p }
      else { ppcell with right := some p })).heap g
      { gcell with color := Color.RED, left := pcell.right, parent := some p })
      p = _
    rw [hget_hset_ne _ (fun he => hpg he.symm)]
    exact hpc
  · intro m mcell hmeq hmc
    obtain ⟨mcell2, hmc2, hmg, hmp⟩ := hm m hmeq
    cases Option.some.inj (hmc2.symm.trans hmc)
    show hget (hset (rlkFrame (rr2Mid st g p gcell pcell) g p pp
      { gcell with left := pcell.right } { pcell with right := some g }
      (if cmp xcell4.data gcell.data == 0 then
        { ppcell with left := some p }
      else { ppcell with right := some p })).heap g
      { gcell with color := Color.RED, left := pcell.right, parent := some p })
      m = _
    rw [hget_hset_ne _ (fun he => hmg he.symm)]
    rw [hout m hmg hmp (fun he => hppm m hmeq he.symm)]
    show hget (hset (parNode (setNode st g
      { gcell with left := pcell.right }) pcell.right (some g)).heap p
      { pcell with right := some g }) m = _
    rw [hget_hset_ne _ (fun he => hmp he.symm)]
    show hget (parUpd (hset st.heap g { gcell with left := pcell.right })
      pcell.right (some g)) m = _
    rw [hmeq]
    exact hget_parUpd_self (by
      rw [hget_hset_ne _ (fun he => hmg he.symm)]
      exact hmc2)
  · show hget (hset (rlkFrame (rr2Mid st g p gcell pcell) g p pp
      { gcell with left := pcell.right } { pcell with right := some g }
      (if cmp xcell4.data gcell.data == 0 then
        { ppcell with left := some p }
      else { ppcell with right := some p })).heap g
      { gcell with color := Color.RED, left := pcell.right, parent := some p })
      pp = _
    rw [hget_hset_ne _ (fun he => hppg he.symm)]
    exact hppc
  · intro j hjg hjp hjm hjpp
    show hget (hset (rlkFrame (rr2Mid st g p gcell pcell) g p pp
      { gcell with left := pcell.right } { pcell with right := some g }
      (if cmp xcell4.data gcell.data == 0 then
        { ppcell with left := some p }
      else { ppcell with right := some p })).heap g
      { gcell with color := Color.RED, left := pcell.right, parent := some p })
      j = _
    rw [hget_hset_ne _ (fun he => hjg he.symm)]
    rw [hout j hjg hjp hjpp]
    show hget (hset (parNode (setNode st g
      { gcell with left := pcell.right }) pcell.right (some g)).heap p
      { pcell with right := some g }) j = _
    rw [hget_hset_ne _ (fun he => hjp he.symm)]
    show hget (parUpd (hset st.heap g { gcell with left := pcell.right })
      pcell.right (some g)) j = _
    rw [hget_parUpd_other (fun m hmeq he => hjm m hmeq he)]
    exact hget_hset_ne _ (fun he => hjg he.symm)

theorem two_le_length_of_mem {β : Type} {a b : β} {l : List β}
    (ha : a ∈ l) (hb : b ∈ l) (hab : ¬ a = b) : 2 ≤ l.length := by
  cases l with
  | nil => exact absurd ha (List.not_mem_nil a)
  | cons x t =>
    cases t with
    | nil =>
      rw [List.mem_singleton] at ha hb
      exact absurd (ha.trans hb.symm) hab
    | cons y u =>
      simp only [List.length_cons]
      omega

/-- Re-extraction of a left-rotated subtree: if the pivot `g` (old subtree
root, with left subtree `ta` and right child `s` over `tb` and `tc`) and `s`
have been relinked as a left rotation does, and every other subtree cell is
untouched up to parent pointers, the subtree now extracts from `s` with the
same elements in the same order and the same id set. -/
theorem rldAssemble {α : Type} {st st' : RBState α} {g s : Nat}
    {gcell scell : NRec α} {f2 : Nat} {ta tb tc : BT α}
    {idsa idsb idsc : List Nat} {pg' ps' : Option Nat} {cg' cs' : Color}
    (hA : extractIds st (f2+1) gcell.left = some (ta, idsa))
    (hB : extractIds st f2 scell.left = some (tb, idsb))
    (hC : extractIds st f2 scell.right = some (tc, idsc))
    (hGet : hget st'.heap g =
      some { gcell with color := cg', right := scell.left, parent := pg' })
    (hSet : hget st'.heap s =
      some { scell with color := cs', left := some g, parent := ps' })
    (hM : ∀ m mcell, scell.left = some m → hget st.heap m = some mcell →
      hget st'.heap m = some { mcell with parent := some g })
    (hO : ∀ j, j ∈ (g :: (idsa ++ (s :: (idsb ++ idsc)))) → ¬ j = g →
      ¬ j = s → (∀ m, scell.left = some m → ¬ j = m) →
      hget st'.heap j = hget st.heap j)
    (hndg : (g :: (idsa ++ (s :: (idsb ++ idsc)))).Nodup) :
    extractIds st' (max (max (f2+1) f2 + 1) f2 + 1) (some s) =
      some (BT.nd (BT.nd ta gcell.data cg' tb) scell.data cs' tc,
        s :: ((g :: (idsa ++ idsb)) ++ idsc)) ∧
    inorder (BT.nd (BT.nd ta gcell.data cg' tb) scell.data cs' tc) =
      inorder (BT.nd ta gcell.data gcell.color
        (BT.nd tb scell.data scell.color tc)) ∧
    (∀ j, j ∈ (s :: ((g :: (idsa ++ idsb)) ++ idsc)) ↔
      j ∈ (g :: (idsa ++ (s :: (idsb ++ idsc))))) ∧
    (s :: ((g :: (idsa ++ idsb)) ++ idsc)).Nodup := by
  -- unpack the Nodup structure
  rw [List.nodup_cons] at hndg
  obtain ⟨hgnot, hnd1⟩ := hndg
  rw [List.nodup_append] at hnd1
  obtain ⟨hnda, hnd2, hdisj1⟩ := hnd1
  rw [List.nodup_cons] at hnd2
  obtain ⟨hsnot, hnd3⟩ := hnd2
  rw [List.nodup_append] at hnd3
  obtain ⟨hndb, hndc, hdisj2⟩ := hnd3
  have hgna : ¬ g ∈ idsa := fun h =>
    hgnot (List.mem_append.mpr (Or.inl h))
  have hgnb : ¬ g ∈ idsb := fun h =>
    hgnot (List.mem_append.mpr (Or.inr (List.mem_cons.mpr
      (Or.inr (List.mem_append.mpr (Or.inl h))))))
  have hgnc : ¬ g ∈ idsc := fun h =>
    hgnot (List.mem_append.mpr (Or.inr (List.mem_cons.mpr
      (Or.inr (List.mem_append.mpr (Or.inr h))))))
  have hgs : ¬ g = s := fun h =>
    hgnot (List.mem_append.mpr (Or.inr (List.mem_cons.mpr (Or.inl h))))
  have hsna : ¬ s ∈ idsa := fun h =>
    hdisj1 h (List.mem_cons.mpr (Or.inl rfl))
  have hsnb : ¬ s ∈ idsb := fun h =>
    hsnot (List.mem_append.mpr (Or.inl h))
  have hsnc : ¬ s ∈ idsc := fun h =>
    hsnot (List.mem_append.mpr (Or.inr h))
  -- the moved middle child, if any, heads idsb
  have hmprops : ∀ m, scell.left = some m →
      ∃ mcell, hget st.heap m = some mcell ∧ m ∈ idsb := by
    intro m hmeq
    rw [hmeq] at hB
    cases f2 with
    | zero => exact absurd hB (by simp [extractIds])
    | succ f3 =>
      obtain ⟨mc, _, _, _, _, hmc, _, _, _, hide⟩ := extractIds_destr hB
      exact ⟨mc, hmc, by rw [hide]; exact List.mem_cons_self _ _⟩
  -- agreements
  have hAagree : ∀ j ∈ idsa, hget st'.heap j = hget st.heap j := by
    intro j hj
    refine hO j (List.mem_cons.mpr (Or.inr (List.mem_append.mpr (Or.inl hj))))
      (fun he => hgna (he ▸ hj)) (fun he => hsna (he ▸ hj)) ?_
    intro m hmeq he
    obtain ⟨_, _, hmb⟩ := hmprops m hmeq
    exact hdisj1 hj (List.mem_cons.mpr (Or.inr (List.mem_append.mpr
      (Or.inl (he ▸ hmb)))))
  have hCagree : ∀ j ∈ idsc, hget st'.heap j = hget st.heap j := by
    intro j hj
    refine hO j (List.mem_cons.mpr (Or.inr (List.mem_append.mpr (Or.inr
      (List.mem_cons.mpr (Or.inr (List.mem_append.mpr (Or.inr hj))))))))
      (fun he => hgnc (he ▸ hj)) (fun he => hsnc (he ▸ hj)) ?_
    intro m hmeq he
    obtain ⟨_, _, hmb⟩ := hmprops m hmeq
    exact hdisj2 (he ▸ hmb) hj
  have hBagree : ∀ j ∈ idsb,
      cellLR (hget st'.heap j) = cellLR (hget st.heap j) := by
    intro j hj
    rcases hBp : scell.left with _ | m
    · rw [hBp] at hB
      rw [extractIds_none] at hB
      have hinj := Option.some.inj hB
      rw [Prod.mk.injEq] at hinj
      rw [← hinj.2] at hj
      exact absurd hj (List.not_mem_nil j)
    · obtain ⟨mcell, hmc, hmb⟩ := hmprops m hBp
      by_cases hjm : j = m
      · subst hjm
        rw [hM j mcell hBp hmc, hmc]
        rfl
      · rw [hO j (List.mem_cons.mpr (Or.inr (List.mem_append.mpr (Or.inr
          (List.mem_cons.mpr (Or.inr (List.mem_append.mpr (Or.inl hj))))))))
          (fun he => hgnb (he ▸ hj)) (fun he => hsnb (he ▸ hj))
          (fun m2 hm2 he => hjm (he.trans
            (Option.some.inj (hBp ▸ hm2 : some m = some m2)).symm))]
  -- re-extract
  have hA2 := extractIds_agree hA hAagree
  have hB2 := extractIds_agreeLR hB hBagree
  have hC2 := extractIds_agree hC hCagree
  have hbg := extractIds_build hGet
    (show extractIds st' (f2+1)
      ({ gcell with color := cg', right := scell.left, parent := pg' } :
        NRec α).left = some (ta, idsa) from hA2)
    (show extractIds st' f2
      ({ gcell with color := cg', right := scell.left, parent := pg' } :
        NRec α).right = some (tb, idsb) from hB2)
  have hbs := extractIds_build hSet
    (show extractIds st' (max (f2+1) f2 + 1)
      ({ scell with color := cs', left := some g, parent := ps' } :
        NRec α).left =
      some (BT.nd ta gcell.data cg' tb, g :: (idsa ++ idsb)) from hbg)
    (show extractIds st' f2
      ({ scell with color := cs', left := some g, parent := ps' } :
        NRec α).right = some (tc, idsc) from hC2)
  refine ⟨hbs, ?_, ?_, ?_⟩
  · simp [inorder, List.append_assoc]
  · intro j
    simp only [List.mem_cons, List.mem_append]
    tauto
  · rw [List.nodup_cons, List.nodup_append, List.nodup_cons,
      List.nodup_append]
    refine ⟨?_, ⟨?_, hnda, hndb, ?_⟩, hndc, ?_⟩
    · intro hsmem
      rcases List.mem_append.mp hsmem with h1 | h2
      · rcases List.mem_cons.mp h1 with h3 | h4
        · exact hgs h3.symm
        · rcases List.mem_append.mp h4 with h5 | h6
          · exact hsna h5
          · exact hsnb h6
      · exact hsnc h2
    · intro hgmem
      rcases List.mem_append.mp hgmem with h1 | h2
      · exact hgna h1
      · exact hgnb h2
    · intro a ha hb
      exact hdisj1 ha (List.mem_cons.mpr (Or.inr (List.mem_append.mpr
        (Or.inl hb))))
    · intro a ha hb
      rcases List.mem_cons.mp ha with h1 | h2
      · exact hgnc (h1 ▸ hb)
      · rcases List.mem_append.mp h2 with h3 | h4
        · exact hdisj1 h3 (List.mem_cons.mpr (Or.inr (List.mem_append.mpr
            (Or.inr hb))))
        · exact hdisj2 h4 hb

/-- rotateLeftDelete applied to any pivot of a well-formed tree that has a
right child succeeds, preserves the in-order element sequence, the node id
set and the stored element count, and moves the root pointer to the promoted
child exactly when the pivot was the root. -/
theorem rotateLeftDelete_preserves {α : Type} {cmp : α → α → Int}
    (hrefl : ∀ a, cmp a a = 0)
    (hasym : ∀ a b, cmp a b < 0 → ¬ cmp b a = 0)
    (htr : ∀ a b c, cmp a b < 0 → cmp b c < 0 → cmp a c < 0)
    {st : RBState α} {fuel : Nat} {t : BT α} {ids : List Nat} {g s : Nat}
    {gcell : NRec α}
    (hx : extractIds st fuel st.root = some (t, ids))
    (hnd : ids.Nodup)
    (hpo : parsOk st fuel st.root none = true)
    (hrb : rbInv cmp t = true)
    (hgin : g ∈ ids)
    (hgc0 : hget st.heap g = some gcell)
    (hgr : gcell.right = some s) :
    ∃ st' F t' ids',
      rotateLeftDelete cmp st g = some st' ∧
      extractIds st' F st'.root = some (t', ids') ∧
      inorder t' = inorder t ∧
      btSize t' = btSize t ∧
      (∀ j, j ∈ ids' ↔ j ∈ ids) ∧
      ids'.Nodup ∧
      st'.size = st.size ∧
      (gcell.parent = none → st'.root = some s) ∧
      (¬ gcell.parent = none → st'.root = st.root) := by
  have hrb' := hrb
  unfold rbInv at hrb'
  rw [Bool.and_eq_true, Bool.and_eq_true, Bool.and_eq_true] at hrb'
  obtain ⟨⟨⟨_, hnr⟩, hbh⟩, hasc⟩ := hrb'
  have hpw := pairwise_of_ascending htr hasc
  obtain ⟨gcell', tg, idsg, hgc, hxg, hsubids, hndg, hnrg, hbhg, hpwg,
    hframe⟩ := locatePivot hx hnd hpo hnr hbh hpw g hgin
  cases Option.some.inj (hgc0.symm.trans hgc)
  cases fuel with
  | zero => exact absurd hxg (by simp [extractIds])
  | succ f =>
  obtain ⟨ng, ta, idsa, tsr, idssr, hng, hA, hS0, htg, hidsgE⟩ :=
    extractIds_destr hxg
  cases Option.some.inj (hng.symm.trans hgc)
  rw [hgr] at hS0
  cases f with
  | zero => exact absurd hS0 (by simp [extractIds])
  | succ f2 =>
  obtain ⟨scell, tb, idsb, tc, idsc, hsc, hB, hC, htsr, hidssrE⟩ :=
    extractIds_destr hS0
  subst htg
  subst htsr
  subst hidsgE
  subst hidssrE
  -- membership helpers inside the pivot's id list
  have hgmem : g ∈ (g :: (idsa ++ (s :: (idsb ++ idsc)))) :=
    List.mem_cons_self _ _
  have hsmem : s ∈ (g :: (idsa ++ (s :: (idsb ++ idsc)))) :=
    List.mem_cons.mpr (Or.inr (List.mem_append.mpr (Or.inr
      (List.mem_cons.mpr (Or.inl rfl)))))
  have hbmem : ∀ m, m ∈ idsb → m ∈ (g :: (idsa ++ (s :: (idsb ++ idsc)))) :=
    fun m hmb => List.mem_cons.mpr (Or.inr (List.mem_append.mpr (Or.inr
      (List.mem_cons.mpr (Or.inr (List.mem_append.mpr (Or.inl hmb)))))))
  have hgnot : ¬ g ∈ (idsa ++ (s :: (idsb ++ idsc))) :=
    (List.nodup_cons.mp hndg).1
  have hsg : ¬ s = g := fun he => hgnot (List.mem_append.mpr (Or.inr
    (List.mem_cons.mpr (Or.inl he.symm))))
  have hsnotbc : ¬ s ∈ (idsb ++ idsc) :=
    (List.nodup_cons.mp ((List.nodup_append.mp
      (List.nodup_cons.mp hndg).2).2.1)).1
  have hmBoth : ∀ m, scell.left = some m →
      ∃ mcell, hget st.heap m = some mcell ∧ m ∈ idsb := by
    intro m hmeq
    have hB2 := hB
    rw [hmeq] at hB2
    cases f2 with
    | zero => exact absurd hB2 (by simp [extractIds])
    | succ f3 =>
      obtain ⟨mc, _, _, _, _, hmc, _, _, _, hide⟩ := extractIds_destr hB2
      exact ⟨mc, hmc, by rw [hide]; exact List.mem_cons_self _ _⟩
  have hm : ∀ m, scell.left = some m →
      ∃ mcell, hget st.heap m = some mcell ∧ ¬ m = g ∧ ¬ m = s := by
    intro m hmeq
    obtain ⟨mc, hmc, hmb⟩ := hmBoth m hmeq
    refine ⟨mc, hmc, ?_, ?_⟩
    · exact fun he => hgnot (List.mem_append.mpr (Or.inr (List.mem_cons.mpr
        (Or.inr (List.mem_append.mpr (Or.inl (he ▸ hmb)))))))
    · exact fun he => hsnotbc (List.mem_append.mpr (Or.inl (he ▸ hmb)))
  rcases hframe with ⟨hparg, hroot, htg0, hidsg0⟩ |
    ⟨pp, ppcell, hgp, hppin, hppnidsg, hppc, hside⟩
  · -- the pivot is the whole tree's root
    obtain ⟨st', hrun, hsz, _, _, hrt, hGet, hSet, hM, hO⟩ :=
      @rotateLeftDelete_run_root α cmp st g s gcell scell hgc hgr hsc hsg
        hm hparg
    obtain ⟨hEx, hIno, hMem, hNd⟩ := rldAssemble hA hB hC hGet hSet hM
      (fun j _ h1 h2 h3 => hO j h1 h2 h3) hndg
    refine ⟨st', max (max (f2+1) f2 + 1) f2 + 1,
      BT.nd (BT.nd ta gcell.data gcell.color tb) scell.data scell.color tc,
      s :: ((g :: (idsa ++ idsb)) ++ idsc), hrun, ?_, ?_, ?_, ?_, hNd, hsz,
      ?_, ?_⟩
    · rw [hrt]
      exact hEx
    · rw [hIno, htg0]
    · rw [btSize_eq_inorder_length, btSize_eq_inorder_length, hIno, htg0]
    · intro j
      rw [← hidsg0]
      exact hMem j
    · exact fun _ => hrt
    · exact fun hne => absurd hparg hne
  · -- the pivot hangs under a parent frame
    have hppg : ¬ pp = g := fun he => hppnidsg (he.symm ▸ hgmem)
    have hpps : ¬ pp = s := fun he => hppnidsg (he.symm ▸ hsmem)
    have hppmm : ∀ m, scell.left = some m → ¬ pp = m := by
      intro m hmeq he
      obtain ⟨_, _, hmb⟩ := hmBoth m hmeq
      exact hppnidsg (he.symm ▸ hbmem m hmb)
    rcases hside with ⟨hppl, hcont⟩ | ⟨hppr, hbhf, hxf, hcont⟩
    · -- pivot is the parent's left child: the relink test compares g to g
      obtain ⟨st', hrun, hsz, _, _, hrt, hGet, hSet, hM, hPP, hO⟩ :=
        @rotateLeftDelete_run_frame α cmp st g s pp g gcell scell ppcell
          ({ gcell with right := scell.left }) hgc hgr hsc hsg hm hgp hppc
          hppg hpps hppmm hppl (Or.inl ⟨rfl, rfl⟩)
      have hcond : (cmp gcell.data
          ({ gcell with right := scell.left } : NRec α).data == 0) = true := by
        show (cmp gcell.data gcell.data == 0) = true
        rw [hrefl]
        rfl
      rw [if_pos hcond] at hPP
      obtain ⟨hEx, hIno, hMem, hNd⟩ := rldAssemble hA hB hC hGet hSet hM
        (fun j hjmem h1 h2 h3 => hO j h1 h2 h3
          (fun he => hppnidsg (he.symm ▸ hjmem))) hndg
      have hOut : ∀ j, ¬ j ∈ (g :: (idsa ++ (s :: (idsb ++ idsc)))) →
          ¬ j = pp → hget st'.heap j = hget st.heap j := by
        intro j hj hjpp
        refine hO j (fun he => hj (he.symm ▸ hgmem))
          (fun he => hj (he.symm ▸ hsmem)) ?_ hjpp
        intro m hmeq he
        obtain ⟨_, _, hmb⟩ := hmBoth m hmeq
        exact hj (he.symm ▸ hbmem m hmb)
      obtain ⟨F, t2, ids2, hEx2, hIno2, hMem2, hNd2⟩ :=
        hcont st' (some s) _ _ _ hEx hIno hMem hNd hOut hPP
      refine ⟨st', F, t2, ids2, hrun, ?_, hIno2, ?_, hMem2, hNd2, hsz,
        ?_, ?_⟩
      · rw [hrt]
        exact hEx2
      · rw [btSize_eq_inorder_length, btSize_eq_inorder_length, hIno2]
      · exact fun he => absurd (hgp.symm.trans he) (by simp)
      · exact fun _ => hrt
    · -- pivot is the parent's right child: the parent's left child exists
      -- (the subtree has black height at least two) and compares below g
      obtain ⟨hgB, hbhEq, hbhOne⟩ := hbhf
      have hs2 : 2 ≤ btSize (BT.nd ta gcell.data gcell.color
          (BT.nd tb scell.data scell.color tc)) := by
        have hlen := extractIds_length hxg
        have h2 := two_le_length_of_mem hgmem hsmem
          (fun he => hsg he.symm)
        omega
      have hge2 := blackH_ge_two hnrg hbhEq hs2
      cases hpplx : ppcell.left with
      | none =>
        have := hbhOne hpplx
        omega
      | some x =>
      obtain ⟨xcell, hxc, hxlt, hxnidsg⟩ := hxf x hpplx
      obtain ⟨st', hrun, hsz, _, _, hrt, hGet, hSet, hM, hPP, hO⟩ :=
        @rotateLeftDelete_run_frame α cmp st g s pp x gcell scell ppcell
          xcell hgc hgr hsc hsg hm hgp hppc hppg hpps hppmm hpplx
          (Or.inr ⟨⟨fun he => hxnidsg (he.symm ▸ hgmem),
            fun he => hxnidsg (he.symm ▸ hsmem),
            fun m hmeq he => by
              obtain ⟨_, _, hmb⟩ := hmBoth m hmeq
              exact hxnidsg (he.symm ▸ hbmem m hmb)⟩, hxc⟩)
      have hcond : ¬ (cmp gcell.data xcell.data == 0) = true :=
        fun hc => hasym xcell.data gcell.data hxlt (beq_iff_eq.mp hc)
      rw [if_neg hcond] at hPP
      obtain ⟨hEx, hIno, hMem, hNd⟩ := rldAssemble hA hB hC hGet hSet hM
        (fun j hjmem h1 h2 h3 => hO j h1 h2 h3
          (fun he => hppnidsg (he.symm ▸ hjmem))) hndg
      have hOut : ∀ j, ¬ j ∈ (g :: (idsa ++ (s :: (idsb ++ idsc)))) →
          ¬ j = pp → hget st'.heap j = hget st.heap j := by
        intro j hj hjpp
        refine hO j (fun he => hj (he.symm ▸ hgmem))
          (fun he => hj (he.symm ▸ hsmem)) ?_ hjpp
        intro m hmeq he
        obtain ⟨_, _, hmb⟩ := hmBoth m hmeq
        exact hj (he.symm ▸ hbmem m hmb)
      obtain ⟨F, t2, ids2, hEx2, hIno2, hMem2, hNd2⟩ :=
        hcont st' (some s) _ _ _ hEx hIno hMem hNd hOut hPP
      refine ⟨st', F, t2, ids2, hrun, ?_, hIno2, ?_, hMem2, hNd2, hsz,
        ?_, ?_⟩
      · rw [hrt]
        exact hEx2
      · rw [btSize_eq_inorder_length, btSize_eq_inorder_length, hIno2]
      · exact fun he => absurd (hgp.symm.trans he) (by simp)
      · exact fun _ => hrt

/-- Mirror of rldAssemble for right rotations: re-extraction of the rotated
subtree from the promoted left child `s`. -/
theorem rrdAssemble {α : Type} {st st' : RBState α} {g s : Nat}
    {gcell scell : NRec α} {f2 : Nat} {ta tb tc : BT α}
    {idsa idsb idsc : List Nat} {pg' ps' : Option Nat} {cg' cs' : Color}
    (hA : extractIds st (f2+1) gcell.right = some (ta, idsa))
    (hB : extractIds st f2 scell.left = some (tb, idsb))
    (hC : extractIds st f2 scell.right = some (tc, idsc))
    (hGet : hget st'.heap g =
      some { gcell with color := cg', left := scell.right, parent := pg' })
    (hSet : hget st'.heap s =
      some { scell with color := cs', right := some g, parent := ps' })
    (hM : ∀ m mcell, scell.right = some m → hget st.heap m = some mcell →
      hget st'.heap m = some { mcell with parent := some g })
    (hO : ∀ j, j ∈ (g :: ((s :: (idsb ++ idsc)) ++ idsa)) → ¬ j = g →
      ¬ j = s → (∀ m, scell.right = some m → ¬ j = m) →
      hget st'.heap j = hget st.heap j)
    (hndg : (g :: ((s :: (idsb ++ idsc)) ++ idsa)).Nodup) :
    extractIds st' (max f2 (max f2 (f2+1) + 1) + 1) (some s) =
      some (BT.nd tb scell.data cs' (BT.nd tc gcell.data cg' ta),
        s :: (idsb ++ (g :: (idsc ++ idsa)))) ∧
    inorder (BT.nd tb scell.data cs' (BT.nd tc gcell.data cg' ta)) =
      inorder (BT.nd (BT.nd tb scell.data scell.color tc)
        gcell.data gcell.color ta) ∧
    (∀ j, j ∈ (s :: (idsb ++ (g :: (idsc ++ idsa)))) ↔
      j ∈ (g :: ((s :: (idsb ++ idsc)) ++ idsa))) ∧
    (s :: (idsb ++ (g :: (idsc ++ idsa)))).Nodup := by
  -- unpack the Nodup structure
  rw [List.nodup_cons] at hndg
  obtain ⟨hgnot, hnd1⟩ := hndg
  rw [List.nodup_append] at hnd1
  obtain ⟨hnd2, hnda, hdisj1⟩ := hnd1
  rw [List.nodup_cons] at hnd2
  obtain ⟨hsnot, hnd3⟩ := hnd2
  rw [List.nodup_append] at hnd3
  obtain ⟨hndb, hndc, hdisj2⟩ := hnd3
  have hgna : ¬ g ∈ idsa := fun h =>
    hgnot (List.mem_append.mpr (Or.inr h))
  have hgnb : ¬ g ∈ idsb := fun h =>
    hgnot (List.mem_append.mpr (Or.inl (List.mem_cons.mpr
      (Or.inr (List.mem_append.mpr (Or.inl h))))))
  have hgnc : ¬ g ∈ idsc := fun h =>
    hgnot (List.mem_append.mpr (Or.inl (List.mem_cons.mpr
      (Or.inr (List.mem_append.mpr (Or.inr h))))))
  have hgs : ¬ g = s := fun h =>
    hgnot (List.mem_append.mpr (Or.inl (List.mem_cons.mpr (Or.inl h))))
  have hsna : ¬ s ∈ idsa := fun h =>
    hdisj1 (List.mem_cons.mpr (Or.inl rfl)) h
  have hsnb : ¬ s ∈ idsb := fun h =>
    hsnot (List.mem_append.mpr (Or.inl h))
  have hsnc : ¬ s ∈ idsc := fun h =>
    hsnot (List.mem_append.mpr (Or.inr h))
  -- the moved middle child, if any, heads idsc
  have hmprops : ∀ m, scell.right = some m →
      ∃ mcell, hget st.heap m = some mcell ∧ m ∈ idsc := by
    intro m hmeq
    rw [hmeq] at hC
    cases f2 with
    | zero => exact absurd hC (by simp [extractIds])
    | succ f3 =>
      obtain ⟨mc, _, _, _, _, hmc, _, _, _, hide⟩ := extractIds_destr hC
      exact ⟨mc, hmc, by rw [hide]; exact List.mem_cons_self _ _⟩
  -- agreements
  have hAagree : ∀ j ∈ idsa, hget st'.heap j = hget st.heap j := by
    intro j hj
    refine hO j (List.mem_cons.mpr (Or.inr (List.mem_append.mpr (Or.inr hj))))
      (fun he => hgna (he ▸ hj)) (fun he => hsna (he ▸ hj)) ?_
    intro m hmeq he
    obtain ⟨_, _, hmb⟩ := hmprops m hmeq
    exact hdisj1 (List.mem_cons.mpr (Or.inr (List.mem_append.mpr
      (Or.inr (he ▸ hmb))))) hj
  have hBagree : ∀ j ∈ idsb, hget st'.heap j = hget st.heap j := by
    intro j hj
    refine hO j (List.mem_cons.mpr (Or.inr (List.mem_append.mpr (Or.inl
      (List.mem_cons.mpr (Or.inr (List.mem_append.mpr (Or.inl hj))))))))
      (fun he => hgnb (he ▸ hj)) (fun he => hsnb (he ▸ hj)) ?_
    intro m hmeq he
    obtain ⟨_, _, hmb⟩ := hmprops m hmeq
    exact hdisj2 hj (he ▸ hmb)
  have hCagree : ∀ j ∈ idsc,
      cellLR (hget st'.heap j) = cellLR (hget st.heap j) := by
    intro j hj
    rcases hCp : scell.right with _ | m
    · rw [hCp] at hC
      rw [extractIds_none] at hC
      have hinj := Option.some.inj hC
      rw [Prod.mk.injEq] at hinj
      rw [← hinj.2] at hj
      exact absurd hj (List.not_mem_nil j)
    · obtain ⟨mcell, hmc, hmb⟩ := hmprops m hCp
      by_cases hjm : j = m
      · subst hjm
        rw [hM j mcell hCp hmc, hmc]
        rfl
      · rw [hO j (List.mem_cons.mpr (Or.inr (List.mem_append.mpr (Or.inl
          (List.mem_cons.mpr (Or.inr (List.mem_append.mpr (Or.inr hj))))))))
          (fun he => hgnc (he ▸ hj)) (fun he => hsnc (he ▸ hj))
          (fun m2 hm2 he => hjm (he.trans
            (Option.some.inj (hCp ▸ hm2 : some m = some m2)).symm))]
  -- re-extract
  have hA2 := extractIds_agree hA hAagree
  have hB2 := extractIds_agree hB hBagree
  have hC2 := extractIds_agreeLR hC hCagree
  have hbg := extractIds_build hGet
    (show extractIds st' f2
      ({ gcell with color := cg', left := scell.right, parent := pg' } :
        NRec α).left = some (tc, idsc) from hC2)
    (show extractIds st' (f2+1)
      ({ gcell with color := cg', left := scell.right, parent := pg' } :
        NRec α).right = some (ta, idsa) from hA2)
  have hbs := extractIds_build hSet
    (show extractIds st' f2
      ({ scell with color := cs', right := some g, parent := ps' } :
        NRec α).left = some (tb, idsb) from hB2)
    (show extractIds st' (max f2 (f2+1) + 1)
      ({ scell with color := cs', right := some g, parent := ps' } :
        NRec α).right =
      some (BT.nd tc gcell.data cg' ta, g :: (idsc ++ idsa)) from hbg)
  refine ⟨hbs, ?_, ?_, ?_⟩
  · simp [inorder, List.append_assoc]
  · intro j
    simp only [List.mem_cons, List.mem_append]
    tauto
  · rw [List.nodup_cons, List.nodup_append, List.nodup_cons,
      List.nodup_append]
    refine ⟨?_, hndb, ⟨?_, hndc, hnda, ?_⟩, ?_⟩
    · intro hsmem
      rcases List.mem_append.mp hsmem with h1 | h2
      · exact hsnb h1
      · rcases List.mem_cons.mp h2 with h3 | h4
        · exact hgs h3.symm
        · rcases List.mem_append.mp h4 with h5 | h6
          · exact hsnc h5
          · exact hsna h6
    · intro hgmem
      rcases List.mem_append.mp hgmem with h1 | h2
      · exact hgnc h1
      · exact hgna h2
    · intro a ha hb
      exact hdisj1 (List.mem_cons.mpr (Or.inr (List.mem_append.mpr
        (Or.inr ha)))) hb
    · intro a ha hb
      rcases List.mem_cons.mp hb with h1 | h2
      · exact hgnb (h1 ▸ ha)
      · rcases List.mem_append.mp h2 with h3 | h4
        · exact hdisj2 ha h3
        · exact hdisj1 (List.mem_cons.mpr (Or.inr (List.mem_append.mpr
            (Or.inl ha)))) h4

/-- rotateRightDelete applied to any pivot of a well-formed tree that has a
left child succeeds, preserves the in-order element sequence, the node id
set and the stored element count, and moves the root pointer to the promoted
child exactly when the pivot was the root. -/
theorem rotateRightDelete_preserves {α : Type} {cmp : α → α → Int}
    (hrefl : ∀ a, cmp a a = 0)
    (hasym : ∀ a b, cmp a b < 0 → ¬ cmp b a = 0)
    (htr : ∀ a b c, cmp a b < 0 → cmp b c < 0 → cmp a c < 0)
    {st : RBState α} {fuel : Nat} {t : BT α} {ids : List Nat} {g s : Nat}
    {gcell : NRec α}
    (hx : extractIds st fuel st.root = some (t, ids))
    (hnd : ids.Nodup)
    (hpo : parsOk st fuel st.root none = true)
    (hrb : rbInv cmp t = true)
    (hgin : g ∈ ids)
    (hgc0 : hget st.heap g = some gcell)
    (hgl : gcell.left = some s) :
    ∃ st' F t' ids',
      rotateRightDelete cmp st g = some st' ∧
      extractIds st' F st'.root = some (t', ids') ∧
      inorder t' = inorder t ∧
      btSize t' = btSize t ∧
      (∀ j, j ∈ ids' ↔ j ∈ ids) ∧
      ids'.Nodup ∧
      st'.size = st.size ∧
      (gcell.parent = none → st'.root = some s) ∧
      (¬ gcell.parent = none → st'.root = st.root) := by
  have hrb' := hrb
  unfold rbInv at hrb'
  rw [Bool.and_eq_true, Bool.and_eq_true, Bool.and_eq_true] at hrb'
  obtain ⟨⟨⟨_, hnr⟩, hbh⟩, hasc⟩ := hrb'
  have hpw := pairwise_of_ascending htr hasc
  obtain ⟨gcell', tg, idsg, hgc, hxg, hsubids, hndg, hnrg, hbhg, hpwg,
    hframe⟩ := locatePivot hx hnd hpo hnr hbh hpw g hgin
  cases Option.some.inj (hgc0.symm.trans hgc)
  cases fuel with
  | zero => exact absurd hxg (by simp [extractIds])
  | succ f =>
  obtain ⟨ng, tsl, idssl, ta, idsa, hng, hS0, hA, htg, hidsgE⟩ :=
    extractIds_destr hxg
  cases Option.some.inj (hng.symm.trans hgc)
  rw [hgl] at hS0
  cases f with
  | zero => exact absurd hS0 (by simp [extractIds])
  | succ f2 =>
  obtain ⟨scell, tb, idsb, tc, idsc, hsc, hB, hC, htsl, hidsslE⟩ :=
    extractIds_destr hS0
  subst htg
  subst htsl
  subst hidsgE
  subst hidsslE
  -- membership helpers inside the pivot's id list
  have hgmem : g ∈ (g :: ((s :: (idsb ++ idsc)) ++ idsa)) :=
    List.mem_cons_self _ _
  have hsmem : s ∈ (g :: ((s :: (idsb ++ idsc)) ++ idsa)) :=
    List.mem_cons.mpr (Or.inr (List.mem_append.mpr (Or.inl
      (List.mem_cons.mpr (Or.inl rfl)))))
  have hcmem : ∀ m, m ∈ idsc → m ∈ (g :: ((s :: (idsb ++ idsc)) ++ idsa)) :=
    fun m hmb => List.mem_cons.mpr (Or.inr (List.mem_append.mpr (Or.inl
      (List.mem_cons.mpr (Or.inr (List.mem_append.mpr (Or.inr hmb)))))))
  have hgnot : ¬ g ∈ ((s :: (idsb ++ idsc)) ++ idsa) :=
    (List.nodup_cons.mp hndg).1
  have hsg : ¬ s = g := fun he => hgnot (List.mem_append.mpr (Or.inl
    (List.mem_cons.mpr (Or.inl he.symm))))
  have hsnotbc : ¬ s ∈ (idsb ++ idsc) :=
    (List.nodup_cons.mp ((List.nodup_append.mp
      (List.nodup_cons.mp hndg).2).1)).1
  have hmBoth : ∀ m, scell.right = some m →
      ∃ mcell, hget st.heap m = some mcell ∧ m ∈ idsc := by
    intro m hmeq
    have hC2 := hC
    rw [hmeq] at hC2
    cases f2 with
    | zero => exact absurd hC2 (by simp [extractIds])
    | succ f3 =>
      obtain ⟨mc, _, _, _, _, hmc, _, _, _, hide⟩ := extractIds_destr hC2
      exact ⟨mc, hmc, by rw [hide]; exact List.mem_cons_self _ _⟩
  have hm : ∀ m, scell.right = some m →
      ∃ mcell, hget st.heap m = some mcell ∧ ¬ m = g ∧ ¬ m = s := by
    intro m hmeq
    obtain ⟨mc, hmc, hmb⟩ := hmBoth m hmeq
    refine ⟨mc, hmc, ?_, ?_⟩
    · exact fun he => hgnot (List.mem_append.mpr (Or.inl (List.mem_cons.mpr
        (Or.inr (List.mem_append.mpr (Or.inr (he ▸ hmb)))))))
    · exact fun he => hsnotbc (List.mem_append.mpr (Or.inr (he ▸ hmb)))
  rcases hframe with ⟨hparg, hroot, htg0, hidsg0⟩ |
    ⟨pp, ppcell, hgp, hppin, hppnidsg, hppc, hside⟩
  · -- the pivot is the whole tree's root
    obtain ⟨st', hrun, hsz, _, _, hrt, hGet, hSet, hM, hO⟩ :=
      @rotateRightDelete_run_root α cmp st g s gcell scell hgc hgl hsc hsg
        hm hparg
    obtain ⟨hEx, hIno, hMem, hNd⟩ := rrdAssemble hA hB hC hGet hSet hM
      (fun j _ h1 h2 h3 => hO j h1 h2 h3) hndg
    refine ⟨st', max f2 (max f2 (f2+1) + 1) + 1,
      BT.nd tb scell.data scell.color (BT.nd tc gcell.data gcell.color ta),
      s :: (idsb ++ (g :: (idsc ++ idsa))), hrun, ?_, ?_, ?_, ?_, hNd, hsz,
      ?_, ?_⟩
    · rw [hrt]
      exact hEx
    · rw [hIno, htg0]
    · rw [btSize_eq_inorder_length, btSize_eq_inorder_length, hIno, htg0]
    · intro j
      rw [← hidsg0]
      exact hMem j
    · exact fun _ => hrt
    · exact fun hne => absurd hparg hne
  · -- the pivot hangs under a parent frame
    have hppg : ¬ pp = g := fun he => hppnidsg (he.symm ▸ hgmem)
    have hpps : ¬ pp = s := fun he => hppnidsg (he.symm ▸ hsmem)
    have hppmm : ∀ m, scell.right = some m → ¬ pp = m := by
      intro m hmeq he
      obtain ⟨_, _, hmb⟩ := hmBoth m hmeq
      exact hppnidsg (he.symm ▸ hcmem m hmb)
    have hOutMk : ∀ (st2 : RBState α), (∀ j, ¬ j = g → ¬ j = s →
        (∀ m, scell.right = some m → ¬ j = m) → ¬ j = pp →
        hget st2.heap j = hget st.heap j) →
        ∀ j, ¬ j ∈ (g :: ((s :: (idsb ++ idsc)) ++ idsa)) → ¬ j = pp →
        hget st2.heap j = hget st.heap j := by
      intro st2 hO j hj hjpp
      refine hO j (fun he => hj (he.symm ▸ hgmem))
        (fun he => hj (he.symm ▸ hsmem)) ?_ hjpp
      intro m hmeq he
      obtain ⟨_, _, hmb⟩ := hmBoth m hmeq
      exact hj (he.symm ▸ hcmem m hmb)
    rcases hside with ⟨hppl, hcont⟩ | ⟨hppr, hbhf, hxf, hcont⟩
    · -- pivot is the parent's left child: the relink test compares g to g
      obtain ⟨st', hrun, hsz, _, _, hrt, hGet, hSet, hM, hPP, hO⟩ :=
        @rotateRightDelete_run_frameSome α cmp st g s pp g gcell scell
          ppcell ({ gcell with left := scell.right }) hgc hgl hsc hsg hm
          hgp hppc hppg hpps hppmm hppl (Or.inl ⟨rfl, rfl⟩)
      have hcond : (cmp gcell.data
          ({ gcell with left := scell.right } : NRec α).data == 0) = true := by
        show (cmp gcell.data gcell.data == 0) = true
        rw [hrefl]
        rfl
      rw [if_pos hcond] at hPP
      obtain ⟨hEx, hIno, hMem, hNd⟩ := rrdAssemble hA hB hC hGet hSet hM
        (fun j hjmem h1 h2 h3 => hO j h1 h2 h3
          (fun he => hppnidsg (he.symm ▸ hjmem))) hndg
      obtain ⟨F, t2, ids2, hEx2, hIno2, hMem2, hNd2⟩ :=
        hcont st' (some s) _ _ _ hEx hIno hMem hNd (hOutMk st' hO) hPP
      refine ⟨st', F, t2, ids2, hrun, ?_, hIno2, ?_, hMem2, hNd2, hsz,
        ?_, ?_⟩
      · rw [hrt]
        exact hEx2
      · rw [btSize_eq_inorder_length, btSize_eq_inorder_length, hIno2]
      · exact fun he => absurd (hgp.symm.trans he) (by simp)
      · exact fun _ => hrt
    · -- pivot is the parent's right child: the guarded relink either sees
      -- an absent left sibling or one comparing below the pivot
      cases hpplx : ppcell.left with
      | none =>
        obtain ⟨st', hrun, hsz, _, _, hrt, hGet, hSet, hM, hPP, hO⟩ :=
          @rotateRightDelete_run_frameNone α cmp st g s pp gcell scell
            ppcell hgc hgl hsc hsg hm hgp hppc hppg hpps hppmm hpplx
        obtain ⟨hEx, hIno, hMem, hNd⟩ := rrdAssemble hA hB hC hGet hSet hM
          (fun j hjmem h1 h2 h3 => hO j h1 h2 h3
            (fun he => hppnidsg (he.symm ▸ hjmem))) hndg
        obtain ⟨F, t2, ids2, hEx2, hIno2, hMem2, hNd2⟩ :=
          hcont st' (some s) _ _ _ hEx hIno hMem hNd (hOutMk st' hO) hPP
        refine ⟨st', F, t2, ids2, hrun, ?_, hIno2, ?_, hMem2, hNd2, hsz,
          ?_, ?_⟩
        · rw [hrt]
          exact hEx2
        · rw [btSize_eq_inorder_length, btSize_eq_inorder_length, hIno2]
        · exact fun he => absurd (hgp.symm.trans he) (by simp)
        · exact fun _ => hrt
      | some x =>
        obtain ⟨xcell, hxc, hxlt, hxnidsg⟩ := hxf x hpplx
        obtain ⟨st', hrun, hsz, _, _, hrt, hGet, hSet, hM, hPP, hO⟩ :=
          @rotateRightDelete_run_frameSome α cmp st g s pp x gcell scell
            ppcell xcell hgc hgl hsc hsg hm hgp hppc hppg hpps hppmm hpplx
            (Or.inr ⟨⟨fun he => hxnidsg (he.symm ▸ hgmem),
              fun he => hxnidsg (he.symm ▸ hsmem),
              fun m hmeq he => by
                obtain ⟨_, _, hmb⟩ := hmBoth m hmeq
                exact hxnidsg (he.symm ▸ hcmem m hmb)⟩, hxc⟩)
        have hcond : ¬ (cmp gcell.data xcell.data == 0) = true :=
          fun hc => hasym xcell.data gcell.data hxlt (beq_iff_eq.mp hc)
        rw [if_neg hcond] at hPP
        obtain ⟨hEx, hIno, hMem, hNd⟩ := rrdAssemble hA hB hC hGet hSet hM
          (fun j hjmem h1 h2 h3 => hO j h1 h2 h3
            (fun he => hppnidsg (he.symm ▸ hjmem))) hndg
        obtain ⟨F, t2, ids2, hEx2, hIno2, hMem2, hNd2⟩ :=
          hcont st' (some s) _ _ _ hEx hIno hMem hNd (hOutMk st' hO) hPP
        refine ⟨st', F, t2, ids2, hrun, ?_, hIno2, ?_, hMem2, hNd2, hsz,
          ?_, ?_⟩
        · rw [hrt]
          exact hEx2
        · rw [btSize_eq_inorder_length, btSize_eq_inorder_length, hIno2]
        · exact fun he => absurd (hgp.symm.trans he) (by simp)
        · exact fun _ => hrt

/-- Parent coherence: under parsOk, every child cell of a node of the
extracted tree carries its parent's id in its parent field. -/
theorem parsOk_child {α : Type} {st : RBState α} :
    ∀ {fuel : Nat} {r par : Option Nat} {t : BT α} {ids : List Nat},
      extractIds st fuel r = some (t, ids) →
      parsOk st fuel r par = true →
      ∀ g gcell, g ∈ ids → hget st.heap g = some gcell →
      ∀ c, (gcell.left = some c ∨ gcell.right = some c) →
      ∃ ccell, hget st.heap c = some ccell ∧ ccell.parent = some g := by
  intro fuel
  induction fuel with
  | zero =>
    intro r par t ids hx hpo g gcell hg hgc c hc
    cases r with
    | none =>
      have hinj := Option.some.inj hx
      rw [Prod.mk.injEq] at hinj
      rw [← hinj.2] at hg
      exact absurd hg (List.not_mem_nil g)
    | some i => exact absurd hx (by simp [extractIds])
  | succ fuel ih =>
    intro r par t ids hx hpo g gcell hg hgc c hc
    cases r with
    | none =>
      have hinj := Option.some.inj hx
      rw [Prod.mk.injEq] at hinj
      rw [← hinj.2] at hg
      exact absurd hg (List.not_mem_nil g)
    | some q =>
      obtain ⟨n, tl, idsl, tr, idsr, hn, hl, hr, ht, hids⟩ :=
        extractIds_destr hx
      obtain ⟨n', hn', hpar, hpol, hpor⟩ := parsOk_destr hpo
      cases Option.some.inj (hn.symm.trans hn')
      subst hids
      rcases List.mem_cons.mp hg with hq | hrest
      · subst hq
        cases Option.some.inj (hgc.symm.trans hn)
        rcases hc with hcl | hcr
        · rw [hcl] at hpol hl
          cases fuel with
          | zero => exact absurd hl (by simp [extractIds])
          | succ f2 =>
            obtain ⟨cc, hcc, hccp, _, _⟩ := parsOk_destr hpol
            exact ⟨cc, hcc, hccp⟩
        · rw [hcr] at hpor hr
          cases fuel with
          | zero => exact absurd hr (by simp [extractIds])
          | succ f2 =>
            obtain ⟨cc, hcc, hccp, _, _⟩ := parsOk_destr hpor
            exact ⟨cc, hcc, hccp⟩
      · rcases List.mem_append.mp hrest with hgl2 | hgr2
        · exact ih hl hpol g gcell hgl2 hgc c hc
        · exact ih hr hpor g gcell hgr2 hgc c hc

/-- rotateLeft2 (the insertion-fixup left rotation), invoked from a node
whose parent `p` is the right child of the pivot `g` inside a well-formed
tree, succeeds, preserves the in-order element sequence, the node id set and
the stored element count, and moves the root pointer to the promoted parent
exactly when the pivot was the root. -/
theorem rotateLeft2_preserves {α : Type} {cmp : α → α → Int}
    (hrefl : ∀ a, cmp a a = 0)
    (hasym : ∀ a b, cmp a b < 0 → ¬ cmp b a = 0)
    (htr : ∀ a b c, cmp a b < 0 → cmp b c < 0 → cmp a c < 0)
    {st : RBState α} {fuel : Nat} {t : BT α} {ids : List Nat}
    {node p g : Nat} {ncell gcell : NRec α}
    (hx : extractIds st fuel st.root = some (t, ids))
    (hnd : ids.Nodup)
    (hpo : parsOk st fuel st.root none = true)
    (hrb : rbInv cmp t = true)
    (hn : hget st.heap node = some ncell)
    (hnp : ncell.parent = some p)
    (hgin : g ∈ ids)
    (hgc0 : hget st.heap g = some gcell)
    (hgr : gcell.right = some p) :
    ∃ st' F t' ids',
      rotateLeft2 cmp st node = some st' ∧
      extractIds st' F st'.root = some (t', ids') ∧
      inorder t' = inorder t ∧
      btSize t' = btSize t ∧
      (∀ j, j ∈ ids' ↔ j ∈ ids) ∧
      ids'.Nodup ∧
      st'.size = st.size ∧
      (gcell.parent = none → st'.root = some p) ∧
      (¬ gcell.parent = none → st'.root = st.root) := by
  have hrb' := hrb
  unfold rbInv at hrb'
  rw [Bool.and_eq_true, Bool.and_eq_true, Bool.and_eq_true] at hrb'
  obtain ⟨⟨⟨_, hnr⟩, hbh⟩, hasc⟩ := hrb'
  have hpw := pairwise_of_ascending htr hasc
  obtain ⟨gcell', tg, idsg, hgc, hxg, hsubids, hndg, hnrg, hbhg, hpwg,
    hframe⟩ := locatePivot hx hnd hpo hnr hbh hpw g hgin
  cases Option.some.inj (hgc0.symm.trans hgc)
  obtain ⟨pc0, hpc0, hpg2⟩ :=
    parsOk_child hx hpo g gcell hgin hgc p (Or.inr hgr)
  cases fuel with
  | zero => exact absurd hxg (by simp [extractIds])
  | succ f =>
  obtain ⟨ng, ta, idsa, tsr, idssr, hng, hA, hS0, htg, hidsgE⟩ :=
    extractIds_destr hxg
  cases Option.some.inj (hng.symm.trans hgc)
  rw [hgr] at hS0
  cases f with
  | zero => exact absurd hS0 (by simp [extractIds])
  | succ f2 =>
  obtain ⟨scell, tb, idsb, tc, idsc, hsc, hB, hC, htsr, hidssrE⟩ :=
    extractIds_destr hS0
  subst htg
  subst htsr
  subst hidsgE
  subst hidssrE
  have hpg2s : scell.parent = some g := by
    cases Option.some.inj (hpc0.symm.trans hsc)
    exact hpg2
  -- membership helpers inside the pivot's id list
  have hgmem : g ∈ (g :: (idsa ++ (p :: (idsb ++ idsc)))) :=
    List.mem_cons_self _ _
  have hsmem : p ∈ (g :: (idsa ++ (p :: (idsb ++ idsc)))) :=
    List.mem_cons.mpr (Or.inr (List.mem_append.mpr (Or.inr
      (List.mem_cons.mpr (Or.inl rfl)))))
  have hbmem : ∀ m, m ∈ idsb → m ∈ (g :: (idsa ++ (p :: (idsb ++ idsc)))) :=
    fun m hmb => List.mem_cons.mpr (Or.inr (List.mem_append.mpr (Or.inr
      (List.mem_cons.mpr (Or.inr (List.mem_append.mpr (Or.inl hmb)))))))
  have hgnot : ¬ g ∈ (idsa ++ (p :: (idsb ++ idsc))) :=
    (List.nodup_cons.mp hndg).1
  have hsg : ¬ p = g := fun he => hgnot (List.mem_append.mpr (Or.inr
    (List.mem_cons.mpr (Or.inl he.symm))))
  have hsnotbc : ¬ p ∈ (idsb ++ idsc) :=
    (List.nodup_cons.mp ((List.nodup_append.mp
      (List.nodup_cons.mp hndg).2).2.1)).1
  have hmBoth : ∀ m, scell.left = some m →
      ∃ mcell, hget st.heap m = some mcell ∧ m ∈ idsb := by
    intro m hmeq
    have hB2 := hB
    rw [hmeq] at hB2
    cases f2 with
    | zero => exact absurd hB2 (by simp [extractIds])
    | succ f3 =>
      obtain ⟨mc, _, _, _, _, hmc, _, _, _, hide⟩ := extractIds_destr hB2
      exact ⟨mc, hmc, by rw [hide]; exact List.mem_cons_self _ _⟩
  have hm : ∀ m, scell.left = some m →
      ∃ mcell, hget st.heap m = some mcell ∧ ¬ m = g ∧ ¬ m = p := by
    intro m hmeq
    obtain ⟨mc, hmc, hmb⟩ := hmBoth m hmeq
    refine ⟨mc, hmc, ?_, ?_⟩
    · exact fun he => hgnot (List.mem_append.mpr (Or.inr (List.mem_cons.mpr
        (Or.inr (List.mem_append.mpr (Or.inl (he ▸ hmb)))))))
    · exact fun he => hsnotbc (List.mem_append.mpr (Or.inl (he ▸ hmb)))
  rcases hframe with ⟨hparg, hroot, htg0, hidsg0⟩ |
    ⟨pp, ppcell, hgp, hppin, hppnidsg, hppc, hside⟩
  · -- the pivot is the whole tree's root
    obtain ⟨st', hrun, hsz, _, _, hrt, hGet, hSet, hM, hO⟩ :=
      @rotateLeft2_run_root α cmp st node p g ncell scell gcell hn hnp hsc
        hpg2s hgc hsg hm hparg
    obtain ⟨hEx, hIno, hMem, hNd⟩ := rldAssemble hA hB hC hGet hSet hM
      (fun j _ h1 h2 h3 => hO j h1 h2 h3) hndg
    refine ⟨st', max (max (f2+1) f2 + 1) f2 + 1,
      BT.nd (BT.nd ta gcell.data gcell.color tb) scell.data Color.BLACK tc,
      p :: ((g :: (idsa ++ idsb)) ++ idsc), hrun, ?_, ?_, ?_, ?_, hNd, hsz,
      ?_, ?_⟩
    · rw [hrt]
      exact hEx
    · rw [hIno, htg0]
    · rw [btSize_eq_inorder_length, btSize_eq_inorder_length, hIno, htg0]
    · intro j
      rw [← hidsg0]
      exact hMem j
    · exact fun _ => hrt
    · exact fun hne => absurd hparg hne
  · -- the pivot hangs under a parent frame
    have hppg : ¬ pp = g := fun he => hppnidsg (he.symm ▸ hgmem)
    have hpps : ¬ pp = p := fun he => hppnidsg (he.symm ▸ hsmem)
    have hppmm : ∀ m, scell.left = some m → ¬ pp = m := by
      intro m hmeq he
      obtain ⟨_, _, hmb⟩ := hmBoth m hmeq
      exact hppnidsg (he.symm ▸ hbmem m hmb)
    have hOutMk : ∀ (st2 : RBState α), (∀ j, ¬ j = g → ¬ j = p →
        (∀ m, scell.left = some m → ¬ j = m) → ¬ j = pp →
        hget st2.heap j = hget st.heap j) →
        ∀ j, ¬ j ∈ (g :: (idsa ++ (p :: (idsb ++ idsc)))) → ¬ j = pp →
        hget st2.heap j = hget st.heap j := by
      intro st2 hO j hj hjpp
      refine hO j (fun he => hj (he.symm ▸ hgmem))
        (fun he => hj (he.symm ▸ hsmem)) ?_ hjpp
      intro m hmeq he
      obtain ⟨_, _, hmb⟩ := hmBoth m hmeq
      exact hj (he.symm ▸ hbmem m hmb)
    rcases hside with ⟨hppl, hcont⟩ | ⟨hppr, hbhf, hxf, hcont⟩
    · -- pivot is the parent's left child: the relink test compares g to g
      obtain ⟨st', hrun, hsz, _, _, hrt, hGet, hSet, hM, hPP, hO⟩ :=
        @rotateLeft2_run_frame α cmp st node p g pp g ncell scell gcell
          ppcell ({ gcell with right := scell.left }) hn hnp hsc hpg2s hgc
          hsg hm hgp hppc hppg hpps hppmm hppl (Or.inl ⟨rfl, rfl⟩)
      have hcond : (cmp
          ({ gcell with right := scell.left } : NRec α).data
          gcell.data == 0) = true := by
        show (cmp gcell.data gcell.data == 0) = true
        rw [hrefl]
        rfl
      rw [if_pos hcond] at hPP
      obtain ⟨hEx, hIno, hMem, hNd⟩ := rldAssemble hA hB hC hGet hSet hM
        (fun j hjmem h1 h2 h3 => hO j h1 h2 h3
          (fun he => hppnidsg (he.symm ▸ hjmem))) hndg
      obtain ⟨F, t2, ids2, hEx2, hIno2, hMem2, hNd2⟩ :=
        hcont st' (some p) _ _ _ hEx hIno hMem hNd (hOutMk st' hO) hPP
      refine ⟨st', F, t2, ids2, hrun, ?_, hIno2, ?_, hMem2, hNd2, hsz,
        ?_, ?_⟩
      · rw [hrt]
        exact hEx2
      · rw [btSize_eq_inorder_length, btSize_eq_inorder_length, hIno2]
      · exact fun he => absurd (hgp.symm.trans he) (by simp)
      · exact fun _ => hrt
    · -- pivot is the parent's right child: the parent's left child exists
      -- (the subtree has black height at least two) and compares below g
      obtain ⟨hgB, hbhEq, hbhOne⟩ := hbhf
      have hs2 : 2 ≤ btSize (BT.nd ta gcell.data gcell.color
          (BT.nd tb scell.data scell.color tc)) := by
        have hlen := extractIds_length hxg
        have h2 := two_le_length_of_mem hgmem hsmem
          (fun he => hsg he.symm)
        omega
      have hge2 := blackH_ge_two hnrg hbhEq hs2
      cases hpplx : ppcell.left with
      | none =>
        have := hbhOne hpplx
        omega
      | some x =>
      obtain ⟨xcell, hxc, hxlt, hxnidsg⟩ := hxf x hpplx
      obtain ⟨st', hrun, hsz, _, _, hrt, hGet, hSet, hM, hPP, hO⟩ :=
        @rotateLeft2_run_frame α cmp st node p g pp x ncell scell gcell
          ppcell xcell hn hnp hsc hpg2s hgc hsg hm hgp hppc hppg hpps hppmm
          hpplx (Or.inr ⟨⟨fun he => hxnidsg (he.symm ▸ hgmem),
            fun he => hxnidsg (he.symm ▸ hsmem),
            fun m hmeq he => by
              obtain ⟨_, _, hmb⟩ := hmBoth m hmeq
              exact hxnidsg (he.symm ▸ hbmem m hmb)⟩, hxc⟩)
      have hcond : ¬ (cmp xcell.data gcell.data == 0) = true := by
        intro hc
        have := beq_iff_eq.mp hc
        omega
      rw [if_neg hcond] at hPP
      obtain ⟨hEx, hIno, hMem, hNd⟩ := rldAssemble hA hB hC hGet hSet hM
        (fun j hjmem h1 h2 h3 => hO j h1 h2 h3
          (fun he => hppnidsg (he.symm ▸ hjmem))) hndg
      obtain ⟨F, t2, ids2, hEx2, hIno2, hMem2, hNd2⟩ :=
        hcont st' (some p) _ _ _ hEx hIno hMem hNd (hOutMk st' hO) hPP
      refine ⟨st', F, t2, ids2, hrun, ?_, hIno2, ?_, hMem2, hNd2, hsz,
        ?_, ?_⟩
      · rw [hrt]
        exact hEx2
      · rw [btSize_eq_inorder_length, btSize_eq_inorder_length, hIno2]
      · exact fun he => absurd (hgp.symm.trans he) (by simp)
      · exact fun _ => hrt

/-- rotateRight2 (the insertion-fixup right rotation), invoked from a node
whose parent `p` is the left child of the pivot `g` inside a well-formed
tree, succeeds, preserves the in-order element sequence, the node id set and
the stored element count, and moves the root pointer to the promoted parent
exactly when the pivot was the root. -/
theorem rotateRight2_preserves {α : Type} {cmp : α → α → Int}
    (hrefl : ∀ a, cmp a a = 0)
    (hasym : ∀ a b, cmp a b < 0 → ¬ cmp b a = 0)
    (htr : ∀ a b c, cmp a b < 0 → cmp b c < 0 → cmp a c < 0)
    {st : RBState α} {fuel : Nat} {t : BT α} {ids : List Nat}
    {node p g : Nat} {ncell gcell : NRec α}
    (hx : extractIds st fuel st.root = some (t, ids))
    (hnd : ids.Nodup)
    (hpo : parsOk st fuel st.root none = true)
    (hrb : rbInv cmp t = true)
    (hn : hget st.heap node = some ncell)
    (hnp : ncell.parent = some p)
    (hgin : g ∈ ids)
    (hgc0 : hget st.heap g = some gcell)
    (hgl : gcell.left = some p) :
    ∃ st' F t' ids',
      rotateRight2 cmp st node = some st' ∧
      extractIds st' F st'.root = some (t', ids') ∧
      inorder t' = inorder t ∧
      btSize t' = btSize t ∧
      (∀ j, j ∈ ids' ↔ j ∈ ids) ∧
      ids'.Nodup ∧
      st'.size = st.size ∧
      (gcell.parent = none → st'.root = some p) ∧
      (¬ gcell.parent = none → st'.root = st.root) := by
  have hrb' := hrb
  unfold rbInv at hrb'
  rw [Bool.and_eq_true, Bool.and_eq_true, Bool.and_eq_true] at hrb'
  obtain ⟨⟨⟨_, hnr⟩, hbh⟩, hasc⟩ := hrb'
  have hpw := pairwise_of_ascending htr hasc
  obtain ⟨gcell', tg, idsg, hgc, hxg, hsubids, hndg, hnrg, hbhg, hpwg,
    hframe⟩ := locatePivot hx hnd hpo hnr hbh hpw g hgin
  cases Option.some.inj (hgc0.symm.trans hgc)
  obtain ⟨pc0, hpc0, hpg2⟩ :=
    parsOk_child hx hpo g gcell hgin hgc p (Or.inl hgl)
  cases fuel with
  | zero => exact absurd hxg (by simp [extractIds])
  | succ f =>
  obtain ⟨ng, tsl, idssl, ta, idsa, hng, hS0, hA, htg, hidsgE⟩ :=
    extractIds_destr hxg
  cases Option.some.inj (hng.symm.trans hgc)
  rw [hgl] at hS0
  cases f with
  | zero => exact absurd hS0 (by simp [extractIds])
  | succ f2 =>
  obtain ⟨scell, tb, idsb, tc, idsc, hsc, hB, hC, htsl, hidsslE⟩ :=
    extractIds_destr hS0
  subst htg
  subst htsl
  subst hidsgE
  subst hidsslE
  have hpg2s : scell.parent = some g := by
    cases Option.some.inj (hpc0.symm.trans hsc)
    exact hpg2
  -- membership helpers inside the pivot's id list
  have hgmem : g ∈ (g :: ((p :: (idsb ++ idsc)) ++ idsa)) :=
    List.mem_cons_self _ _
  have hsmem : p ∈ (g :: ((p :: (idsb ++ idsc)) ++ idsa)) :=
    List.mem_cons.mpr (Or.inr (List.mem_append.mpr (Or.inl
      (List.mem_cons.mpr (Or.inl rfl)))))
  have hcmem : ∀ m, m ∈ idsc → m ∈ (g :: ((p :: (idsb ++ idsc)) ++ idsa)) :=
    fun m hmb => List.mem_cons.mpr (Or.inr (List.mem_append.mpr (Or.inl
      (List.mem_cons.mpr (Or.inr (List.mem_append.mpr (Or.inr hmb)))))))
  have hgnot : ¬ g ∈ ((p :: (idsb ++ idsc)) ++ idsa) :=
    (List.nodup_cons.mp hndg).1
  have hsg : ¬ p = g := fun he => hgnot (List.mem_append.mpr (Or.inl
    (List.mem_cons.mpr (Or.inl he.symm))))
  have hsnotbc : ¬ p ∈ (idsb ++ idsc) :=
    (List.nodup_cons.mp ((List.nodup_append.mp
      (List.nodup_cons.mp hndg).2).1)).1
  have hmBoth : ∀ m, scell.right = some m →
      ∃ mcell, hget st.heap m = some mcell ∧ m ∈ idsc := by
    intro m hmeq
    have hC2 := hC
    rw [hmeq] at hC2
    cases f2 with
    | zero => exact absurd hC2 (by simp [extractIds])
    | succ f3 =>
      obtain ⟨mc, _, _, _, _, hmc, _, _, _, hide⟩ := extractIds_destr hC2
      exact ⟨mc, hmc, by rw [hide]; exact List.mem_cons_self _ _⟩
  have hm : ∀ m, scell.right = some m →
      ∃ mcell, hget st.heap m = some mcell ∧ ¬ m = g ∧ ¬ m = p := by
    intro m hmeq
    obtain ⟨mc, hmc, hmb⟩ := hmBoth m hmeq
    refine ⟨mc, hmc, ?_, ?_⟩
    · exact fun he => hgnot (List.mem_append.mpr (Or.inl (List.mem_cons.mpr
        (Or.inr (List.mem_append.mpr (Or.inr (he ▸ hmb)))))))
    · exact fun he => hsnotbc (List.mem_append.mpr (Or.inr (he ▸ hmb)))
  rcases hframe with ⟨hparg, hroot, htg0, hidsg0⟩ |
    ⟨pp, ppcell, hgp, hppin, hppnidsg, hppc, hside⟩
  · -- the pivot is the whole tree's root
    obtain ⟨st', hrun, hsz, _, _, hrt, hGet, hSet, hM, hO⟩ :=
      @rotateRight2_run_root α cmp st node p g ncell scell gcell hn hnp hsc
        hpg2s hgc hsg hm hparg
    obtain ⟨hEx, hIno, hMem, hNd⟩ := rrdAssemble hA hB hC hGet hSet hM
      (fun j _ h1 h2 h3 => hO j h1 h2 h3) hndg
    refine ⟨st', max f2 (max f2 (f2+1) + 1) + 1,
      BT.nd tb scell.data Color.BLACK (BT.nd tc gcell.data Color.RED ta),
      p :: (idsb ++ (g :: (idsc ++ idsa))), hrun, ?_, ?_, ?_, ?_, hNd, hsz,
      ?_, ?_⟩
    · rw [hrt]
      exact hEx
    · rw [hIno, htg0]
    · rw [btSize_eq_inorder_length, btSize_eq_inorder_length, hIno, htg0]
    · intro j
      rw [← hidsg0]
      exact hMem j
    · exact fun _ => hrt
    · exact fun hne => absurd hparg hne
  · -- the pivot hangs under a parent frame
    have hppg : ¬ pp = g := fun he => hppnidsg (he.symm ▸ hgmem)
    have hpps : ¬ pp = p := fun he => hppnidsg (he.symm ▸ hsmem)
    have hppmm : ∀ m, scell.right = some m → ¬ pp = m := by
      intro m hmeq he
      obtain ⟨_, _, hmb⟩ := hmBoth m hmeq
      exact hppnidsg (he.symm ▸ hcmem m hmb)
    have hOutMk : ∀ (st2 : RBState α), (∀ j, ¬ j = g → ¬ j = p →
        (∀ m, scell.right = some m → ¬ j = m) → ¬ j = pp →
        hget st2.heap j = hget st.heap j) →
        ∀ j, ¬ j ∈ (g :: ((p :: (idsb ++ idsc)) ++ idsa)) → ¬ j = pp →
        hget st2.heap j = hget st.heap j := by
      intro st2 hO j hj hjpp
      refine hO j (fun he => hj (he.symm ▸ hgmem))
        (fun he => hj (he.symm ▸ hsmem)) ?_ hjpp
      intro m hmeq he
      obtain ⟨_, _, hmb⟩ := hmBoth m hmeq
      exact hj (he.symm ▸ hcmem m hmb)
    rcases hside with ⟨hppl, hcont⟩ | ⟨hppr, hbhf, hxf, hcont⟩
    · -- pivot is the parent's left child: the relink test compares g to g
      obtain ⟨st', hrun, hsz, _, _, hrt, hGet, hSet, hM, hPP, hO⟩ :=
        @rotateRight2_run_frame α cmp st node p g pp g ncell scell gcell
          ppcell ({ gcell with left := scell.right }) hn hnp hsc hpg2s hgc
          hsg hm hgp hppc hppg hpps hppmm hppl (Or.inl ⟨rfl, rfl⟩)
      have hcond : (cmp
          ({ gcell with left := scell.right } : NRec α).data
          gcell.data == 0) = true := by
        show (cmp gcell.data gcell.data == 0) = true
        rw [hrefl]
        rfl
      rw [if_pos hcond] at hPP
      obtain ⟨hEx, hIno, hMem, hNd⟩ := rrdAssemble hA hB hC hGet hSet hM
        (fun j hjmem h1 h2 h3 => hO j h1 h2 h3
          (fun he => hppnidsg (he.symm ▸ hjmem))) hndg
      obtain ⟨F, t2, ids2, hEx2, hIno2, hMem2, hNd2⟩ :=
        hcont st' (some p) _ _ _ hEx hIno hMem hNd (hOutMk st' hO) hPP
      refine ⟨st', F, t2, ids2, hrun, ?_, hIno2, ?_, hMem2, hNd2, hsz,
        ?_, ?_⟩
      · rw [hrt]
        exact hEx2
      · rw [btSize_eq_inorder_length, btSize_eq_inorder_length, hIno2]
      · exact fun he => absurd (hgp.symm.trans he) (by simp)
      · exact fun _ => hrt
    · -- pivot is the parent's right child: the parent's left child exists
      -- (the subtree has black height at least two) and compares below g
      obtain ⟨hgB, hbhEq, hbhOne⟩ := hbhf
      have hs2 : 2 ≤ btSize (BT.nd (BT.nd tb scell.data scell.color tc)
          gcell.data gcell.color ta) := by
        have hlen := extractIds_length hxg
        have h2 := two_le_length_of_mem hgmem hsmem
          (fun he => hsg he.symm)
        omega
      have hge2 := blackH_ge_two hnrg hbhEq hs2
      cases hpplx : ppcell.left with
      | none =>
        have := hbhOne hpplx
        omega
      | some x =>
      obtain ⟨xcell, hxc, hxlt, hxnidsg⟩ := hxf x hpplx
      obtain ⟨st', hrun, hsz, _, _, hrt, hGet, hSet, hM, hPP, hO⟩ :=
        @rotateRight2_run_frame α cmp st node p g pp x ncell scell gcell
          ppcell xcell hn hnp hsc hpg2s hgc hsg hm hgp hppc hppg hpps hppmm
          hpplx (Or.inr ⟨⟨fun he => hxnidsg (he.symm ▸ hgmem),
            fun he => hxnidsg (he.symm ▸ hsmem),
            fun m hmeq he => by
              obtain ⟨_, _, hmb⟩ := hmBoth m hmeq
              exact hxnidsg (he.symm ▸ hcmem m hmb)⟩, hxc⟩)
      have hcond : ¬ (cmp xcell.data gcell.data == 0) = true := by
        intro hc
        have := beq_iff_eq.mp hc
        omega
      rw [if_neg hcond] at hPP
      obtain ⟨hEx, hIno, hMem, hNd⟩ := rrdAssemble hA hB hC hGet hSet hM
        (fun j hjmem h1 h2 h3 => hO j h1 h2 h3
          (fun he => hppnidsg (he.symm ▸ hjmem))) hndg
      obtain ⟨F, t2, ids2, hEx2, hIno2, hMem2, hNd2⟩ :=
        hcont st' (some p) _ _ _ hEx hIno hMem hNd (hOutMk st' hO) hPP
      refine ⟨st', F, t2, ids2, hrun, ?_, hIno2, ?_, hMem2, hNd2, hsz,
        ?_, ?_⟩
      · rw [hrt]
        exact hEx2
      · rw [btSize_eq_inorder_length, btSize_eq_inorder_length, hIno2]
      · exact fun he => absurd (hgp.symm.trans he) (by simp)
      · exact fun _ => hrt

/-- C6: every rotation primitive — the deletion-fixup left and right
rotations and the insertion-fixup left and right rotations — applied to any
applicable node of any well-formed tree (extraction succeeds, node ids are
unique, parent pointers are coherent, and the red-black invariants hold)
succeeds, leaves the tree's element count (both the stored size field and
the number of extracted nodes) unchanged, leaves the in-order element
sequence unchanged, and only restructures links: the node id set is
preserved, and the tree's root pointer is updated to the promoted node
exactly when the rotated subtree was the whole tree, and is unchanged
otherwise. -/
theorem C6_rotations_preserve {α : Type} {cmp : α → α → Int}
    (hrefl : ∀ a, cmp a a = 0)
    (hasym : ∀ a b, cmp a b < 0 → ¬ cmp b a = 0)
    (htr : ∀ a b c, cmp a b < 0 → cmp b c < 0 → cmp a c < 0) :
    (∀ (st : RBState α) (fuel : Nat) (t : BT α) (ids : List Nat)
        (g s : Nat) (gcell : NRec α),
      extractIds st fuel st.root = some (t, ids) → ids.Nodup →
      parsOk st fuel st.root none = true → rbInv cmp t = true →
      g ∈ ids → hget st.heap g = some gcell → gcell.right = some s →
      ∃ st' F t' ids',
        rotateLeftDelete cmp st g = some st' ∧
        extractIds st' F st'.root = some (t', ids') ∧
        inorder t' = inorder t ∧ btSize t' = btSize t ∧
        (∀ j, j ∈ ids' ↔ j ∈ ids) ∧ ids'.Nodup ∧ st'.size = st.size ∧
        (gcell.parent = none → st'.root = some s) ∧
        (¬ gcell.parent = none → st'.root = st.root)) ∧
    (∀ (st : RBState α) (fuel : Nat) (t : BT α) (ids : List Nat)
        (g s : Nat) (gcell : NRec α),
      extractIds st fuel st.root = some (t, ids) → ids.Nodup →
      parsOk st fuel st.root none = true → rbInv cmp t = true →
      g ∈ ids → hget st.heap g = some gcell → gcell.left = some s →
      ∃ st' F t' ids',
        rotateRightDelete cmp st g = some st' ∧
        extractIds st' F st'.root = some (t', ids') ∧
        inorder t' = inorder t ∧ btSize t' = btSize t ∧
        (∀ j, j ∈ ids' ↔ j ∈ ids) ∧ ids'.Nodup ∧ st'.size = st.size ∧
        (gcell.parent = none → st'.root = some s) ∧
        (¬ gcell.parent = none → st'.root = st.root)) ∧
    (∀ (st : RBState α) (fuel : Nat) (t : BT α) (ids : List Nat)
        (node p g : Nat) (ncell gcell : NRec α),
      extractIds st fuel st.root = some (t, ids) → ids.Nodup →
      parsOk st fuel st.root none = true → rbInv cmp t = true →
      hget st.heap node = some ncell → ncell.parent = some p →
      g ∈ ids → hget st.heap g = some gcell → gcell.right = some p →
      ∃ st' F t' ids',
        rotateLeft2 cmp st node = some st' ∧
        extractIds st' F st'.root = some (t', ids') ∧
        inorder t' = inorder t ∧ btSize t' = btSize t ∧
        (∀ j, j ∈ ids' ↔ j ∈ ids) ∧ ids'.Nodup ∧ st'.size = st.size ∧
        (gcell.parent = none → st'.root = some p) ∧
        (¬ gcell.parent = none → st'.root = st.root)) ∧
    (∀ (st : RBState α) (fuel : Nat) (t : BT α) (ids : List Nat)
        (node p g : Nat) (ncell gcell : NRec α),
      extractIds st fuel st.root = some (t, ids) → ids.Nodup →
      parsOk st fuel st.root none = true → rbInv cmp t = true →
      hget st.heap node = some ncell → ncell.parent = some p →
      g ∈ ids → hget st.heap g = some gcell → gcell.left = some p →
      ∃ st' F t' ids',
        rotateRight2 cmp st node = some st' ∧
        extractIds st' F st'.root = some (t', ids') ∧
        inorder t' = inorder t ∧ btSize t' = btSize t ∧
        (∀ j, j ∈ ids' ↔ j ∈ ids) ∧ ids'.Nodup ∧ st'.size = st.size ∧
        (gcell.parent = none → st'.root = some p) ∧
        (¬ gcell.parent = none → st'.root = st.root)) :=
  ⟨fun _ _ _ _ _ _ _ hx hnd hpo hrb hgin hgc hgr =>
    rotateLeftDelete_preserves hrefl hasym htr hx hnd hpo hrb hgin hgc hgr,
   fun _ _ _ _ _ _ _ hx hnd hpo hrb hgin hgc hgl =>
    rotateRightDelete_preserves hrefl hasym htr hx hnd hpo hrb hgin hgc hgl,
   fun _ _ _ _ _ _ _ _ _ hx hnd hpo hrb hn hnp hgin hgc hgr =>
    rotateLeft2_preserves hrefl hasym htr hx hnd hpo hrb hn hnp hgin hgc hgr,
   fun _ _ _ _ _ _ _ _ _ hx hnd hpo hrb hn hnp hgin hgc hgl =>
    rotateRight2_preserves hrefl hasym htr hx hnd hpo hrb hn hnp hgin hgc
      hgl⟩

/-- Witness for C6 at the concrete seven-node tree `rotSt`: all four rotation
primitives are exercised (the two delete rotations at the root pivot, the two
insert rotations from a grandchild of the root), and each preserves the
in-order sequence, id set and size while moving the root to the promoted
node. -/
theorem C6_rotations_preserve_witness :
    (∃ st' F t' ids',
      rotateLeftDelete intCmp rotSt 1 = some st' ∧
      extractIds st' F st'.root = some (t', ids') ∧
      inorder t' = inorder rotT ∧ btSize t' = btSize rotT ∧
      (∀ j, j ∈ ids' ↔ j ∈ rotIds) ∧ ids'.Nodup ∧ st'.size = rotSt.size ∧
      ((⟨20, Color.BLACK, some 5, some 3, none⟩ : NRec ℤ).parent = none →
        st'.root = some 3) ∧
      (¬ (⟨20, Color.BLACK, some 5, some 3, none⟩ : NRec ℤ).parent = none →
        st'.root = rotSt.root)) ∧
    (∃ st' F t' ids',
      rotateRightDelete intCmp rotSt 1 = some st' ∧
      extractIds st' F st'.root = some (t', ids') ∧
      inorder t' = inorder rotT ∧ btSize t' = btSize rotT ∧
      (∀ j, j ∈ ids' ↔ j ∈ rotIds) ∧ ids'.Nodup ∧ st'.size = rotSt.size ∧
      ((⟨20, Color.BLACK, some 5, some 3, none⟩ : NRec ℤ).parent = none →
        st'.root = some 5) ∧
      (¬ (⟨20, Color.BLACK, some 5, some 3, none⟩ : NRec ℤ).parent = none →
        st'.root = rotSt.root)) ∧
    (∃ st' F t' ids',
      rotateLeft2 intCmp rotSt 4 = some st' ∧
      extractIds st' F st'.root = some (t', ids') ∧
      inorder t' = inorder rotT ∧ btSize t' = btSize rotT ∧
      (∀ j, j ∈ ids' ↔ j ∈ rotIds) ∧ ids'.Nodup ∧ st'.size = rotSt.size ∧
      ((⟨20, Color.BLACK, some 5, some 3, none⟩ : NRec ℤ).parent = none →
        st'.root = some 3) ∧
      (¬ (⟨20, Color.BLACK, some 5, some 3, none⟩ : NRec ℤ).parent = none →
        st'.root = rotSt.root)) ∧
    (∃ st' F t' ids',
      rotateRight2 intCmp rotSt 6 = some st' ∧
      extractIds st' F st'.root = some (t', ids') ∧
      inorder t' = inorder rotT ∧ btSize t' = btSize rotT ∧
      (∀ j, j ∈ ids' ↔ j ∈ rotIds) ∧ ids'.Nodup ∧ st'.size = rotSt.size ∧
      ((⟨20, Color.BLACK, some 5, some 3, none⟩ : NRec ℤ).parent = none →
        st'.root = some 5) ∧
      (¬ (⟨20, Color.BLACK, some 5, some 3, none⟩ : NRec ℤ).parent = none →
        st'.root = rotSt.root)) := by
  have h := @C6_rotations_preserve ℤ intCmp intCmp_refl
    (fun a b => @intCmp_asym a b) intCmp_trans
  exact ⟨h.1 rotSt 3 rotT rotIds 1 3 ⟨20, Color.BLACK, some 5, some 3, none⟩
      (by rfl) (by decide) (by rfl) (by rfl) (by decide) (by rfl) (by rfl),
    h.2.1 rotSt 3 rotT rotIds 1 5 ⟨20, Color.BLACK, some 5, some 3, none⟩
      (by rfl) (by decide) (by rfl) (by rfl) (by decide) (by rfl) (by rfl),
    h.2.2.1 rotSt 3 rotT rotIds 4 3 1 ⟨40, Color.RED, none, none, some 3⟩
      ⟨20, Color.BLACK, some 5, some 3, none⟩
      (by rfl) (by decide) (by rfl) (by rfl) (by rfl) (by rfl) (by decide)
      (by rfl) (by rfl),
    h.2.2.2 rotSt 3 rotT rotIds 6 5 1 ⟨2, Color.RED, none, none, some 5⟩
      ⟨20, Color.BLACK, some 5, some 3, none⟩
      (by rfl) (by decide) (by rfl) (by rfl) (by rfl) (by rfl) (by decide)
      (by rfl) (by rfl)⟩

end RBVerify



